import Mathlib

/-!
Verification development for the MEA wrapper module
(`src/web/reports/mea/wrapper.py` of the cv-visualizer repository).

The Python functions `error_trace_pretty_print`, `error_trace_pretty_parse`
and `process_args` are shallowly embedded below.  Python values that occur in
trace-element fields (ints, strings, booleans, `None`) are modelled by the
`PyVal` type; Python in-place mutation is modelled by returning the final
state of the mutated data alongside the ordinary result; Python exceptions
are modelled by `Option`/`Except`.
-/

/-- Fuel-based helper for decimal rendering of a natural number. -/
def natReprAux : Nat → Nat → List Char
  | 0, _ => []
  | fuel + 1, n =>
    if n < 10 then [Char.ofNat (48 + n)]
    else natReprAux fuel (n / 10) ++ [Char.ofNat (48 + n % 10)]

/-- One ASCII decimal rendering of a natural number, digit characters only;
models Python `str` on non-negative ints (`n + 1` fuel always suffices). -/
def natReprChars (n : Nat) : List Char := natReprAux (n + 1) n

/-- Models Python `str` on an int (decimal, `-` sign for negatives). -/
def intReprStr (n : Int) : String :=
  if n < 0 then "-" ++ String.mk (natReprChars n.natAbs)
  else String.mk (natReprChars n.toNat)

/-- A Python value as it occurs in trace-element fields. -/
inductive PyVal where
  | pnone
  | pbool (b : Bool)
  | pint (n : Int)
  | pstr (s : String)
deriving DecidableEq, Repr

open PyVal

/-- Models Python `str(v)`. -/
def pyStr : PyVal → String
  | pnone => "None"
  | pbool true => "True"
  | pbool false => "False"
  | pint n => intReprStr n
  | pstr s => s

/-- Models Python truthiness of a value. -/
def pyTruthy : PyVal → Bool
  | pnone => false
  | pbool b => b
  | pint n => n != 0
  | pstr s => s != ""

/-- Numeric view used by Python `==` (`True == 1`). -/
def pyNumVal : PyVal → Option Int
  | pbool b => some (if b then 1 else 0)
  | pint n => some n
  | _ => none

/-- Models Python `==` on the values we use. -/
def pyEq : PyVal → PyVal → Bool
  | pstr s, pstr t => s == t
  | pnone, pnone => true
  | pstr _, _ => false
  | _, pstr _ => false
  | pnone, _ => false
  | _, pnone => false
  | a, b => pyNumVal a == pyNumVal b

/-- Python ASCII whitespace (`\s` of `re`, and `str.strip`). -/
def isPyWs (c : Char) : Bool :=
  c = ' ' || c = '\t' || c = '\n' || c = '\r' || c = '\x0b' || c = '\x0c'

/-- Value of a list of decimal digit characters. -/
def digitsToNat (cs : List Char) : Nat :=
  cs.foldl (fun a c => a * 10 + (c.toNat - 48)) 0

/-- Models Python `int(s)` on a string (sign, digits, surrounding blanks). -/
def pyIntOfString (s : String) : Option Int :=
  let cs := ((s.data.dropWhile isPyWs).reverse.dropWhile isPyWs).reverse
  match cs with
  | '-' :: ds =>
    if !ds.isEmpty && ds.all Char.isDigit then some (-(digitsToNat ds : Int)) else none
  | '+' :: ds =>
    if !ds.isEmpty && ds.all Char.isDigit then some (digitsToNat ds) else none
  | ds =>
    if !ds.isEmpty && ds.all Char.isDigit then some (digitsToNat ds) else none

/-- One converted-error-trace element (a Python dict with fixed keys). -/
structure CetElem where
  op : String
  thread : PyVal
  line : PyVal
  source : PyVal
  display_name : PyVal
  id : PyVal
deriving DecidableEq, Repr

/-- Modelled from the spec: operation tag for calls, from `reports.mea.core`
(not under `src/`); the spec fixes the vocabulary `call`. -/
def CET_OP_CALL : String := "call"

/-- Modelled from the spec: operation tag `return` from `reports.mea.core`. -/
def CET_OP_RETURN : String := "return"

/-- Modelled from the spec: operation tag `assume` from `reports.mea.core`. -/
def CET_OP_ASSUME : String := "assume"

/-- Modelled from the spec: operation tag `assign` from `reports.mea.core`. -/
def CET_OP_ASSIGN : String := "assign"

/-- Modelled from the spec: operation tag `note` from `reports.mea.core`. -/
def CET_OP_NOTE : String := "note"

/-- Modelled from the spec: operation tag `warn` from `reports.mea.core`. -/
def CET_OP_WARN : String := "warn"

/-- `CODE_LINE_SEPARATOR` of the source. -/
def CODE_LINE_SEPARATOR : String := "|"

/-- `FUNCTION_CALL_SEPARATOR` of the source. -/
def FUNCTION_CALL_SEPARATOR : String := " "

/-- `CET_END` of the source. -/
def CET_END : String := "__ERROR__"

/-- A run of `n` copies of the function-call separator (one space). -/
def spacesN (n : Nat) : String := String.mk (List.replicate n ' ')

/-- The single-quote character, used by the `OP: 'text'` line format. -/
def quoteChar : Char := Char.ofNat 39

/-- The single-quote character as a string. -/
def quoteStr : String := String.singleton quoteChar

/-- The line-number padding of the printer: numbers whose string form has
1 to 4 characters are padded on the left to width 5. -/
def padLine (v : PyVal) : String :=
  let s := pyStr v
  if s.length = 2 then "   " ++ s
  else if s.length = 1 then "    " ++ s
  else if s.length = 3 then "  " ++ s
  else if s.length = 4 then " " ++ s
  else s

/-- One emitted output line of the printer, kept structured so that
thread-boundary markers are distinguishable from ordinary text lines. -/
inductive OutLine where
  | marker (indent : Nat)
  | textLine (s : String)
deriving DecidableEq, Repr

/-- Rendering of one output line to text (each emission ends in `\n`). -/
def renderOutLine : OutLine → String
  | .marker n => "    0\t" ++ CODE_LINE_SEPARATOR ++ spacesN n ++ CET_END ++ "\n"
  | .textLine s => s ++ "\n"

/-- Rendering of the whole line list. -/
def renderLines (ls : List OutLine) : String := String.join (ls.map renderOutLine)

/-- The loop state of `error_trace_pretty_print`: nesting level, current
thread (`none` models the initial `-1`), and the call stack (head = top). -/
structure PrintState where
  level : Int
  curThread : Option String
  stack : List PyVal
deriving DecidableEq, Repr

/-- The thread-boundary part of the printer loop body: on a thread change a
marker line with the old indentation is emitted and the level is reset. -/
def threadAdjust (st : PrintState) (th : String) : List OutLine × PrintState :=
  match st.curThread with
  | none => ([], { st with curThread := some th })
  | some c =>
    if c = th then ([], st)
    else ([.marker st.level.toNat],
      { level := 0, curThread := some th, stack := st.stack })

/-- The per-element part of the printer loop body (after the thread
adjustment): returns emitted lines, the new level and the new stack, or
`none` where the Python code raises (`stack.pop()` on an empty list,
`int(cur_thread)` on a non-numeric thread). -/
def elemBody (level : Int) (curThread : String) (stack : List PyVal) (e : CetElem) :
    Option (List OutLine × Int × List PyVal) :=
  let op := e.op
  let name := e.display_name
  let line := padLine e.line
  if op = CET_OP_RETURN then
    match stack with
    | [] => none
    | last :: rest =>
      if pyEq name last then some ([], level - 1, rest)
      else some ([], level, last :: rest)
  else if op = CET_OP_CALL then
    some ([.textLine (line ++ "\t" ++ CODE_LINE_SEPARATOR ++ spacesN level.toNat ++ pyStr name)],
      level + 1, name :: stack)
  else if op = CET_OP_ASSIGN || op = CET_OP_ASSUME || op = CET_OP_NOTE || op = CET_OP_WARN then
    match (if level > 0 then some (spacesN level.toNat)
           else (pyIntOfString curThread).map (fun k => spacesN k.toNat)) with
    | none => none
    | some sp =>
      let txt :=
        if op = CET_OP_ASSUME then
          if pyTruthy name then
            line ++ "\t" ++ CODE_LINE_SEPARATOR ++ sp ++ op ++ "(" ++ pyStr e.source ++ ")"
          else
            line ++ "\t" ++ CODE_LINE_SEPARATOR ++ sp ++ op ++ "(!(" ++ pyStr e.source ++ "))"
        else if op = CET_OP_ASSIGN then
          line ++ "\t" ++ CODE_LINE_SEPARATOR ++ sp ++ op ++ ": " ++ quoteStr ++
            pyStr e.source ++ quoteStr
        else
          line ++ "\t" ++ CODE_LINE_SEPARATOR ++ sp ++ op ++ ": " ++ quoteStr ++
            pyStr name ++ quoteStr
      some ([.textLine txt], level, stack)
  else
    some ([], level, stack)

/-- One full iteration of the printer loop. -/
def printStep (st : PrintState) (e : CetElem) : Option (List OutLine × PrintState) :=
  let th := pyStr e.thread
  let (ls1, st1) := threadAdjust st th
  match elemBody st1.level th st1.stack e with
  | none => none
  | some (ls2, lvl, stk) =>
    some (ls1 ++ ls2, { level := lvl, curThread := st1.curThread, stack := stk })

/-- The printer loop over a list of elements. -/
def printFold : PrintState → List CetElem → Option (List OutLine × PrintState)
  | st, [] => some ([], st)
  | st, e :: rest =>
    match printStep st e with
    | none => none
    | some (ls, st') =>
      match printFold st' rest with
      | none => none
      | some (ls2, st'') => some (ls ++ ls2, st'')

/-- The preliminary pass of the printer, which overwrites every element's
`thread` field with its string form (Python: `elem['thread'] = str(...)`). -/
def stringifyThread (e : CetElem) : CetElem := { e with thread := pstr (pyStr e.thread) }

/-- The initial printer state. -/
def initialPrintState : PrintState := { level := 0, curThread := none, stack := [] }

/-- `error_trace_pretty_print`, structured form: emitted lines (with the
final thread-boundary marker), the final loop state, and the final state of
the input list (whose elements were mutated by the thread-stringifying
pass). -/
def printLinesAndState (trace : List CetElem) :
    Option (List OutLine × PrintState × List CetElem) :=
  let t2 := trace.map stringifyThread
  match printFold initialPrintState t2 with
  | none => none
  | some (ls, st) => some (ls ++ [.marker st.level.toNat], st, t2)

/-- `error_trace_pretty_print` as text (`none` models a raised exception). -/
def error_trace_pretty_print (trace : List CetElem) : Option String :=
  match printLinesAndState trace with
  | none => none
  | some (ls, _, _) => some (renderLines ls)

/-- The final state of the input list after `error_trace_pretty_print`
(Python mutates the elements in place). -/
def printFinalElems (trace : List CetElem) : Option (List CetElem) :=
  (printLinesAndState trace).map (fun r => r.2.2)

example :
    error_trace_pretty_print
      [{ op := "call", thread := pint 0, line := pint 1, source := pnone,
         display_name := pstr "f", id := pint 7 },
       { op := "return", thread := pint 0, line := pint 2, source := pnone,
         display_name := pstr "f", id := pint 7 }] =
    some ("    1\t" ++ "|f\n    0\t" ++ "|" ++ CET_END ++ "\n") := by decide

/-! ## The parser (`error_trace_pretty_parse`) -/

/-- Decidable equality for `Except`, needed to evaluate parses with `decide`. -/
def exceptEqDec {ε α : Type} [DecidableEq ε] [DecidableEq α] :
    (a b : Except ε α) → Decidable (a = b)
  | .error e1, .error e2 =>
    if h : e1 = e2 then isTrue (by rw [h]) else isFalse (fun hc => h (Except.error.inj hc))
  | .error _, .ok _ => isFalse (fun hc => Except.noConfusion hc)
  | .ok _, .error _ => isFalse (fun hc => Except.noConfusion hc)
  | .ok a, .ok b =>
    if h : a = b then isTrue (by rw [h]) else isFalse (fun hc => h (Except.ok.inj hc))

instance {ε α : Type} [DecidableEq ε] [DecidableEq α] : DecidableEq (Except ε α) :=
  exceptEqDec

/-- Word characters of the regex `\w` (ASCII fragment). -/
def isWordChar (c : Char) : Bool := c.isAlphanum || c = '_'

/-- Line-break characters of Python `str.splitlines`. -/
def isLineBreakChar (c : Char) : Bool :=
  c = '\n' || c = '\r' || c = '\x0b' || c = '\x0c' ||
  c = '\x1c' || c = '\x1d' || c = '\x1e' || c = '\x85' || c = ' ' || c = ' '

/-- Helper for `pySplitLines`: fuel-based scan (the accumulator holds the
current line reversed; `\r\n` counts as one break; fuel `length + 1` always
suffices since every step consumes at least one character). -/
def splitLinesFuel : Nat → List Char → List Char → List (List Char)
  | 0, _, _ => []
  | _ + 1, [], cur => [cur.reverse]
  | fuel + 1, c :: rest, cur =>
    if c = '\r' then
      let rest2 := match rest with
        | '\n' :: r2 => r2
        | _ => rest
      cur.reverse :: (if rest2.isEmpty then [] else splitLinesFuel fuel rest2 [])
    else if isLineBreakChar c then
      cur.reverse :: (if rest.isEmpty then [] else splitLinesFuel fuel rest [])
    else splitLinesFuel fuel rest (c :: cur)

/-- Splitting a character list into lines at line breaks. -/
def splitLinesChars (cs : List Char) : List (List Char) :=
  splitLinesFuel (cs.length + 1) cs []

/-- Models Python `str.splitlines()`. -/
def pySplitLines (s : String) : List String :=
  if s.data.isEmpty then [] else (splitLinesChars s.data).map String.mk

/-- Models Python `str.strip()`. -/
def stripStr (s : String) : String :=
  String.mk (((s.data.dropWhile isPyWs).reverse.dropWhile isPyWs).reverse)

/-- Shared prefix `^\s*(\d+)\s*\|( *)` of the three line regexes: returns the
line-number digits, the indentation depth, and the remaining characters. -/
def lineHead (cs : List Char) : Option (String × Nat × List Char) :=
  let cs1 := cs.dropWhile isPyWs
  let ds := cs1.takeWhile Char.isDigit
  let cs2 := cs1.dropWhile Char.isDigit
  if ds.isEmpty then none
  else
    match cs2.dropWhile isPyWs with
    | '|' :: cs4 =>
      some (String.mk ds, (cs4.takeWhile (· = ' ')).length, cs4.dropWhile (· = ' '))
    | _ => none

/-- The first regex `^\s*(\d+)\s*\|( *)(\w+)$` (call / end-marker line). -/
def matchCallLine (cs : List Char) : Option (String × Nat × String) :=
  match lineHead cs with
  | none => none
  | some (num, lvl, rest) =>
    if !rest.isEmpty && rest.all isWordChar then some (num, lvl, String.mk rest)
    else none

/-- The tail `(.+)X$` of a regex for terminator `X`: the content is everything
before the final `X` character, nonempty and free of `\n` (the regex dot). -/
def dotPlusBefore (term : Char) (cs : List Char) : Option (List Char) :=
  match cs.getLast? with
  | none => none
  | some c =>
    if c = term then
      let mid := cs.dropLast
      if !mid.isEmpty && mid.all (fun c2 => c2 != '\n') then some mid else none
    else none

/-- The second regex `^\s*(\d+)\s*\|( *)assume\((!?)(.+)\)$`; the boolean is
the captured `!` group (with its backtracking behaviour). -/
def matchAssumeLine (cs : List Char) : Option (String × Nat × Bool × String) :=
  match lineHead cs with
  | none => none
  | some (num, lvl, rest) =>
    match rest with
    | 'a' :: 's' :: 's' :: 'u' :: 'm' :: 'e' :: '(' :: tail =>
      match tail with
      | '!' :: t2 =>
        match dotPlusBefore ')' t2 with
        | some mid => some (num, lvl, true, String.mk mid)
        | none =>
          match dotPlusBefore ')' ('!' :: t2) with
          | some mid => some (num, lvl, false, String.mk mid)
          | none => none
      | _ =>
        match dotPlusBefore ')' tail with
        | some mid => some (num, lvl, false, String.mk mid)
        | none => none
    | _ => none

/-- The third regex `^\s*(\d+)\s*\|( *)(\w+): '(.+)'$` (generic `OP` line). -/
def matchGenericLine (cs : List Char) : Option (String × Nat × String × String) :=
  match lineHead cs with
  | none => none
  | some (num, lvl, rest) =>
    let w := rest.takeWhile isWordChar
    let r2 := rest.dropWhile isWordChar
    if w.isEmpty then none
    else
      match r2 with
      | ':' :: ' ' :: q :: r3 =>
        if q = quoteChar then
          match dotPlusBefore quoteChar r3 with
          | some mid => some (num, lvl, String.mk w, String.mk mid)
          | none => none
        else none
      | _ => none

/-- The loop state of `error_trace_pretty_parse`.  `notParsed` is the
`not_parsed` accumulator (the empty string models Python `None`, since the
code only tests it for truthiness); `acc` is the produced element list. -/
structure ParseState where
  curThread : Int
  curLevel : Int
  stack : List String
  notParsed : String
  acc : List CetElem
deriving DecidableEq, Repr

/-- The `return` element appended by the parser when it pops the stack. -/
def mkReturnElem (t : Int) (num : String) (f : String) : CetElem :=
  { op := CET_OP_RETURN, thread := pint t, line := pstr num, source := pnone,
    display_name := pstr f, id := pint 0 }

/-- The `call` element appended by the parser. -/
def mkCallElem (t : Int) (num : String) (f : String) : CetElem :=
  { op := CET_OP_CALL, thread := pint t, line := pstr num, source := pnone,
    display_name := pstr f, id := pint 0 }

/-- The `assume` element appended by the parser. -/
def mkAssumeElem (t : Int) (num : String) (isFalse : Bool) (srcTxt : String) : CetElem :=
  { op := CET_OP_ASSUME, thread := pint t, line := pstr num, source := pstr srcTxt,
    display_name := pbool (!isFalse), id := pint 0 }

/-- The generic element appended by the parser for an `OP: 'text'` line. -/
def mkGenericElem (t : Int) (num : String) (opW : String) (txt : String) : CetElem :=
  { op := opW, thread := pint t, line := pstr num, source := pstr txt,
    display_name := pstr txt, id := pint 0 }

/-- The message of a Python `IndexError` from `list.pop()` on an empty list. -/
def popErrMsg : String := "pop from empty list"

/-- Pop `k` entries off the parser stack, emitting one `return` element per
pop; fails like `stack.pop()` when the stack runs out. -/
def popReturns (t : Int) (num : String) (stack : List String) (k : Nat) :
    Except String (List CetElem × List String) :=
  match k with
  | 0 => .ok ([], stack)
  | k' + 1 =>
    match stack with
    | [] => .error popErrMsg
    | f :: rest =>
      match popReturns t num rest k' with
      | .error e => .error e
      | .ok (els, st2) => .ok (mkReturnElem t num f :: els, st2)

/-- The combined line the parser actually matches: the pending `not_parsed`
text (if any) followed by the stripped raw line. -/
def combinedLine (st : ParseState) (raw : String) : String :=
  if st.notParsed ≠ "" then st.notParsed ++ stripStr raw else stripStr raw

/-- One iteration of the parser loop over one raw input line. -/
def parseLineStep (st : ParseState) (raw : String) : Except String ParseState :=
  let line := combinedLine st raw
  match matchCallLine line.data with
  | some (num, lvl, func) =>
    let popCount : Nat :=
      if (lvl : Int) = st.curLevel then 1
      else if (lvl : Int) < st.curLevel then (st.curLevel - lvl + 1).toNat
      else 0
    match popReturns st.curThread num st.stack popCount with
    | .error e => .error e
    | .ok (rets, stack2) =>
      if func = CET_END then
        .ok { curThread := st.curThread + 1, curLevel := -1, stack := stack2,
              notParsed := "", acc := st.acc ++ rets }
      else
        .ok { curThread := st.curThread, curLevel := (lvl : Int), stack := func :: stack2,
              notParsed := "", acc := st.acc ++ rets ++ [mkCallElem st.curThread num func] }
  | none =>
    match matchAssumeLine line.data with
    | some (num, _, isF, txt) =>
      .ok ({ st with
        notParsed := "",
        acc := st.acc ++ [mkAssumeElem st.curThread num isF txt] })
    | none =>
      match matchGenericLine line.data with
      | some (num, _, opW, txt) =>
        .ok ({ st with
          notParsed := "",
          acc := st.acc ++ [mkGenericElem st.curThread num opW txt] })
      | none => .ok ({ st with notParsed := line })

/-- The parser loop over the list of input lines. -/
def parseFold : ParseState → List String → Except String ParseState
  | st, [] => .ok st
  | st, l :: rest =>
    match parseLineStep st l with
    | .error e => .error e
    | .ok st' => parseFold st' rest

/-- The initial parser state. -/
def initialParseState : ParseState :=
  { curThread := 0, curLevel := -1, stack := [], notParsed := "", acc := [] }

/-- The `ValueError` message raised for an unparsable line. -/
def cannotParseMsg (l : String) : String :=
  "Cannot parse line " ++ quoteStr ++ l ++ quoteStr ++ " in edited error trace"

/-- `error_trace_pretty_parse`: parse pretty-printed (and possibly
human-edited) text back into a converted error trace. -/
def error_trace_pretty_parse (s : String) : Except String (List CetElem) :=
  match parseFold initialParseState (pySplitLines s) with
  | .error e => .error e
  | .ok st => if st.notParsed ≠ "" then .error (cannotParseMsg st.notParsed) else .ok st.acc

example :
    error_trace_pretty_parse ("    1\t" ++ "|f\n    0\t" ++ "|" ++ CET_END ++ "\n") =
    .ok [mkCallElem 0 "1" "f", mkReturnElem 0 "0" "f"] := by decide

/-! ## Argument canonicalization (`process_args`) -/

/-- A Python value as it occurs in a conversion-argument mapping. -/
inductive ArgVal where
  | vstr (s : String)
  | vlist (l : List String)
  | vbool (b : Bool)
  | vint (n : Int)
  | vnone
deriving DecidableEq, Repr

/-- Python truthiness of an argument value. -/
def argTruthy : ArgVal → Bool
  | .vstr s => s != ""
  | .vlist l => !l.isEmpty
  | .vbool b => b
  | .vint n => n != 0
  | .vnone => false

/-- A Python dict as an insertion-ordered association list (keys unique). -/
abbrev ArgDict := List (String × ArgVal)

/-- Dict lookup (`args[tag]` / `tag in args`). -/
def dictLookup : ArgDict → String → Option ArgVal
  | [], _ => none
  | (k, v) :: rest, key => if k = key then some v else dictLookup rest key

/-- Dict assignment `args[tag] = v` (replaces in place, appends if new). -/
def dictSet : ArgDict → String → ArgVal → ArgDict
  | [], key, v => [(key, v)]
  | (k, w) :: rest, key, v =>
    if k = key then (key, v) :: rest else (k, w) :: dictSet rest key v

/-- Dict deletion `del args[tag]`. -/
def dictErase : ArgDict → String → ArgDict
  | [], _ => []
  | (k, w) :: rest, key => if k = key then rest else (k, w) :: dictErase rest key

/-- Python `sorted` order on strings: stable ascending sort by `<` on code
points (modelled by insertion sort, which is stable). -/
def pySortStrings (l : List String) : List String := l.insertionSort (· ≤ ·)

/-- Split a character list at every occurrence of a separator character
(the result always has at least one group). -/
def splitOnChar (sep : Char) : List Char → List (List Char)
  | [] => [[]]
  | c :: rest =>
    if c = sep then [] :: splitOnChar sep rest
    else
      match splitOnChar sep rest with
      | [] => [[c]]
      | g :: gs => (c :: g) :: gs

/-- Models Python `s.split(",")`. -/
def pySplitComma (s : String) : List String := (splitOnChar ',' s.data).map String.mk

/-- The transformation `process_args` applies to one truthy tag value:
a comma-separated string is split into a list, a list is sorted (and joined
back into a string when `as_str` is set); other values pass through. -/
def canonArgContents (asStr : Bool) (v : ArgVal) : ArgVal :=
  let v2 := match v with
    | .vstr s => ArgVal.vlist (pySplitComma s)
    | x => x
  match v2 with
  | .vlist l =>
    let ls := pySortStrings l
    if asStr then ArgVal.vstr (String.intercalate "," ls) else ArgVal.vlist ls
  | x => x

/-- The `process_args` loop body for one recognized tag. -/
def processTag (asStr : Bool) (d : ArgDict) (tag : String) : ArgDict :=
  match dictLookup d tag with
  | none => d
  | some v =>
    if argTruthy v then dictSet d tag (canonArgContents asStr v)
    else dictErase d tag

/-- Modelled from the spec: the `TAG_ADDITIONAL_MODEL_FUNCTIONS` option name
from `reports.mea.core` (not under `src/`); the spec names the option
"additional model-function list". -/
def TAG_ADDITIONAL_MODEL_FUNCTIONS : String := "additional model functions"

/-- Modelled from the spec: the `TAG_FILTERED_MODEL_FUNCTIONS` option name
from `reports.mea.core`. -/
def TAG_FILTERED_MODEL_FUNCTIONS : String := "filtered model functions"

/-- Modelled from the spec: the `TAG_USE_NOTES` option name from
`reports.mea.core`. -/
def TAG_USE_NOTES : String := "use notes"

/-- Modelled from the spec: the `TAG_USE_WARNS` option name from
`reports.mea.core`. -/
def TAG_USE_WARNS : String := "use warns"

/-- Modelled from the spec: the `TAG_IGNORE_NOTES_TEXT` option name from
`reports.mea.core`. -/
def TAG_IGNORE_NOTES_TEXT : String := "ignore notes text"

/-- The five recognized option tags, in the order the source iterates them. -/
def PROCESS_TAGS : List String :=
  [TAG_ADDITIONAL_MODEL_FUNCTIONS, TAG_FILTERED_MODEL_FUNCTIONS, TAG_USE_NOTES,
   TAG_USE_WARNS, TAG_IGNORE_NOTES_TEXT]

/-- `process_args`: canonicalizes the argument mapping in place; the result
is the final state of the mutated dict (the Python function returns `None`). -/
def process_args (asStr : Bool) (d : ArgDict) : ArgDict :=
  PROCESS_TAGS.foldl (processTag asStr) d

/-- The keys of a dict in sorted order (as `json.dumps(..., sort_keys=True)`
iterates them). -/
def sortedKeys (d : ArgDict) : List String := (d.map Prod.fst).insertionSort (· ≤ ·)

/-- The canonical (key-sorted) entry list determining the cache key. -/
def canonEntries (d : ArgDict) : List (String × Option ArgVal) :=
  (sortedKeys d).map (fun k => (k, dictLookup d k))

/-- One JSON-serialized argument value (as `json.dumps` renders it). -/
def dumpArgVal : ArgVal → String
  | .vstr s => "\"" ++ s ++ "\""
  | .vlist l => "[" ++ String.intercalate ", " (l.map (fun s => "\"" ++ s ++ "\"")) ++ "]"
  | .vbool true => "true"
  | .vbool false => "false"
  | .vint n => intReprStr n
  | .vnone => "null"

/-- The cache key string `json.dumps(args, sort_keys=True)`: keys in sorted
order (escaping is not modelled; the key is a function of `canonEntries`). -/
def dumpsSortedKeys (d : ArgDict) : String :=
  "\x7b" ++ String.intercalate ", "
    ((canonEntries d).filterMap (fun kv =>
      match kv.2 with
      | some v => some ("\"" ++ kv.1 ++ "\": " ++ dumpArgVal v)
      | none => none)) ++ "\x7d"

/-! ## Derived notions used by the claims -/

/-- The comparable-field projection of an element (`op`, `thread`,
`display_name`, `source`; identifier and line excluded). -/
structure CmpProj where
  op : String
  thread : PyVal
  display_name : PyVal
  source : PyVal
deriving DecidableEq, Repr

/-- Project one element to its comparable fields. -/
def projElem (e : CetElem) : CmpProj :=
  { op := e.op, thread := e.thread, display_name := e.display_name, source := e.source }

/-- Print a sequence and parse the result back, returning the comparable
projection of the parsed sequence (`none` if either direction raises). -/
def printParseProj (s : List CetElem) : Option (List CmpProj) :=
  match error_trace_pretty_print s with
  | none => none
  | some txt =>
    match error_trace_pretty_parse txt with
    | .ok l => some (l.map projElem)
    | .error _ => none

/-- Number of positions at which two consecutive list entries differ. -/
def countAdjDiff : List String → Nat
  | [] => 0
  | [_] => 0
  | a :: b :: rest => (if a = b then 0 else 1) + countAdjDiff (b :: rest)

/-- The string forms of the threads of a sequence (the printer compares
threads after converting them to strings). -/
def threadStrs (s : List CetElem) : List String := s.map (fun e => pyStr e.thread)

/-- Whether an emitted line is a thread-boundary marker. -/
def isMarkerLine : OutLine → Bool
  | .marker _ => true
  | .textLine _ => false

/-- Number of thread-boundary marker lines in an emission list. -/
def countMarkers (ls : List OutLine) : Nat := (ls.filter isMarkerLine).length

/-- Whether processing an element whose (stringified) thread is `th` in
state `st` crosses a thread boundary. -/
def isBoundary (st : PrintState) (th : String) : Bool :=
  match st.curThread with
  | none => false
  | some c => c != th

/-- Number of thread boundaries a list of thread strings crosses, starting
from a given current thread. -/
def countBoundariesFrom : Option String → List String → Nat
  | _, [] => 0
  | c, t :: rest =>
    (match c with
     | none => 0
     | some c0 => if c0 = t then 0 else 1) + countBoundariesFrom (some t) rest

/-- Whether a (combined, stripped) parser line is an end-marker line:
it matches the call/marker shape and its trailing word is `__ERROR__`. -/
def isEndMarkerLine (s : String) : Bool :=
  match matchCallLine s.data with
  | some (_, _, f) => f = CET_END
  | none => false

/-- Free of line-break characters and nonempty: safe as printed text. -/
def niceTextB (t : String) : Bool :=
  t != "" && t.data.all (fun c => !isLineBreakChar c)

/-- Elements for which the print-then-parse round trip is exact on the
comparable fields: `assign`/`note`/`warn` elements of thread 0 whose
`source` and `display_name` are one and the same nonempty break-free
string, with a non-negative integer line number. -/
def niceElemB (e : CetElem) : Bool :=
  (e.op == CET_OP_ASSIGN || e.op == CET_OP_NOTE || e.op == CET_OP_WARN) &&
  e.thread == pint 0 &&
  (match e.line with
   | pint n => decide (0 ≤ n)
   | _ => false) &&
  (match e.source, e.display_name with
   | pstr t, pstr u => t == u && niceTextB t
   | _, _ => false)

/-- The ten decimal digit characters. -/
def digitChars : List Char :=
  ['0', '1', '2', '3', '4', '5', '6', '7', '8', '9']

/-- The text line the printer emits for a well-behaved (`niceElemB`)
element: line-number field, separator, op, and the quoted text. -/
def niceLineStr (e : CetElem) : String :=
  padLine e.line ++ "\t" ++ CODE_LINE_SEPARATOR ++ e.op ++ ": " ++ quoteStr ++
    pyStr e.display_name ++ quoteStr

/-- The structured output line for a well-behaved element. -/
def niceLine (e : CetElem) : OutLine := .textLine (niceLineStr e)

/-- Well-behavedness after the printer's thread-stringifying pass: as
`niceElemB`, but the thread is already the string `"0"`. -/
def niceElemB2 (e : CetElem) : Bool :=
  (e.op == CET_OP_ASSIGN || e.op == CET_OP_NOTE || e.op == CET_OP_WARN) &&
  e.thread == pstr "0" &&
  (match e.line with
   | pint n => decide (0 ≤ n)
   | _ => false) &&
  (match e.source, e.display_name with
   | pstr t, pstr u => t == u && niceTextB t
   | _, _ => false)

/-- The element the parser reconstructs from a well-behaved element's
printed line, in thread `th`. -/
def parsedNice (th : Int) (e : CetElem) : CetElem :=
  mkGenericElem th (pyStr e.line) e.op (pyStr e.display_name)

/-- The final end-marker line of a depth-0 printout, without its newline. -/
def endMarkerLineStr : String :=
  "    0\t" ++ CODE_LINE_SEPARATOR ++ spacesN 0 ++ CET_END

/-- The character content of a well-behaved element's printed line after
stripping: digits, tab, separator, op, colon-space, and the quoted text. -/
def niceChars (n : Nat) (op t : String) : List Char :=
  natReprChars n ++ '\t' :: '|' ::
    (op.data ++ ':' :: ' ' :: quoteChar :: (t.data ++ [quoteChar]))

/-- The canonical value `process_args` (with `as_str` unset) leaves behind
for one recognized tag, as a function of the tag's previous value. -/
def canonOptVal : Option ArgVal → Option ArgVal
  | none => none
  | some v => if argTruthy v then some (canonArgContents false v) else none

/-- The denotation of a recognized option value: absent when falsy, the
multiset of names for a list-valued option (a comma-separated string
denotes its split), the value itself otherwise.  Two values denote the same
option set exactly when `denoteArg` agrees. -/
def denoteArg : Option ArgVal → Option (Multiset String ⊕ ArgVal)
  | none => none
  | some v =>
    if argTruthy v then
      some (match v with
        | .vstr s => Sum.inl (pySplitComma s : Multiset String)
        | .vlist l => Sum.inl (l : Multiset String)
        | x => Sum.inr x)
    else none

/-- The keys of an argument dict. -/
def dictKeys (d : ArgDict) : List String := d.map Prod.fst

/-! ## Concrete inputs used by counterexamples, demos and witnesses -/

/-- A bare `return` element with no preceding call. -/
def c3BareReturn : CetElem :=
  { op := "return", thread := pint 0, line := pint 2, source := pnone,
    display_name := pstr "f", id := pint 0 }

/-- A `return` element for `g` (not matching the pending call of `f`). -/
def c3ReturnG : CetElem :=
  { op := "return", thread := pint 0, line := pint 2, source := pnone,
    display_name := pstr "g", id := pint 0 }

/-- A `note` element used to show that printing continues. -/
def c3Note : CetElem :=
  { op := "note", thread := pint 0, line := pint 3, source := pstr "t",
    display_name := pstr "t", id := pint 0 }

/-- A call of `f` in thread 0. -/
def c10CallF : CetElem :=
  { op := "call", thread := pint 0, line := pint 1, source := pnone,
    display_name := pstr "f", id := pint 0 }

/-- A return of `f` in thread 1 (a different thread than the call). -/
def c10ReturnF : CetElem :=
  { op := "return", thread := pint 1, line := pint 2, source := pnone,
    display_name := pstr "f", id := pint 0 }

/-- A false `assume` of condition `x`: prints as `assume(!(x))`. -/
def c1FalseAssume : CetElem :=
  { op := "assume", thread := pint 0, line := pint 1, source := pstr "x",
    display_name := pbool false, id := pint 0 }

/-- A well-behaved `note` element (round-trips exactly). -/
def c1NiceNote : CetElem :=
  { op := "note", thread := pint 0, line := pint 12345, source := pstr "hello there",
    display_name := pstr "hello there", id := pint 5 }

/-- Input text whose first line matches none of the three line shapes: the
parser joins it with the following line and the joined text parses. -/
def c2MergeText : String := "12\n" ++ "|f"

/-- An argument mapping with an empty (falsy) recognized option. -/
def c6EmptyNotes : ArgDict := [(TAG_USE_NOTES, ArgVal.vstr "")]

/-- An argument mapping with a comma-separated model-function list. -/
def c7Dict1 : ArgDict :=
  [(TAG_ADDITIONAL_MODEL_FUNCTIONS, ArgVal.vstr "b,a"), ("x", ArgVal.vint 1)]

/-- The same option sets as `c7Dict1`, written as an unsorted list and with
the entries in another insertion order. -/
def c7Dict2 : ArgDict :=
  [("x", ArgVal.vint 1), (TAG_ADDITIONAL_MODEL_FUNCTIONS, ArgVal.vlist ["a", "b"])]

/-- A call line at depth 2 followed by a call line at depth 0: the parser
needs three pops but the stack holds one entry. -/
def c4UnderflowText : String := " 1\t" ++ "|  f\n2\t" ++ "|g"

/-! ## The round-trip class of C1 -/

/-- A function name as the call-line regex `(\w+)$` can reproduce it:
nonempty, word characters only, and not the end marker. -/
def funcNameB (f : String) : Bool :=
  f != "" && f.data.all isWordChar && f != CET_END

/-- A call element whose printed line the parser maps back to the same
comparable fields: `source` is `None` (the parser reconstructs calls with
`source = None`), the display name a word, the line number a non-negative
integer (so the `(\d+)` group matches). -/
def callElemB (t : Int) (e : CetElem) : Bool :=
  e.op == CET_OP_CALL && e.thread == pint t &&
  (match e.line with | pint n => decide (0 ≤ n) | _ => false) &&
  e.source == pnone &&
  (match e.display_name with | pstr f => funcNameB f | _ => false)

/-- A return element as the parser reconstructs it: `source` is `None`;
the display name is matched against the call stack by `blockElemsB`. -/
def retElemB (t : Int) (e : CetElem) : Bool :=
  e.op == CET_OP_RETURN && e.thread == pint t && e.source == pnone

/-- A leaf (non-call, non-return) element whose printed line parses back
to the same comparable fields: a true assume whose nonempty break-free
source does not start with `!` (the printed `assume(src)` would otherwise
re-parse with the `!` stripped), or an assign/note/warn whose `source` and
`display_name` are one and the same nonempty break-free string (the parser
sets both from the quoted text; the printer prints `source` for assign and
`display_name` for note/warn). -/
def leafElemB (t : Int) (e : CetElem) : Bool :=
  e.thread == pint t &&
  (match e.line with | pint n => decide (0 ≤ n) | _ => false) &&
  ((e.op == CET_OP_ASSUME && e.display_name == pbool true &&
    (match e.source with
     | pstr s => niceTextB s &&
         (match s.data with | [] => false | c :: _ => decide (¬(c = '!')))
     | _ => false)) ||
   ((e.op == CET_OP_ASSIGN || e.op == CET_OP_NOTE || e.op == CET_OP_WARN) &&
    (match e.source, e.display_name with
     | pstr s, pstr u => s == u && niceTextB s
     | _, _ => false)))

/-- Structural well-formedness of one thread block, tracked with the open
call stack and a flag marking that the previous element was a return:
calls push, returns pop the matching name, a leaf never directly follows a
return (the parser re-emits pending returns only at the next call line or
marker, so a leaf there would come back reordered), and the block closes
every call it opens. -/
def blockElemsB (t : Int) : List String → Bool → List CetElem → Bool
  | stk, _, [] => stk.isEmpty
  | stk, inRet, e :: rest =>
    if e.op == CET_OP_CALL then
      callElemB t e &&
      (match e.display_name with
       | pstr f => blockElemsB t (f :: stk) false rest
       | _ => false)
    else if e.op == CET_OP_RETURN then
      (match stk with
       | [] => false
       | f :: stk2 =>
         retElemB t e && e.display_name == pstr f && blockElemsB t stk2 true rest)
    else !inRet && leafElemB t e && blockElemsB t stk false rest

/-- The round-trip class: a list of nonempty thread blocks numbered
`t, t+1, ...`, each structurally well formed. -/
def goodBlocksB : Int → List (List CetElem) → Bool
  | _, [] => true
  | t, b :: bs => !b.isEmpty && blockElemsB t [] false b && goodBlocksB (t + 1) bs

/-- The text of an output line without its newline. -/
def outText : OutLine → String
  | .marker n => "    0\t" ++ CODE_LINE_SEPARATOR ++ spacesN n ++ CET_END
  | .textLine s => s

/-- The comparable projection of a parser-made return element. -/
def retProj (t : Int) (f : String) : CmpProj :=
  { op := CET_OP_RETURN, thread := pint t, display_name := pstr f, source := pnone }

/-- The indentation width of a leaf line: the nesting level if positive,
otherwise the thread number (the printer's `" " * int(cur_thread)`). -/
def leafIndent (t : Int) (lvl : Nat) : Nat := if 0 < lvl then lvl else t.toNat

/-- The printed call line of a call with display name `f` at level `lvl`. -/
def callLineStr (lv : PyVal) (lvl : Nat) (f : String) : String :=
  padLine lv ++ "\t" ++ CODE_LINE_SEPARATOR ++ spacesN lvl ++ f

/-- The printed line of a true assume with source `s` and indent `k`. -/
def assumeLineStr (lv : PyVal) (k : Nat) (s : String) : String :=
  padLine lv ++ "\t" ++ CODE_LINE_SEPARATOR ++ spacesN k ++ CET_OP_ASSUME ++
    "(" ++ s ++ ")"

/-- The printed `OP: 'text'` line with indent `k`. -/
def genericLineStr (lv : PyVal) (k : Nat) (op txt : String) : String :=
  padLine lv ++ "\t" ++ CODE_LINE_SEPARATOR ++ spacesN k ++ op ++ ": " ++
    quoteStr ++ txt ++ quoteStr

/-- The printer state inside a block of thread `t` with open calls `stk`. -/
def midPrintState (t : Int) (stk : List String) : PrintState :=
  { level := (stk.length : Int), curThread := some (intReprStr t),
    stack := stk.map pstr }

/-- The parser state inside a block of thread `t`: the stack holds the open
calls as of the last call line, `curLevel` is that line's depth. -/
def midParseState (t : Int) (qstk : List String) (A : List CetElem) : ParseState :=
  { curThread := t,
    curLevel := if qstk.isEmpty then -1 else (qstk.length : Int) - 1,
    stack := qstk, notParsed := "", acc := A }

/-- A nested two-thread input for the round-trip law: thread 0 calls `f`,
assumes, calls `g_1`, notes, returns from both; thread 1 assigns. -/
def c1CallF : CetElem :=
  { op := "call", thread := pint 0, line := pint 7, source := pnone,
    display_name := pstr "f", id := pint 3 }

def c1AssumeT : CetElem :=
  { op := "assume", thread := pint 0, line := pint 8, source := pstr "x > 0",
    display_name := pbool true, id := pint 0 }

def c1CallG : CetElem :=
  { op := "call", thread := pint 0, line := pint 12345, source := pnone,
    display_name := pstr "g_1", id := pint 0 }

def c1NoteX : CetElem :=
  { op := "note", thread := pint 0, line := pint 9, source := pstr "hello there",
    display_name := pstr "hello there", id := pint 0 }

def c1RetG : CetElem :=
  { op := "return", thread := pint 0, line := pint 10, source := pnone,
    display_name := pstr "g_1", id := pint 0 }

def c1RetF : CetElem :=
  { op := "return", thread := pint 0, line := pint 11, source := pnone,
    display_name := pstr "f", id := pint 0 }

def c1Assign1 : CetElem :=
  { op := "assign", thread := pint 1, line := pint 2, source := pstr "v = 3",
    display_name := pstr "v = 3", id := pint 0 }

def c1Blocks : List (List CetElem) :=
  [[c1CallF, c1AssumeT, c1CallG, c1NoteX, c1RetG, c1RetF], [c1Assign1]]

/-! ## Basic lemmas about the embedding -/

theorem intReprStr_natCast (m : Nat) : intReprStr (m : Int) = String.mk (natReprChars m) := by
  unfold intReprStr
  rw [if_neg (by omega)]
  simp

theorem length_mk_str (cs : List Char) : (String.mk cs).length = cs.length := rfl

theorem pyStr_natCast (m : Nat) : pyStr (pint (m : Int)) = String.mk (natReprChars m) := by
  simp [pyStr, intReprStr_natCast]

theorem splitLinesFuel_no_break (fuel : Nat) :
    ∀ (cs acc : List Char), cs.length < fuel →
    (∀ c ∈ cs, isLineBreakChar c = false) →
    splitLinesFuel fuel cs acc = [acc.reverse ++ cs] := by
  induction fuel with
  | zero => intro cs acc h _; omega
  | succ f ih =>
    intro cs acc hlen hnb
    cases cs with
    | nil => simp [splitLinesFuel]
    | cons c rest =>
      have hc : isLineBreakChar c = false := hnb c (List.mem_cons_self c rest)
      have hcr : ¬(c = '\r') := by
        intro he
        rw [he] at hc
        exact absurd hc (by decide)
      simp only [splitLinesFuel, if_neg hcr, hc, Bool.false_eq_true, if_false]
      rw [ih rest (c :: acc) (by simpa using Nat.lt_of_succ_lt_succ hlen)
        (fun x hx => hnb x (List.mem_cons_of_mem c hx))]
      simp

theorem splitLinesChars_no_break (cs : List Char)
    (hnb : ∀ c ∈ cs, isLineBreakChar c = false) :
    splitLinesChars cs = [cs] := by
  unfold splitLinesChars
  rw [splitLinesFuel_no_break (cs.length + 1) cs [] (Nat.lt_succ_self _) hnb]
  simp

theorem string_mk_data (s : String) : String.mk s.data = s := rfl

theorem pySplitLines_single (line : String) (h : line ≠ "")
    (hnb : ∀ c ∈ line.data, isLineBreakChar c = false) :
    pySplitLines line = [line] := by
  have hd : line.data.isEmpty = false := by
    cases hdd : line.data with
    | nil =>
      exact absurd (show line = "" from congrArg String.mk hdd) h
    | cons a l => rfl
  unfold pySplitLines
  rw [hd]
  simp only [Bool.false_eq_true, if_false]
  rw [splitLinesChars_no_break line.data hnb]
  simp [string_mk_data]

/-! ## Claim C9: fixed 5-character right-aligned line-number field -/

/-- C9: for every element whose line number has `d` decimal digits with
`1 ≤ d ≤ 4`, the printer's line-number field is the number padded with
`5 - d` leading spaces, giving a fixed width of 5 characters.  (`padLine` is
the embedding of the padding block at lines 271-280 of the source, used
verbatim by every printed line.) -/
theorem c9_line_number_padding (n : Nat) (d : Nat)
    (hd : (natReprChars n).length = d) (h1 : 1 ≤ d) (h4 : d ≤ 4) :
    padLine (pint (n : Int)) = spacesN (5 - d) ++ pyStr (pint (n : Int)) ∧
    (padLine (pint (n : Int))).length = 5 := by
  have hs : (pyStr (pint (n : Int))).length = d := by
    rw [pyStr_natCast, length_mk_str, hd]
  unfold padLine
  interval_cases d <;> simp_all [hs, spacesN] <;> decide

/-- Witness for C9 at the concrete 2-digit line number 42. -/
theorem c9_witness :
    padLine (pint (42 : Nat)) = spacesN (5 - 2) ++ pyStr (pint (42 : Nat)) ∧
    (padLine (pint (42 : Nat))).length = 5 :=
  c9_line_number_padding 42 2 (by decide) (by decide) (by decide)

/-! ## Claim C3: return element that does not match the last call -/

/-- Counterexample to C3 as stated: on a sequence containing a `return`
element with no preceding unmatched call at all, `error_trace_pretty_print`
does fail (the Python code raises `IndexError` from `stack.pop()` on an
empty stack; the embedding returns `none`), instead of dropping the element
and continuing. -/
theorem c3_counterexample : error_trace_pretty_print [c3BareReturn] = none := by decide

/-- C3 as amended: when the call stack is nonempty and the return's name
does not match its top, the printer emits no line for the element, leaves
the nesting depth and the stack unchanged, and continues with the rest of
the sequence (the diagnostic print is behind the disabled debug flag); only
a return with no unmatched call at all makes the printer raise. -/
theorem c3_mismatched_return_dropped :
    (∀ (lvl : Int) (ct : String) (e : CetElem) (c : PyVal) (rest : List PyVal),
      e.op = CET_OP_RETURN → pyEq e.display_name c = false →
      elemBody lvl ct (c :: rest) e = some ([], lvl, c :: rest)) ∧
    (∀ (st : PrintState) (e : CetElem) (rest : List CetElem),
      e.op = CET_OP_RETURN → st.curThread = some (pyStr e.thread) →
      (∃ c cs, st.stack = c :: cs ∧ pyEq e.display_name c = false) →
      printFold st (e :: rest) = printFold st rest) := by
  constructor
  · intro lvl ct e c rest hop hne
    unfold elemBody
    rw [hop]
    simp [hne]
  · intro st e rest hop hth hstk
    obtain ⟨c, cs, hstack, hne⟩ := hstk
    obtain ⟨lvl, ct, stk⟩ := st
    simp only at hth hstack
    subst hth
    subst hstack
    have hstep : printStep
        { level := lvl, curThread := some (pyStr e.thread), stack := c :: cs } e =
        some ([], { level := lvl, curThread := some (pyStr e.thread), stack := c :: cs }) := by
      unfold printStep threadAdjust elemBody
      simp [hop, hne]
    show (match printStep
        { level := lvl, curThread := some (pyStr e.thread), stack := c :: cs } e with
      | none => none
      | some (ls, st') =>
        match printFold st' rest with
        | none => none
        | some (ls2, st'') => some (ls ++ ls2, st'')) =
      printFold { level := lvl, curThread := some (pyStr e.thread), stack := c :: cs } rest
    rw [hstep]
    cases hfold : printFold
        { level := lvl, curThread := some (pyStr e.thread), stack := c :: cs } rest with
    | none =>
      dsimp only
      rw [hfold]
    | some p =>
      obtain ⟨ls2, st2⟩ := p
      dsimp only
      rw [hfold]
      simp

/-- Witness for the amended C3: a mismatched return between a call and a
note is dropped and printing continues identically without it. -/
theorem c3_witness :
    elemBody 1 "0" [pstr "f"] c3ReturnG = some ([], 1, [pstr "f"]) ∧
    printFold { level := 1, curThread := some "0", stack := [pstr "f"] }
        [c3ReturnG, c3Note] =
      printFold { level := 1, curThread := some "0", stack := [pstr "f"] } [c3Note] :=
  ⟨c3_mismatched_return_dropped.1 1 "0" c3ReturnG (pstr "f") [] (by decide) (by decide),
   c3_mismatched_return_dropped.2
     { level := 1, curThread := some "0", stack := [pstr "f"] } c3ReturnG [c3Note]
     (by decide) (by decide) ⟨pstr "f", [], by decide, by decide⟩⟩

/-! ## Claim C10: one call stack, not cleared at thread boundaries -/

/-- C10: the printer keeps a single call stack that survives thread
boundaries: the thread-boundary adjustment preserves the stack while
resetting the level to 0; the return-handling logic does not depend on the
current thread at all and pops the top of the stack whenever the name
matches; concretely, a return in thread 1 pops a call pushed in thread 0. -/
theorem c10_shared_stack_across_threads :
    (∀ (st : PrintState) (th : String), ((threadAdjust st th).2).stack = st.stack) ∧
    (∀ (st : PrintState) (th c : String), st.curThread = some c → c ≠ th →
      ((threadAdjust st th).2).level = 0) ∧
    (∀ (lvl : Int) (ct ct2 : String) (stk : List PyVal) (e : CetElem),
      e.op = CET_OP_RETURN → elemBody lvl ct stk e = elemBody lvl ct2 stk e) ∧
    (∀ (lvl : Int) (ct : String) (e : CetElem) (c : PyVal) (rest : List PyVal),
      e.op = CET_OP_RETURN → pyEq e.display_name c = true →
      elemBody lvl ct (c :: rest) e = some ([], lvl - 1, rest)) ∧
    printLinesAndState [c10CallF, c10ReturnF] =
      some ([.textLine ("    1\t" ++ "|f"), .marker 1, .marker 0],
        { level := -1, curThread := some "1", stack := [] },
        [{ c10CallF with thread := pstr "0" }, { c10ReturnF with thread := pstr "1" }]) := by
  refine ⟨?_, ?_, ?_, ?_, by decide⟩
  · intro st th
    unfold threadAdjust
    cases st.curThread with
    | none => rfl
    | some c =>
      by_cases h : c = th <;> simp [h]
  · intro st th c hc hne
    unfold threadAdjust
    rw [hc]
    simp [hne]
  · intro lvl ct ct2 stk e hop
    unfold elemBody
    rw [hop]
    simp
  · intro lvl ct e c rest hop heq
    unfold elemBody
    rw [hop]
    simp [heq]

/-- Witness for C10: boundary adjustment at a concrete state keeps the
stack and resets the level; the matching return pops independently of the
thread strings supplied. -/
theorem c10_witness :
    ((threadAdjust { level := 1, curThread := some "0", stack := [pstr "f"] } "1").2).stack =
      [pstr "f"] ∧
    ((threadAdjust { level := 1, curThread := some "0", stack := [pstr "f"] } "1").2).level = 0 ∧
    elemBody 0 "0" [pstr "f"] c10ReturnF = elemBody 0 "1" [pstr "f"] c10ReturnF ∧
    elemBody 0 "1" [pstr "f"] c10ReturnF = some ([], 0 - 1, []) :=
  ⟨c10_shared_stack_across_threads.1
     { level := 1, curThread := some "0", stack := [pstr "f"] } "1",
   c10_shared_stack_across_threads.2.1
     { level := 1, curThread := some "0", stack := [pstr "f"] } "1" "0" (by decide) (by decide),
   c10_shared_stack_across_threads.2.2.1 0 "0" "1" [pstr "f"] c10ReturnF (by decide),
   c10_shared_stack_across_threads.2.2.2.1 0 "1" c10ReturnF (pstr "f") [] (by decide) (by decide)⟩

/-! ## Claim C2: lines matching no shape -/

/-- Counterexample to C2 as stated: the text `"12\n|f"` contains the line
`12`, which matches none of the three line shapes, yet the parser raises no
error and silently produces a sequence: the unmatched line is saved in
`not_parsed` and concatenated with the following line, and the joined text
`12|f` parses as a call line. -/
theorem c2_counterexample :
    error_trace_pretty_parse c2MergeText = .ok [mkCallElem 0 "12" "f"] ∧
    pySplitLines c2MergeText = ["12", "|f"] ∧
    matchCallLine "12".data = none ∧
    matchAssumeLine "12".data = none ∧
    matchGenericLine "12".data = none := by decide

/-- C2 as amended: an unmatched line is only a hard parse error when the
continuation mechanism cannot repair it; in particular, for a single-line
input whose stripped content is nonempty and matches none of the three
shapes, the parser raises `ValueError` naming that (stripped) line content.
An unmatched non-final line is instead concatenated with the following line
and re-tried, which can silently succeed (see the counterexample), and a
line that strips to the empty string is silently ignored. -/
theorem c2_unmatched_single_line_error (line : String)
    (hnb : ∀ c ∈ line.data, isLineBreakChar c = false)
    (hstrip : stripStr line ≠ "")
    (h1 : matchCallLine (stripStr line).data = none)
    (h2 : matchAssumeLine (stripStr line).data = none)
    (h3 : matchGenericLine (stripStr line).data = none) :
    error_trace_pretty_parse line = .error (cannotParseMsg (stripStr line)) := by
  have hne : line ≠ "" := by
    intro he
    apply hstrip
    rw [he]
    rfl
  have hstep : parseLineStep initialParseState line =
      .ok { initialParseState with notParsed := stripStr line } := by
    unfold parseLineStep combinedLine initialParseState
    simp [h1, h2, h3]
  have hfold : parseFold initialParseState [line] =
      .ok { initialParseState with notParsed := stripStr line } := by
    unfold parseFold
    rw [hstep]
    rfl
  unfold error_trace_pretty_parse
  rw [pySplitLines_single line hne hnb, hfold]
  dsimp only
  rw [if_pos hstrip]

/-- Witness for the amended C2 at the concrete unmatched line `foo`. -/
theorem c2_witness :
    error_trace_pretty_parse "foo" = .error (cannotParseMsg (stripStr "foo")) :=
  c2_unmatched_single_line_error "foo" (by decide) (by decide) (by decide) (by decide)
    (by decide)

/-! ## Claim C4: returns emitted by the parser depth rule -/

theorem popReturns_ok (t : Int) (num : String) :
    ∀ (k : Nat) (stack : List String), k ≤ stack.length →
    popReturns t num stack k =
      .ok ((stack.take k).map (mkReturnElem t num), stack.drop k) := by
  intro k
  induction k with
  | zero => intro stack _; simp [popReturns]
  | succ k' ih =>
    intro stack hk
    cases stack with
    | nil => simp at hk
    | cons f rest =>
      have hrest : k' ≤ rest.length := by simpa using hk
      unfold popReturns
      dsimp only
      rw [ih rest hrest]
      simp

/-- Counterexample to C4 as stated: on the input `" 1\t|  f\n2\t|g"` the
second call line is read at depth 0 while the previous depth is 2, so the
rule demands 3 returns; the stack holds a single entry, `stack.pop()`
raises `IndexError`, and no new call is pushed (the parse fails instead). -/
theorem c4_counterexample :
    error_trace_pretty_parse c4UnderflowText = .error popErrMsg ∧
    matchCallLine (stripStr " 1\t|  f").data = some ("1", 2, "f") ∧
    matchCallLine (stripStr ("2\t" ++ "|g")).data = some ("2", 0, "g") := by decide

/-- C4 as amended: when a line matching the call/marker shape is read, the
depth rule holds exactly as claimed provided the parser stack is deep
enough — depth greater than the previous depth pushes the call with no
returns; depth equal pops exactly one return (for the top of a nonempty
stack) before the push; depth smaller by `d` pops exactly `d + 1` returns
(when at least `d + 1` entries exist) before the push; an end-marker line
pops the same way but advances the thread instead of pushing; when the
stack is too shallow, the parse fails with `IndexError` instead. -/
theorem c4_parser_depth_rule (st : ParseState) (raw num func : String) (lvl : Nat)
    (hm : matchCallLine (combinedLine st raw).data = some (num, lvl, func)) :
    ((lvl : Int) > st.curLevel → func ≠ CET_END →
      parseLineStep st raw = .ok
        { curThread := st.curThread, curLevel := (lvl : Int), stack := func :: st.stack,
          notParsed := "", acc := st.acc ++ [mkCallElem st.curThread num func] }) ∧
    (∀ r rest, (lvl : Int) = st.curLevel → st.stack = r :: rest → func ≠ CET_END →
      parseLineStep st raw = .ok
        { curThread := st.curThread, curLevel := (lvl : Int), stack := func :: rest,
          notParsed := "",
          acc := st.acc ++ [mkReturnElem st.curThread num r,
            mkCallElem st.curThread num func] }) ∧
    ((lvl : Int) < st.curLevel → ∀ d1 : Nat, (d1 : Int) = st.curLevel - lvl + 1 →
      d1 ≤ st.stack.length → func ≠ CET_END →
      parseLineStep st raw = .ok
        { curThread := st.curThread, curLevel := (lvl : Int),
          stack := func :: st.stack.drop d1, notParsed := "",
          acc := st.acc ++ (st.stack.take d1).map (mkReturnElem st.curThread num)
            ++ [mkCallElem st.curThread num func] }) ∧
    ((lvl : Int) > st.curLevel → func = CET_END →
      parseLineStep st raw = .ok
        { curThread := st.curThread + 1, curLevel := -1, stack := st.stack,
          notParsed := "", acc := st.acc }) := by
  refine ⟨?_, ?_, ?_, ?_⟩
  · intro hgt hfunc
    unfold parseLineStep
    dsimp only
    rw [hm]
    dsimp only
    rw [if_neg (by omega), if_neg (by omega)]
    rw [popReturns_ok st.curThread num 0 st.stack (Nat.zero_le _)]
    simp [hfunc]
  · intro r rest heq hstack hfunc
    unfold parseLineStep
    dsimp only
    rw [hm]
    dsimp only
    rw [if_pos heq, hstack]
    rw [popReturns_ok st.curThread num 1 (r :: rest) (by simp)]
    simp [hfunc]
  · intro hlt d1 hd1 hlen hfunc
    unfold parseLineStep
    dsimp only
    rw [hm]
    dsimp only
    rw [if_neg (by omega), if_pos hlt]
    have htn : (st.curLevel - (lvl : Int) + 1).toNat = d1 := by omega
    rw [htn, popReturns_ok st.curThread num d1 st.stack hlen]
    simp [hfunc]
  · intro hgt hfunc
    unfold parseLineStep
    dsimp only
    rw [hm]
    dsimp only
    rw [if_neg (by omega), if_neg (by omega)]
    rw [popReturns_ok st.curThread num 0 st.stack (Nat.zero_le _)]
    simp [hfunc]

/-- Witness for the amended C4 at a concrete equal-depth call line. -/
theorem c4_witness :
    parseLineStep
      { curThread := 0, curLevel := 0, stack := ["f"], notParsed := "", acc := [] }
      ("2\t" ++ "|g") = .ok
      { curThread := 0, curLevel := (0 : Nat), stack := ["g"],
        notParsed := "", acc := [] ++ [mkReturnElem 0 "2" "f", mkCallElem 0 "2" "g"] } :=
  (c4_parser_depth_rule
    { curThread := 0, curLevel := 0, stack := ["f"], notParsed := "", acc := [] }
    ("2\t" ++ "|g") "2" "g" 0 (by decide)).2.1 "f" [] (by decide) (by decide) (by decide)

/-! ## Claim C8: identifiers and the running thread counter -/

theorem popReturns_elems (t : Int) (num : String) :
    ∀ (k : Nat) (stack stack2 : List String) (rets : List CetElem),
    popReturns t num stack k = .ok (rets, stack2) →
    ∀ e ∈ rets, e.id = pint 0 ∧ e.thread = pint t := by
  intro k
  induction k with
  | zero =>
    intro stack stack2 rets h e he
    unfold popReturns at h
    cases h
    simp at he
  | succ k' ih =>
    intro stack stack2 rets h e he
    cases stack with
    | nil =>
      unfold popReturns at h
      cases h
    | cons f rest =>
      unfold popReturns at h
      dsimp only at h
      cases hp : popReturns t num rest k' with
      | error err =>
        rw [hp] at h
        cases h
      | ok p =>
        obtain ⟨els, st2⟩ := p
        rw [hp] at h
        cases h
        rcases List.mem_cons.mp he with he1 | he2
        · subst he1
          exact ⟨rfl, rfl⟩
        · exact ih rest stack2 els hp e he2

theorem parseLineStep_acc (st : ParseState) (raw : String) (st' : ParseState)
    (h : parseLineStep st raw = .ok st') :
    (∃ news, st'.acc = st.acc ++ news ∧
      ∀ e ∈ news, e.id = pint 0 ∧ e.thread = pint st.curThread) ∧
    st'.curThread = st.curThread +
      (if isEndMarkerLine (combinedLine st raw) then 1 else 0) := by
  unfold parseLineStep at h
  dsimp only at h
  cases hc : matchCallLine (combinedLine st raw).data with
  | none =>
    rw [hc] at h
    have hend : isEndMarkerLine (combinedLine st raw) = false := by
      unfold isEndMarkerLine
      rw [hc]
    cases ha : matchAssumeLine (combinedLine st raw).data with
    | none =>
      rw [ha] at h
      cases hg : matchGenericLine (combinedLine st raw).data with
      | none =>
        rw [hg] at h
        cases h
        exact ⟨⟨[], by simp, by simp⟩, by simp [hend]⟩
      | some v =>
        obtain ⟨num, lvl2, opW, txt⟩ := v
        rw [hg] at h
        cases h
        refine ⟨⟨[mkGenericElem st.curThread num opW txt], by simp, ?_⟩, by simp [hend]⟩
        intro e he
        rcases List.mem_singleton.mp he with rfl
        exact ⟨rfl, rfl⟩
    | some v =>
      obtain ⟨num, lvl2, isF, txt⟩ := v
      rw [ha] at h
      cases h
      refine ⟨⟨[mkAssumeElem st.curThread num isF txt], by simp, ?_⟩, by simp [hend]⟩
      intro e he
      rcases List.mem_singleton.mp he with rfl
      exact ⟨rfl, rfl⟩
  | some v =>
    obtain ⟨num, lvl, func⟩ := v
    rw [hc] at h
    dsimp only at h
    cases hp : popReturns st.curThread num st.stack
        (if (lvl : Int) = st.curLevel then 1
         else if (lvl : Int) < st.curLevel then (st.curLevel - lvl + 1).toNat else 0) with
    | error err =>
      rw [hp] at h
      cases h
    | ok p =>
      obtain ⟨rets, stack2⟩ := p
      rw [hp] at h
      have hrets := popReturns_elems st.curThread num _ st.stack stack2 rets hp
      dsimp only at h
      by_cases hf : func = CET_END
      · rw [if_pos hf] at h
        cases h
        have hend : isEndMarkerLine (combinedLine st raw) = true := by
          unfold isEndMarkerLine
          rw [hc]
          simp [hf]
        exact ⟨⟨rets, by simp, hrets⟩, by simp [hend]⟩
      · rw [if_neg hf] at h
        cases h
        have hend : isEndMarkerLine (combinedLine st raw) = false := by
          unfold isEndMarkerLine
          rw [hc]
          simp [hf]
        refine ⟨⟨rets ++ [mkCallElem st.curThread num func], by simp, ?_⟩, by simp [hend]⟩
        intro e he
        rcases List.mem_append.mp he with he1 | he2
        · exact hrets e he1
        · rcases List.mem_singleton.mp he2 with rfl
          exact ⟨rfl, rfl⟩

theorem parseFold_ids (lines : List String) :
    ∀ (st stf : ParseState), parseFold st lines = .ok stf →
    (∀ e ∈ st.acc, e.id = pint 0) → ∀ e ∈ stf.acc, e.id = pint 0 := by
  induction lines with
  | nil =>
    intro st stf h hacc
    unfold parseFold at h
    cases h
    exact hacc
  | cons l rest ih =>
    intro st stf h hacc
    unfold parseFold at h
    cases hstep : parseLineStep st l with
    | error err =>
      rw [hstep] at h
      cases h
    | ok st1 =>
      rw [hstep] at h
      refine ih st1 stf h ?_
      obtain ⟨⟨news, hacc1, hnews⟩, _⟩ := parseLineStep_acc st l st1 hstep
      rw [hacc1]
      intro e he
      rcases List.mem_append.mp he with he1 | he2
      · exact hacc e he1
      · exact (hnews e he2).1

/-- C8: every element produced by `error_trace_pretty_parse` has identifier
0; every element appended while processing one line carries the running
thread counter as its `thread`, and the counter (which starts at 0 in
`initialParseState`) is incremented exactly on end-marker (`__ERROR__`)
lines; consequently ids are 0 after a print-then-parse round trip. -/
theorem c8_ids_zero_and_thread_counter :
    (∀ (s : String) (l : List CetElem), error_trace_pretty_parse s = .ok l →
      ∀ e ∈ l, e.id = pint 0) ∧
    (∀ (st : ParseState) (raw : String) (st' : ParseState),
      parseLineStep st raw = .ok st' →
      (∃ news, st'.acc = st.acc ++ news ∧
        ∀ e ∈ news, e.id = pint 0 ∧ e.thread = pint st.curThread) ∧
      st'.curThread = st.curThread +
        (if isEndMarkerLine (combinedLine st raw) then 1 else 0)) ∧
    (∀ (s : List CetElem) (txt : String) (l : List CetElem),
      error_trace_pretty_print s = some txt → error_trace_pretty_parse txt = .ok l →
      ∀ e ∈ l, e.id = pint 0) := by
  have h1 : ∀ (s : String) (l : List CetElem), error_trace_pretty_parse s = .ok l →
      ∀ e ∈ l, e.id = pint 0 := by
    intro s l h
    unfold error_trace_pretty_parse at h
    cases hf : parseFold initialParseState (pySplitLines s) with
    | error e2 =>
      rw [hf] at h
      cases h
    | ok stf =>
      rw [hf] at h
      dsimp only at h
      by_cases hnp : stf.notParsed ≠ ""
      · rw [if_pos hnp] at h
        cases h
      · rw [if_neg hnp] at h
        cases h
        exact parseFold_ids _ initialParseState stf hf (by simp [initialParseState])
  exact ⟨h1, fun st raw st' h => parseLineStep_acc st raw st' h,
    fun s txt l _ hl => h1 txt l hl⟩

/-- Witness for C8: a concrete parsed element has identifier 0. -/
theorem c8_witness : (mkCallElem 0 "1" "f").id = pint 0 :=
  c8_ids_zero_and_thread_counter.1
    ("    1\t" ++ "|f\n    0\t" ++ "|" ++ CET_END ++ "\n")
    [mkCallElem 0 "1" "f", mkReturnElem 0 "0" "f"] (by decide)
    (mkCallElem 0 "1" "f") (by decide)

/-! ## Claim C5: thread-boundary marker emission -/

theorem countMarkers_append (a b : List OutLine) :
    countMarkers (a ++ b) = countMarkers a + countMarkers b := by
  unfold countMarkers
  rw [List.filter_append, List.length_append]

theorem elemBody_no_marker (lvl : Int) (ct : String) (stk : List PyVal) (e : CetElem)
    (r : List OutLine × Int × List PyVal) (h : elemBody lvl ct stk e = some r) :
    countMarkers r.1 = 0 := by
  unfold elemBody at h
  dsimp only at h
  by_cases h1 : e.op = CET_OP_RETURN
  · rw [if_pos h1] at h
    cases stk with
    | nil => cases h
    | cons c rest =>
      dsimp only at h
      by_cases h2 : pyEq e.display_name c = true
      · rw [if_pos h2] at h
        cases h
        rfl
      · rw [if_neg h2] at h
        cases h
        rfl
  · rw [if_neg h1] at h
    by_cases h2 : e.op = CET_OP_CALL
    · rw [if_pos h2] at h
      cases h
      rfl
    · rw [if_neg h2] at h
      by_cases h3 : (decide (e.op = CET_OP_ASSIGN) || decide (e.op = CET_OP_ASSUME) ||
          decide (e.op = CET_OP_NOTE) || decide (e.op = CET_OP_WARN)) = true
      · rw [if_pos h3] at h
        cases hsp : (if lvl > 0 then some (spacesN lvl.toNat)
            else (pyIntOfString ct).map (fun k => spacesN k.toNat)) with
        | none =>
          rw [hsp] at h
          cases h
        | some sp =>
          rw [hsp] at h
          dsimp only at h
          cases h
          rfl
      · rw [if_neg h3] at h
        cases h
        rfl

theorem countBoundariesFrom_cons (c : Option String) (t : String) (l : List String) :
    countBoundariesFrom c (t :: l) =
      (match c with
       | none => 0
       | some c0 => if c0 = t then 0 else 1) +
      countBoundariesFrom (some t) l := rfl

theorem threadAdjust_markers (st : PrintState) (th : String) :
    countMarkers (threadAdjust st th).1 = (if isBoundary st th then 1 else 0) ∧
    ((threadAdjust st th).2).curThread = some th := by
  obtain ⟨lvl, ct, stk⟩ := st
  cases ct with
  | none => exact ⟨rfl, rfl⟩
  | some c =>
    by_cases h : c = th
    · subst h
      simp [threadAdjust, isBoundary, countMarkers]
    · simp [threadAdjust, isBoundary, countMarkers, isMarkerLine, h]

theorem printStep_markers (st : PrintState) (e : CetElem)
    (r : List OutLine × PrintState) (h : printStep st e = some r) :
    countMarkers r.1 = (if isBoundary st (pyStr e.thread) then 1 else 0) ∧
    r.2.curThread = some (pyStr e.thread) := by
  unfold printStep at h
  dsimp only at h
  obtain ⟨hta, hth⟩ := threadAdjust_markers st (pyStr e.thread)
  cases hb : elemBody (threadAdjust st (pyStr e.thread)).2.level (pyStr e.thread)
      (threadAdjust st (pyStr e.thread)).2.stack e with
  | none =>
    rw [hb] at h
    cases h
  | some p =>
    obtain ⟨ls2, lvl2, stk2⟩ := p
    rw [hb] at h
    cases h
    constructor
    · rw [countMarkers_append, hta, elemBody_no_marker _ _ _ _ _ hb]
      simp
    · exact hth

theorem printFold_markers (s : List CetElem) :
    ∀ (st : PrintState) (r : List OutLine × PrintState), printFold st s = some r →
    countMarkers r.1 =
      countBoundariesFrom st.curThread (s.map (fun e => pyStr e.thread)) := by
  induction s with
  | nil =>
    intro st r h
    cases h
    rfl
  | cons e rest ih =>
    intro st r h
    unfold printFold at h
    cases hs : printStep st e with
    | none =>
      rw [hs] at h
      cases h
    | some p =>
      rw [hs] at h
      dsimp only at h
      cases hf : printFold p.2 rest with
      | none =>
        obtain ⟨ls1, st1⟩ := p
        rw [hf] at h
        cases h
      | some q =>
        obtain ⟨ls1, st1⟩ := p
        obtain ⟨ls2, st2⟩ := q
        rw [hf] at h
        cases h
        obtain ⟨hm, hth⟩ := printStep_markers st e (ls1, st1) hs
        have hih := ih st1 (ls2, st2) hf
        have hbnd : (if isBoundary st (pyStr e.thread) then 1 else 0) =
            (match st.curThread with
             | none => 0
             | some c0 => if c0 = pyStr e.thread then 0 else 1) := by
          unfold isBoundary
          cases st.curThread with
          | none => rfl
          | some c0 =>
            by_cases hc : c0 = pyStr e.thread
            · simp [hc]
            · simp [hc]
        rw [countMarkers_append, hm, hih, hth, List.map_cons,
          countBoundariesFrom_cons, hbnd]

theorem countBoundariesFrom_some (l : List String) :
    ∀ t, countBoundariesFrom (some t) l = countAdjDiff (t :: l) := by
  induction l with
  | nil => intro t; rfl
  | cons u r ih =>
    intro t
    rw [countBoundariesFrom_cons, ih u]
    rfl

theorem countBoundariesFrom_none (l : List String) :
    countBoundariesFrom none l = countAdjDiff l := by
  cases l with
  | nil => rfl
  | cons t rest =>
    rw [countBoundariesFrom_cons, countBoundariesFrom_some rest t]
    simp

theorem threadStrs_stringify (s : List CetElem) :
    (s.map stringifyThread).map (fun e => pyStr e.thread) = threadStrs s := by
  unfold threadStrs
  rw [List.map_map]
  rfl

/-- C5: the printer emits a thread-boundary marker exactly at each position
where the (stringified) thread of consecutive elements differs, plus one
final marker: the marker count equals `countAdjDiff` of the thread strings
plus one.  At a boundary the marker carries the current (old) depth as its
indentation and the state's depth is reset to 0 for the following thread;
a marker renders as the line-number field `    0`, the separator, the
indentation, and `__ERROR__`. -/
theorem c5_thread_boundary_markers :
    (∀ (s t2 : List CetElem) (ls : List OutLine) (stf : PrintState),
      printLinesAndState s = some (ls, stf, t2) →
      countMarkers ls = countAdjDiff (threadStrs s) + 1) ∧
    (∀ (st : PrintState) (th c : String), st.curThread = some c → c ≠ th →
      threadAdjust st th = ([.marker st.level.toNat],
        { level := 0, curThread := some th, stack := st.stack })) ∧
    (∀ n, renderOutLine (.marker n) =
      "    0\t" ++ CODE_LINE_SEPARATOR ++ spacesN n ++ CET_END ++ "\n") := by
  refine ⟨?_, ?_, fun n => rfl⟩
  · intro s t2 ls stf h
    unfold printLinesAndState at h
    dsimp only at h
    cases hf : printFold initialPrintState (s.map stringifyThread) with
    | none =>
      rw [hf] at h
      cases h
    | some p =>
      obtain ⟨ls0, st0⟩ := p
      rw [hf] at h
      cases h
      rw [countMarkers_append, printFold_markers _ _ _ hf]
      show countBoundariesFrom initialPrintState.curThread _ + 1 = _
      rw [threadStrs_stringify]
      show countBoundariesFrom none (threadStrs s) + 1 = countAdjDiff (threadStrs s) + 1
      rw [countBoundariesFrom_none]
  · intro st th c hc hne
    unfold threadAdjust
    rw [hc]
    simp [hne]

/-- Witness for C5: the two-element, two-thread demo trace gets one
boundary marker plus the final marker. -/
theorem c5_witness :
    countMarkers [OutLine.textLine ("    1\t" ++ "|f"), OutLine.marker 1, OutLine.marker 0] =
      countAdjDiff (threadStrs [c10CallF, c10ReturnF]) + 1 :=
  c5_thread_boundary_markers.1 [c10CallF, c10ReturnF]
    [{ c10CallF with thread := pstr "0" }, { c10ReturnF with thread := pstr "1" }]
    [OutLine.textLine ("    1\t" ++ "|f"), OutLine.marker 1, OutLine.marker 0]
    { level := -1, curThread := some "1", stack := [] } (by decide)

/-! ## Dict lemmas for `process_args` -/

theorem dictLookup_set (d : ArgDict) (k : String) (v : ArgVal) :
    ∀ k', dictLookup (dictSet d k v) k' = if k = k' then some v else dictLookup d k' := by
  induction d with
  | nil =>
    intro k'
    rfl
  | cons p rest ih =>
    intro k'
    obtain ⟨k0, v0⟩ := p
    unfold dictSet
    by_cases h0 : k0 = k
    · subst h0
      by_cases h1 : k0 = k'
      · subst h1
        simp [dictLookup]
      · simp [dictLookup, h1]
    · rw [if_neg h0]
      by_cases h1 : k0 = k'
      · subst h1
        have hk : ¬(k = k0) := fun he => h0 he.symm
        simp [dictLookup, hk]
      · simp [dictLookup, h1, ih k']

theorem dictLookup_erase_ne (d : ArgDict) (k k' : String) (h : ¬(k' = k)) :
    dictLookup (dictErase d k) k' = dictLookup d k' := by
  induction d with
  | nil => rfl
  | cons p rest ih =>
    obtain ⟨k0, v0⟩ := p
    unfold dictErase
    by_cases h0 : k0 = k
    · subst h0
      have : ¬(k0 = k') := fun he => h (he.symm.trans rfl)
      simp [dictLookup, this]
    · rw [if_neg h0]
      by_cases h1 : k0 = k'
      · simp [dictLookup, h1]
      · simp [dictLookup, h1, ih]

theorem dictLookup_eq_none_of_not_mem (d : ArgDict) (k : String)
    (h : k ∉ dictKeys d) : dictLookup d k = none := by
  induction d with
  | nil => rfl
  | cons p rest ih =>
    obtain ⟨k0, v0⟩ := p
    have h0 : ¬(k0 = k) := fun he => h (by simp [dictKeys, he])
    have hrest : k ∉ dictKeys rest := fun hm => h (by simp [dictKeys] at hm ⊢; exact .inr hm)
    simp [dictLookup, h0, ih hrest]

theorem dictLookup_isSome_iff (d : ArgDict) (k : String) :
    (dictLookup d k).isSome = true ↔ k ∈ dictKeys d := by
  induction d with
  | nil => simp [dictLookup, dictKeys]
  | cons p rest ih =>
    obtain ⟨k0, v0⟩ := p
    by_cases h0 : k0 = k
    · subst h0
      simp [dictLookup, dictKeys]
    · simp [dictLookup, dictKeys, h0, ih]
      intro he
      exact absurd he.symm h0

theorem dictLookup_erase_self (d : ArgDict) (k : String)
    (hnd : (dictKeys d).Nodup) : dictLookup (dictErase d k) k = none := by
  induction d with
  | nil => rfl
  | cons p rest ih =>
    obtain ⟨k0, v0⟩ := p
    unfold dictErase
    by_cases h0 : k0 = k
    · subst h0
      rw [if_pos rfl]
      exact dictLookup_eq_none_of_not_mem rest k0 (by
        have := List.nodup_cons.mp hnd
        exact this.1)
    · rw [if_neg h0]
      have hrest : (dictKeys rest).Nodup := (List.nodup_cons.mp hnd).2
      simp [dictLookup, h0, ih hrest]

theorem dictKeys_set_mem (d : ArgDict) (k : String) (v : ArgVal)
    (h : k ∈ dictKeys d) : dictKeys (dictSet d k v) = dictKeys d := by
  induction d with
  | nil => simp [dictKeys] at h
  | cons p rest ih =>
    obtain ⟨k0, v0⟩ := p
    unfold dictSet
    by_cases h0 : k0 = k
    · subst h0
      simp [dictKeys]
    · rw [if_neg h0]
      have hrest : k ∈ dictKeys rest := by
        rcases List.mem_cons.mp h with h1 | h1
        · exact absurd h1.symm h0
        · exact h1
      have hih := ih hrest
      simp [dictKeys] at hih ⊢
      exact hih

theorem dictKeys_erase_sublist (d : ArgDict) (k : String) :
    List.Sublist (dictKeys (dictErase d k)) (dictKeys d) := by
  induction d with
  | nil => exact List.Sublist.refl _
  | cons p rest ih =>
    obtain ⟨k0, v0⟩ := p
    unfold dictErase
    by_cases h0 : k0 = k
    · rw [if_pos h0]
      exact List.sublist_cons_self _ _
    · rw [if_neg h0]
      exact List.Sublist.cons₂ _ ih

theorem processTag_lookup (d : ArgDict) (t : String) (hnd : (dictKeys d).Nodup) :
    ∀ k, dictLookup (processTag false d t) k =
      if t = k then canonOptVal (dictLookup d t) else dictLookup d k := by
  intro k
  unfold processTag
  cases h0 : dictLookup d t with
  | none =>
    dsimp only
    by_cases ht : t = k
    · subst ht
      simp [canonOptVal, h0]
    · simp [ht]
  | some v =>
    dsimp only
    by_cases htr : argTruthy v = true
    · rw [if_pos htr, dictLookup_set]
      by_cases ht : t = k
      · simp [ht, canonOptVal, htr]
      · simp [ht]
    · rw [if_neg htr]
      by_cases ht : t = k
      · subst ht
        rw [dictLookup_erase_self d t hnd]
        simp [canonOptVal, h0, htr]
      · rw [dictLookup_erase_ne d t k (fun he => ht he.symm)]
        simp [ht]

theorem processTag_nodup (d : ArgDict) (t : String) (hnd : (dictKeys d).Nodup) :
    (dictKeys (processTag false d t)).Nodup := by
  unfold processTag
  cases h0 : dictLookup d t with
  | none => exact hnd
  | some v =>
    dsimp only
    by_cases htr : argTruthy v = true
    · rw [if_pos htr]
      rw [dictKeys_set_mem d t _ ((dictLookup_isSome_iff d t).mp (by rw [h0]; rfl))]
      exact hnd
    · rw [if_neg htr]
      exact (dictKeys_erase_sublist d t).nodup hnd

theorem processTags_lookup (ts : List String) :
    ∀ (d : ArgDict), (dictKeys d).Nodup → ts.Nodup → ∀ k,
    dictLookup (ts.foldl (processTag false) d) k =
      if k ∈ ts then canonOptVal (dictLookup d k) else dictLookup d k := by
  induction ts with
  | nil =>
    intro d _ _ k
    simp
  | cons t ts' ih =>
    intro d hnd hts k
    have hnd' := processTag_nodup d t hnd
    have hts' := (List.nodup_cons.mp hts).2
    have htn : t ∉ ts' := (List.nodup_cons.mp hts).1
    rw [List.foldl_cons, ih (processTag false d t) hnd' hts' k]
    by_cases hk1 : k ∈ ts'
    · have hkt : ¬(t = k) := fun he => htn (he ▸ hk1)
      rw [if_pos hk1, if_pos (List.mem_cons.mpr (.inr hk1)),
        processTag_lookup d t hnd k, if_neg hkt]
    · by_cases hk2 : k = t
      · subst hk2
        rw [if_neg hk1, if_pos (List.mem_cons.mpr (.inl rfl)),
          processTag_lookup d k hnd k, if_pos rfl]
      · rw [if_neg hk1, if_neg (by
          intro hm
          rcases List.mem_cons.mp hm with h | h
          · exact hk2 h
          · exact hk1 h),
          processTag_lookup d t hnd k, if_neg (fun he => hk2 he.symm)]

theorem processTags_nodup (ts : List String) :
    ∀ (d : ArgDict), (dictKeys d).Nodup →
    (dictKeys (ts.foldl (processTag false) d)).Nodup := by
  induction ts with
  | nil => intro d hnd; exact hnd
  | cons t ts' ih =>
    intro d hnd
    rw [List.foldl_cons]
    exact ih _ (processTag_nodup d t hnd)

theorem process_args_lookup (d : ArgDict) (hnd : (dictKeys d).Nodup) (k : String) :
    dictLookup (process_args false d) k =
      if k ∈ PROCESS_TAGS then canonOptVal (dictLookup d k) else dictLookup d k :=
  processTags_lookup PROCESS_TAGS d hnd (by decide) k

theorem process_args_nodup (d : ArgDict) (hnd : (dictKeys d).Nodup) :
    (dictKeys (process_args false d)).Nodup :=
  processTags_nodup PROCESS_TAGS d hnd

/-! ## Claim C7: canonicalization of argument mappings -/

theorem pySortStrings_perm_eq (l1 l2 : List String) (h : l1.Perm l2) :
    pySortStrings l1 = pySortStrings l2 := by
  unfold pySortStrings
  exact List.eq_of_perm_of_sorted
    ((List.perm_insertionSort _ l1).trans (h.trans (List.perm_insertionSort _ l2).symm))
    (List.sorted_insertionSort _ l1) (List.sorted_insertionSort _ l2)

theorem canonOptVal_denote :
    ∀ (x y : Option ArgVal), denoteArg x = denoteArg y → canonOptVal x = canonOptVal y := by
  have key : ∀ (v w : ArgVal), argTruthy v = true → argTruthy w = true →
      (match v with
        | ArgVal.vstr s => Sum.inl (pySplitComma s : Multiset String)
        | ArgVal.vlist l => Sum.inl (l : Multiset String)
        | x => Sum.inr x) =
      (match w with
        | ArgVal.vstr s => Sum.inl (pySplitComma s : Multiset String)
        | ArgVal.vlist l => Sum.inl (l : Multiset String)
        | x => Sum.inr x) →
      canonArgContents false v = canonArgContents false w := by
    intro v w _ _ h
    cases v <;> cases w <;>
      simp_all [canonArgContents, Multiset.coe_eq_coe] <;>
      exact pySortStrings_perm_eq _ _ h
  intro x y h
  cases x with
  | none =>
    cases y with
    | none => rfl
    | some w =>
      unfold denoteArg at h
      dsimp only at h
      by_cases htr : argTruthy w = true
      · rw [if_pos htr] at h
        exact Option.noConfusion h
      · simp [canonOptVal, htr]
  | some v =>
    cases y with
    | none =>
      unfold denoteArg at h
      dsimp only at h
      by_cases htr : argTruthy v = true
      · rw [if_pos htr] at h
        exact Option.noConfusion h
      · simp [canonOptVal, htr]
    | some w =>
      unfold denoteArg at h
      dsimp only at h
      by_cases hv : argTruthy v = true <;> by_cases hw : argTruthy w = true
      · rw [if_pos hv, if_pos hw] at h
        simp only [canonOptVal, if_pos hv, if_pos hw]
        rw [key v w hv hw (Option.some.inj h)]
      · rw [if_pos hv, if_neg hw] at h
        exact Option.noConfusion h
      · rw [if_neg hv, if_pos hw] at h
        exact Option.noConfusion h
      · simp [canonOptVal, hv, hw]

theorem sortedKeys_eq_of_lookup (p1 p2 : ArgDict)
    (h1 : (dictKeys p1).Nodup) (h2 : (dictKeys p2).Nodup)
    (hl : ∀ k, dictLookup p1 k = dictLookup p2 k) :
    sortedKeys p1 = sortedKeys p2 := by
  have hmem : ∀ k, k ∈ dictKeys p1 ↔ k ∈ dictKeys p2 := by
    intro k
    rw [← dictLookup_isSome_iff, ← dictLookup_isSome_iff, hl k]
  have hperm : (dictKeys p1).Perm (dictKeys p2) :=
    (List.perm_ext_iff_of_nodup h1 h2).mpr hmem
  unfold sortedKeys
  unfold dictKeys at hperm
  exact List.eq_of_perm_of_sorted
    ((List.perm_insertionSort _ _).trans (hperm.trans (List.perm_insertionSort _ _).symm))
    (List.sorted_insertionSort _ _) (List.sorted_insertionSort _ _)

theorem canonEntries_eq_of_lookup (p1 p2 : ArgDict)
    (h1 : (dictKeys p1).Nodup) (h2 : (dictKeys p2).Nodup)
    (hl : ∀ k, dictLookup p1 k = dictLookup p2 k) :
    canonEntries p1 = canonEntries p2 := by
  unfold canonEntries
  rw [sortedKeys_eq_of_lookup p1 p2 h1 h2 hl]
  have : ∀ ks : List String,
      ks.map (fun k => (k, dictLookup p1 k)) = ks.map (fun k => (k, dictLookup p2 k)) := by
    intro ks
    induction ks with
    | nil => rfl
    | cons a l ih => simp [ih, hl a]
  exact this _

/-- C7: `process_args` canonicalizes: each recognized option becomes
`canonOptVal` of its old value (comma-strings split, lists sorted, falsy
values removed, other keys untouched); hence two nodup-keyed mappings whose
recognized options denote the same option sets (`denoteArg` agrees; name
lists compared as multisets) and that agree outside the recognized tags
canonicalize to the same mapping, the same sorted entry list, and the same
cache key string. -/
theorem c7_process_args_canonical (d1 d2 : ArgDict)
    (h1 : (dictKeys d1).Nodup) (h2 : (dictKeys d2).Nodup)
    (htags : ∀ t ∈ PROCESS_TAGS, denoteArg (dictLookup d1 t) = denoteArg (dictLookup d2 t))
    (hrest : ∀ k, k ∉ PROCESS_TAGS → dictLookup d1 k = dictLookup d2 k) :
    (∀ (d : ArgDict), (dictKeys d).Nodup → ∀ k, dictLookup (process_args false d) k =
      if k ∈ PROCESS_TAGS then canonOptVal (dictLookup d k) else dictLookup d k) ∧
    (∀ k, dictLookup (process_args false d1) k = dictLookup (process_args false d2) k) ∧
    canonEntries (process_args false d1) = canonEntries (process_args false d2) ∧
    dumpsSortedKeys (process_args false d1) = dumpsSortedKeys (process_args false d2) := by
  have hl : ∀ k, dictLookup (process_args false d1) k =
      dictLookup (process_args false d2) k := by
    intro k
    rw [process_args_lookup d1 h1 k, process_args_lookup d2 h2 k]
    by_cases hk : k ∈ PROCESS_TAGS
    · rw [if_pos hk, if_pos hk]
      exact canonOptVal_denote _ _ (htags k hk)
    · rw [if_neg hk, if_neg hk]
      exact hrest k hk
  have hce : canonEntries (process_args false d1) = canonEntries (process_args false d2) :=
    canonEntries_eq_of_lookup _ _ (process_args_nodup d1 h1) (process_args_nodup d2 h2) hl
  refine ⟨fun d hnd k => process_args_lookup d hnd k, hl, hce, ?_⟩
  unfold dumpsSortedKeys
  rw [hce]

/-- Witness for C7: a comma-string mapping and a permuted list mapping in a
different insertion order yield one cache key string. -/
theorem c7_witness :
    dumpsSortedKeys (process_args false c7Dict1) =
      dumpsSortedKeys (process_args false c7Dict2) :=
  (c7_process_args_canonical c7Dict1 c7Dict2 (by decide) (by decide)
    (fun t ht => by
      fin_cases ht <;>
        simp [c7Dict1, c7Dict2, dictLookup, denoteArg, argTruthy,
          PROCESS_TAGS, TAG_ADDITIONAL_MODEL_FUNCTIONS, TAG_FILTERED_MODEL_FUNCTIONS,
          TAG_USE_NOTES, TAG_USE_WARNS, TAG_IGNORE_NOTES_TEXT]
      exact List.Perm.swap "a" "b" [])
    (fun k hk => by
      have hka : ¬(TAG_ADDITIONAL_MODEL_FUNCTIONS = k) := by
        intro he
        exact hk (by rw [← he]; decide)
      simp [c7Dict1, c7Dict2, dictLookup, hka])).2.2.2

/-! ## Claim C6: purity of the core functions -/

/-- Counterexample to C6 as stated: `process_args` deletes the falsy
`use notes` entry from the caller's mapping, and `error_trace_pretty_print`
overwrites each element's `thread` field with its string form, so neither
leaves its input unchanged. -/
theorem c6_counterexample :
    process_args false c6EmptyNotes ≠ c6EmptyNotes ∧
    process_args false c6EmptyNotes = [] ∧
    printFinalElems [c3Note] = some [{ c3Note with thread := pstr "0" }] ∧
    printFinalElems [c3Note] ≠ some [c3Note] := by decide

theorem stringifyThread_idem (e : CetElem) :
    stringifyThread (stringifyThread e) = stringifyThread e := by
  cases he : e.thread <;> simp [stringifyThread, pyStr, he]

theorem splitOnChar_ne_nil (sep : Char) (cs : List Char) : splitOnChar sep cs ≠ [] := by
  cases cs with
  | nil => simp [splitOnChar]
  | cons c rest =>
    unfold splitOnChar
    by_cases h : c = sep
    · simp [h]
    · rw [if_neg h]
      cases hs : splitOnChar sep rest <;> simp

theorem pySortStrings_length (l : List String) :
    (pySortStrings l).length = l.length :=
  (List.perm_insertionSort _ l).length_eq

theorem pySortStrings_idem (l : List String) :
    pySortStrings (pySortStrings l) = pySortStrings l :=
  (List.sorted_insertionSort _ l).insertionSort_eq

theorem canonArgContents_fixed (v : ArgVal) (htr : argTruthy v = true) :
    argTruthy (canonArgContents false v) = true ∧
    canonArgContents false (canonArgContents false v) = canonArgContents false v := by
  cases v with
  | vstr s =>
    constructor
    · have hne : pySortStrings (pySplitComma s) ≠ [] := by
        intro hnil
        have hlen := pySortStrings_length (pySplitComma s)
        rw [hnil] at hlen
        have h0 : pySplitComma s = [] := List.eq_nil_of_length_eq_zero hlen.symm
        exact splitOnChar_ne_nil ',' s.data (by
          have h1 := congrArg List.length h0
          simp [pySplitComma] at h1
          exact h1)
      show (!(pySortStrings (pySplitComma s)).isEmpty) = true
      cases hq : pySortStrings (pySplitComma s) with
      | nil => exact absurd hq hne
      | cons a l2 => rfl
    · show canonArgContents false (ArgVal.vlist (pySortStrings (pySplitComma s))) = _
      simp [canonArgContents, pySortStrings_idem]
  | vlist l =>
    constructor
    · have hne : pySortStrings l ≠ [] := by
        intro hnil
        have hlen := pySortStrings_length l
        rw [hnil] at hlen
        have h0 : l = [] := List.eq_nil_of_length_eq_zero hlen.symm
        rw [h0] at htr
        simp [argTruthy] at htr
      show (!(pySortStrings l).isEmpty) = true
      cases hq : pySortStrings l with
      | nil => exact absurd hq hne
      | cons a l2 => rfl
    · show canonArgContents false (ArgVal.vlist (pySortStrings l)) = _
      simp [canonArgContents, pySortStrings_idem]
  | vbool b => exact ⟨htr, rfl⟩
  | vint n => exact ⟨htr, rfl⟩
  | vnone => simp [argTruthy] at htr

theorem dictSet_lookup_self (d : ArgDict) (k : String) (v : ArgVal) :
    dictLookup d k = some v → dictSet d k v = d := by
  induction d with
  | nil =>
    intro h
    exact Option.noConfusion h
  | cons p rest ih =>
    obtain ⟨k0, v0⟩ := p
    intro h
    unfold dictSet
    by_cases h0 : k0 = k
    · subst h0
      unfold dictLookup at h
      rw [if_pos rfl] at h
      rw [if_pos rfl, Option.some.inj h]
    · rw [if_neg h0]
      unfold dictLookup at h
      rw [if_neg h0] at h
      rw [ih h]

theorem foldl_processTag_fixed (ts : List String) :
    ∀ d : ArgDict, (∀ t ∈ ts, processTag false d t = d) →
    ts.foldl (processTag false) d = d := by
  induction ts with
  | nil => intro d _; rfl
  | cons t ts' ih =>
    intro d h
    rw [List.foldl_cons, h t (List.mem_cons_self t ts')]
    exact ih d (fun t2 ht2 => h t2 (List.mem_cons_of_mem t ht2))

/-- C6 as amended: `error_trace_pretty_parse` is pure (a function of the
text alone, building fresh elements); `error_trace_pretty_print` mutates
its input only by replacing each `thread` field with its string form — so a
second invocation on the mutated list is identical to the first; and
`process_args` canonicalizes its mapping in place and is idempotent, so
repeated invocation on owned data is safe even though inputs are mutated. -/
theorem c6_mutation_and_idempotence :
    (∀ s : List CetElem,
      error_trace_pretty_print (s.map stringifyThread) = error_trace_pretty_print s) ∧
    (∀ (s : List CetElem) (r : List OutLine × PrintState × List CetElem),
      printLinesAndState s = some r → r.2.2 = s.map stringifyThread) ∧
    (∀ d : ArgDict, (dictKeys d).Nodup →
      process_args false (process_args false d) = process_args false d) := by
  have hmap : ∀ s : List CetElem,
      (s.map stringifyThread).map stringifyThread = s.map stringifyThread := by
    intro s
    rw [List.map_map]
    exact List.map_congr_left (fun e _ => stringifyThread_idem e)
  refine ⟨?_, ?_, ?_⟩
  · intro s
    unfold error_trace_pretty_print printLinesAndState
    rw [hmap s]
  · intro s r h
    unfold printLinesAndState at h
    dsimp only at h
    cases hf : printFold initialPrintState (s.map stringifyThread) with
    | none =>
      rw [hf] at h
      cases h
    | some p =>
      obtain ⟨ls0, st0⟩ := p
      rw [hf] at h
      cases h
      rfl
  · intro d hnd
    show PROCESS_TAGS.foldl (processTag false) (process_args false d) = process_args false d
    apply foldl_processTag_fixed
    intro t ht
    have hlk : dictLookup (process_args false d) t = canonOptVal (dictLookup d t) := by
      rw [process_args_lookup d hnd t, if_pos ht]
    unfold processTag
    rw [hlk]
    cases h0 : dictLookup d t with
    | none => simp [canonOptVal]
    | some w =>
      by_cases htr : argTruthy w = true
      · have hcv : canonOptVal (some w) = some (canonArgContents false w) := by
          simp [canonOptVal, htr]
        rw [hcv]
        dsimp only
        obtain ⟨hct, hcc⟩ := canonArgContents_fixed w htr
        rw [if_pos hct, hcc]
        apply dictSet_lookup_self
        rw [hlk, h0, hcv]
      · have hcv : canonOptVal (some w) = none := by
          simp [canonOptVal, htr]
        rw [hcv]

/-- Witness for the amended C6: repeated canonicalization of a concrete
mapping is stable, and printing a stringified list prints identically. -/
theorem c6_witness :
    process_args false (process_args false c7Dict1) = process_args false c7Dict1 ∧
    error_trace_pretty_print ([c3Note].map stringifyThread) =
      error_trace_pretty_print [c3Note] :=
  ⟨c6_mutation_and_idempotence.2.2 c7Dict1 (by decide),
   c6_mutation_and_idempotence.1 [c3Note]⟩

/-! ## Claim C1: the print-then-parse round trip -/

theorem takeWhile_append_exact {α : Type} (p : α → Bool) (l1 : List α) (c0 : α)
    (l2 : List α) (h1 : ∀ c ∈ l1, p c = true) (h2 : p c0 = false) :
    (l1 ++ c0 :: l2).takeWhile p = l1 ∧ (l1 ++ c0 :: l2).dropWhile p = c0 :: l2 := by
  induction l1 with
  | nil => simp [List.takeWhile_cons, List.dropWhile_cons, h2]
  | cons a l ih =>
    have ha : p a = true := h1 a (List.mem_cons_self a l)
    have hrest := ih (fun c hc => h1 c (List.mem_cons_of_mem a hc))
    simp [List.takeWhile_cons, List.dropWhile_cons, ha, hrest.1, hrest.2]

theorem dropWhile_sat_front {α : Type} (p : α → Bool) (l1 l2 : List α)
    (h : ∀ c ∈ l1, p c = true) :
    (l1 ++ l2).dropWhile p = l2.dropWhile p := by
  induction l1 with
  | nil => rfl
  | cons a l ih =>
    have ha : p a = true := h a (List.mem_cons_self a l)
    simp [List.dropWhile_cons, ha, ih (fun c hc => h c (List.mem_cons_of_mem a hc))]

theorem natReprAux_mem_digits (fuel : Nat) :
    ∀ (n : Nat), ∀ c ∈ natReprAux fuel n, c ∈ digitChars := by
  induction fuel with
  | zero =>
    intro n c hc
    simp [natReprAux] at hc
  | succ f ih =>
    intro n c hc
    unfold natReprAux at hc
    by_cases h10 : n < 10
    · rw [if_pos h10] at hc
      rcases List.mem_singleton.mp hc with rfl
      interval_cases n <;> decide
    · rw [if_neg h10] at hc
      rcases List.mem_append.mp hc with h | h
      · exact ih (n / 10) c h
      · rcases List.mem_singleton.mp h with rfl
        have hm : n % 10 < 10 := Nat.mod_lt _ (by omega)
        set k := n % 10 with hk
        interval_cases k <;> decide

theorem natReprChars_mem_digits (n : Nat) : ∀ c ∈ natReprChars n, c ∈ digitChars :=
  natReprAux_mem_digits (n + 1) n

theorem natReprChars_ne_nil (n : Nat) : natReprChars n ≠ [] := by
  unfold natReprChars natReprAux
  by_cases h10 : n < 10 <;> simp [h10]

theorem digit_not_ws {c : Char} (h : c ∈ digitChars) : isPyWs c = false := by
  fin_cases h <;> decide

theorem digit_isDigit {c : Char} (h : c ∈ digitChars) : c.isDigit = true := by
  fin_cases h <;> decide

theorem digit_not_tab {c : Char} (h : c ∈ digitChars) : ¬(c = '\t') := by
  fin_cases h <;> decide

theorem digit_not_break {c : Char} (h : c ∈ digitChars) : isLineBreakChar c = false := by
  fin_cases h <;> decide

theorem padLine_decompose (m : Int) (hm : 0 ≤ m) :
    ∃ k : Nat, (padLine (pint m)).data = List.replicate k ' ' ++ natReprChars m.toNat := by
  have hps : pyStr (pint m) = String.mk (natReprChars m.toNat) := by
    simp [pyStr, intReprStr, not_lt.mpr hm, if_neg (not_lt.mpr hm)]
  unfold padLine
  rw [hps]
  by_cases h2 : (String.mk (natReprChars m.toNat)).length = 2
  · exact ⟨3, by simp [h2]⟩
  · rw [if_neg h2]
    by_cases h1 : (String.mk (natReprChars m.toNat)).length = 1
    · exact ⟨4, by simp [h1]⟩
    · rw [if_neg h1]
      by_cases h3 : (String.mk (natReprChars m.toNat)).length = 3
      · exact ⟨2, by simp [h3]⟩
      · rw [if_neg h3]
        by_cases h4 : (String.mk (natReprChars m.toNat)).length = 4
        · exact ⟨1, by simp [h4]⟩
        · exact ⟨0, by rw [if_neg h4]; rfl⟩

theorem natReprChars_cons (n : Nat) :
    ∃ d0 ds', natReprChars n = d0 :: ds' := by
  cases h : natReprChars n with
  | nil => exact absurd h (natReprChars_ne_nil n)
  | cons d0 ds' => exact ⟨d0, ds', rfl⟩

theorem lineHead_niceChars (n : Nat) (op t : String)
    (hops : op = CET_OP_ASSIGN ∨ op = CET_OP_NOTE ∨ op = CET_OP_WARN) :
    lineHead (niceChars n op t) =
      some (String.mk (natReprChars n), 0,
        op.data ++ ':' :: ' ' :: quoteChar :: (t.data ++ [quoteChar])) := by
  obtain ⟨d0, ds', hds⟩ := natReprChars_cons n
  have hd0 : d0 ∈ digitChars := natReprChars_mem_digits n d0 (by rw [hds]; exact List.mem_cons_self _ _)
  have hdall : ∀ c ∈ natReprChars n, Char.isDigit c = true :=
    fun c hc => digit_isDigit (natReprChars_mem_digits n c hc)
  unfold lineHead niceChars
  have hdrop1 : (natReprChars n ++ '\t' :: '|' ::
      (op.data ++ ':' :: ' ' :: quoteChar :: (t.data ++ [quoteChar]))).dropWhile isPyWs =
      natReprChars n ++ '\t' :: '|' ::
      (op.data ++ ':' :: ' ' :: quoteChar :: (t.data ++ [quoteChar])) := by
    rw [hds]
    simp [List.dropWhile_cons, digit_not_ws hd0]
  rw [hdrop1]
  dsimp only
  obtain ⟨htake, hdrop⟩ := takeWhile_append_exact Char.isDigit (natReprChars n) '\t'
    ('|' :: (op.data ++ ':' :: ' ' :: quoteChar :: (t.data ++ [quoteChar])))
    hdall (by decide)
  rw [htake, hdrop]
  have hne : (natReprChars n).isEmpty = false := by
    rw [hds]
    rfl
  rw [hne]
  simp only [Bool.false_eq_true, if_false]
  have hdrop2 : ('\t' :: '|' ::
      (op.data ++ ':' :: ' ' :: quoteChar :: (t.data ++ [quoteChar]))).dropWhile isPyWs =
      '|' :: (op.data ++ ':' :: ' ' :: quoteChar :: (t.data ++ [quoteChar])) := by
    simp [List.dropWhile_cons, show isPyWs '\t' = true from by decide,
      show isPyWs '|' = false from by decide]
  rw [hdrop2]
  rcases hops with rfl | rfl | rfl <;>
    simp [List.takeWhile_cons, List.dropWhile_cons, CET_OP_ASSIGN, CET_OP_NOTE, CET_OP_WARN]

theorem matchCallLine_niceChars (n : Nat) (op t : String)
    (hops : op = CET_OP_ASSIGN ∨ op = CET_OP_NOTE ∨ op = CET_OP_WARN) :
    matchCallLine (niceChars n op t) = none := by
  unfold matchCallLine
  rw [lineHead_niceChars n op t hops]
  dsimp only
  have hall : (op.data ++ ':' :: ' ' :: quoteChar :: (t.data ++ [quoteChar])).all
      isWordChar = false := by
    cases h : (op.data ++ ':' :: ' ' :: quoteChar :: (t.data ++ [quoteChar])).all
        isWordChar with
    | false => rfl
    | true =>
      have : isWordChar ':' = true :=
        List.all_eq_true.mp h ':' (List.mem_append.mpr (.inr (List.mem_cons_self _ _)))
      exact absurd this (by decide)
  rw [hall]
  simp

theorem matchAssumeLine_niceChars (n : Nat) (op t : String)
    (hops : op = CET_OP_ASSIGN ∨ op = CET_OP_NOTE ∨ op = CET_OP_WARN) :
    matchAssumeLine (niceChars n op t) = none := by
  unfold matchAssumeLine
  rw [lineHead_niceChars n op t hops]
  rcases hops with rfl | rfl | rfl <;> rfl

theorem matchGenericLine_niceChars (n : Nat) (op t : String)
    (hops : op = CET_OP_ASSIGN ∨ op = CET_OP_NOTE ∨ op = CET_OP_WARN)
    (htne : t.data ≠ []) (htnb : ∀ c ∈ t.data, isLineBreakChar c = false) :
    matchGenericLine (niceChars n op t) =
      some (String.mk (natReprChars n), 0, op, t) := by
  unfold matchGenericLine
  rw [lineHead_niceChars n op t hops]
  dsimp only
  have hopw : ∀ c ∈ op.data, isWordChar c = true := by
    rcases hops with rfl | rfl | rfl <;> decide
  obtain ⟨htake, hdrop⟩ := takeWhile_append_exact isWordChar op.data ':'
    (' ' :: quoteChar :: (t.data ++ [quoteChar])) hopw (by decide)
  rw [htake, hdrop]
  have hne : op.data.isEmpty = false := by
    rcases hops with rfl | rfl | rfl <;> rfl
  rw [hne]
  simp only [Bool.false_eq_true, if_false, if_true]
  unfold dotPlusBefore
  rw [List.getLast?_concat]
  dsimp only
  rw [if_pos rfl, List.dropLast_concat]
  have htne2 : t.data.isEmpty = false := by
    cases h : t.data with
    | nil => exact absurd h htne
    | cons a l => rfl
  rw [htne2]
  have hall : t.data.all (fun c2 => c2 != '\n') = true := by
    rw [List.all_eq_true]
    intro c hc
    have hthis := htnb c hc
    have hcne : ¬(c = '\n') := by
      intro he
      rw [he] at hthis
      exact absurd hthis (by decide)
    simp [bne, hcne]
  rw [hall]
  simp [string_mk_data]

theorem stripStr_replicate (k : Nat) (d0 : Char) (rest : List Char) (c1 : Char)
    (h0 : isPyWs d0 = false) (h1 : isPyWs c1 = false) :
    stripStr (String.mk (List.replicate k ' ' ++ d0 :: (rest ++ [c1]))) =
      String.mk (d0 :: (rest ++ [c1])) := by
  unfold stripStr
  have hd : (String.mk (List.replicate k ' ' ++ d0 :: (rest ++ [c1]))).data =
      List.replicate k ' ' ++ d0 :: (rest ++ [c1]) := rfl
  rw [hd]
  rw [dropWhile_sat_front isPyWs (List.replicate k ' ') _
    (fun c hc => by rw [List.eq_of_mem_replicate hc]; decide)]
  rw [show (d0 :: (rest ++ [c1])).dropWhile isPyWs = d0 :: (rest ++ [c1]) from by
    simp [List.dropWhile_cons, h0]]
  rw [show (d0 :: (rest ++ [c1])).reverse = c1 :: (d0 :: rest).reverse from by
    simp]
  rw [show (c1 :: (d0 :: rest).reverse).dropWhile isPyWs =
      c1 :: (d0 :: rest).reverse from by simp [List.dropWhile_cons, h1]]
  simp

theorem niceChars_shape (n : Nat) (op t : String) :
    ∃ d0 rest, niceChars n op t = d0 :: (rest ++ [quoteChar]) ∧ d0 ∈ digitChars := by
  obtain ⟨d0, ds', hds⟩ := natReprChars_cons n
  refine ⟨d0, ds' ++ '\t' :: '|' ::
    (op.data ++ ':' :: ' ' :: quoteChar :: t.data), ?_, ?_⟩
  · unfold niceChars
    rw [hds]
    simp
  · exact natReprChars_mem_digits n d0 (by rw [hds]; exact List.mem_cons_self _ _)

theorem quoteChar_not_ws : isPyWs quoteChar = false := by decide

theorem stripStr_niceLineStr (e : CetElem) (m : Int) (t : String)
    (hline : e.line = pint m) (hm : 0 ≤ m) (hdn : e.display_name = pstr t) :
    stripStr (niceLineStr e) = String.mk (niceChars m.toNat e.op t) := by
  obtain ⟨k, hk⟩ := padLine_decompose m hm
  have hdata : (niceLineStr e).data =
      List.replicate k ' ' ++ niceChars m.toNat e.op t := by
    unfold niceLineStr niceChars
    rw [hline, hdn]
    show (padLine (pint m)).data ++ "\t".data ++ CODE_LINE_SEPARATOR.data ++ e.op.data ++
        ": ".data ++ quoteStr.data ++ (pyStr (pstr t)).data ++ quoteStr.data = _
    rw [hk]
    show _ ++ ['\t'] ++ ['|'] ++ e.op.data ++ [':', ' '] ++ [quoteChar] ++ t.data ++
        [quoteChar] = _
    simp
  obtain ⟨d0, rest, hshape, hd0⟩ := niceChars_shape m.toNat e.op t
  have : niceLineStr e = String.mk (List.replicate k ' ' ++ d0 :: (rest ++ [quoteChar])) := by
    apply congrArg String.mk at hdata
    rw [string_mk_data] at hdata
    rw [hdata, hshape]
  rw [this, stripStr_replicate k d0 rest quoteChar (digit_not_ws hd0) quoteChar_not_ws,
    ← hshape]

theorem niceElemB_unpack (e : CetElem) (h : niceElemB e = true) :
    (e.op = CET_OP_ASSIGN ∨ e.op = CET_OP_NOTE ∨ e.op = CET_OP_WARN) ∧
    e.thread = pint 0 ∧
    (∃ m : Int, e.line = pint m ∧ 0 ≤ m) ∧
    (∃ t : String, e.source = pstr t ∧ e.display_name = pstr t ∧ t.data ≠ [] ∧
      ∀ c ∈ t.data, isLineBreakChar c = false) := by
  unfold niceElemB at h
  simp only [Bool.and_eq_true, Bool.or_eq_true, beq_iff_eq] at h
  obtain ⟨⟨⟨h1, h2⟩, h3⟩, h4⟩ := h
  refine ⟨by tauto, h2, ?_, ?_⟩
  · cases hl : e.line with
    | pint m =>
      rw [hl] at h3
      exact ⟨m, rfl, of_decide_eq_true h3⟩
    | pnone => rw [hl] at h3; cases h3
    | pbool b => rw [hl] at h3; cases h3
    | pstr s2 => rw [hl] at h3; cases h3
  · cases hs : e.source with
    | pstr t =>
      cases hd : e.display_name with
      | pstr u =>
        rw [hs, hd] at h4
        simp only [Bool.and_eq_true, beq_iff_eq] at h4
        obtain ⟨htu, hnice⟩ := h4
        subst htu
        unfold niceTextB at hnice
        simp only [Bool.and_eq_true, bne_iff_ne, ne_eq, List.all_eq_true,
          Bool.not_eq_true'] at hnice
        refine ⟨t, rfl, rfl, ?_, hnice.2⟩
        intro hnil
        exact hnice.1 (congrArg String.mk hnil)
      | pnone => rw [hs, hd] at h4; cases h4
      | pbool b => rw [hs, hd] at h4; cases h4
      | pint m2 => rw [hs, hd] at h4; cases h4
    | pnone => rw [hs] at h4; cases h4
    | pbool b => rw [hs] at h4; cases h4
    | pint m2 => rw [hs] at h4; cases h4

theorem niceElemB2_unpack (e : CetElem) (h : niceElemB2 e = true) :
    (e.op = CET_OP_ASSIGN ∨ e.op = CET_OP_NOTE ∨ e.op = CET_OP_WARN) ∧
    e.thread = pstr "0" ∧
    (∃ m : Int, e.line = pint m ∧ 0 ≤ m) ∧
    (∃ t : String, e.source = pstr t ∧ e.display_name = pstr t ∧ t.data ≠ [] ∧
      ∀ c ∈ t.data, isLineBreakChar c = false) := by
  unfold niceElemB2 at h
  simp only [Bool.and_eq_true, Bool.or_eq_true, beq_iff_eq] at h
  obtain ⟨⟨⟨h1, h2⟩, h3⟩, h4⟩ := h
  refine ⟨by tauto, h2, ?_, ?_⟩
  · cases hl : e.line with
    | pint m =>
      rw [hl] at h3
      exact ⟨m, rfl, of_decide_eq_true h3⟩
    | pnone => rw [hl] at h3; cases h3
    | pbool b => rw [hl] at h3; cases h3
    | pstr s2 => rw [hl] at h3; cases h3
  · cases hs : e.source with
    | pstr t =>
      cases hd : e.display_name with
      | pstr u =>
        rw [hs, hd] at h4
        simp only [Bool.and_eq_true, beq_iff_eq] at h4
        obtain ⟨htu, hnice⟩ := h4
        subst htu
        unfold niceTextB at hnice
        simp only [Bool.and_eq_true, bne_iff_ne, ne_eq, List.all_eq_true,
          Bool.not_eq_true'] at hnice
        refine ⟨t, rfl, rfl, ?_, hnice.2⟩
        intro hnil
        exact hnice.1 (congrArg String.mk hnil)
      | pnone => rw [hs, hd] at h4; cases h4
      | pbool b => rw [hs, hd] at h4; cases h4
      | pint m2 => rw [hs, hd] at h4; cases h4
    | pnone => rw [hs] at h4; cases h4
    | pbool b => rw [hs] at h4; cases h4
    | pint m2 => rw [hs] at h4; cases h4

theorem niceElemB_stringify (e : CetElem) (h : niceElemB e = true) :
    niceElemB2 (stringifyThread e) = true := by
  obtain ⟨h1, h2, h3, h4⟩ := niceElemB_unpack e h
  unfold niceElemB2 stringifyThread
  rw [h2]
  obtain ⟨m, hm1, hm2⟩ := h3
  obtain ⟨t, ht1, ht2, ht3, ht4⟩ := h4
  show ((e.op == CET_OP_ASSIGN || e.op == CET_OP_NOTE || e.op == CET_OP_WARN) &&
    (pstr (pyStr (pint 0)) == pstr "0") && _ && _) = true
  simp only [Bool.and_eq_true]
  refine ⟨⟨⟨?_, ?_⟩, ?_⟩, ?_⟩
  · rcases h1 with hop | hop | hop <;> simp [hop]
  · decide
  · show (match e.line with
      | pint n => decide (0 ≤ n)
      | _ => false) = true
    rw [hm1]
    exact decide_eq_true hm2
  · show (match e.source, e.display_name with
      | pstr t2, pstr u => t2 == u && niceTextB t2
      | _, _ => false) = true
    rw [ht1, ht2]
    simp only [beq_self_eq_true, Bool.true_and]
    unfold niceTextB
    simp only [Bool.and_eq_true, bne_iff_ne, ne_eq, List.all_eq_true, Bool.not_eq_true']
    constructor
    · intro he
      exact ht3 (by rw [he])
    · exact ht4

theorem parseLineStep_nice (e : CetElem) (m : Int) (t : String) (acc : List CetElem)
    (th : Int)
    (hops : e.op = CET_OP_ASSIGN ∨ e.op = CET_OP_NOTE ∨ e.op = CET_OP_WARN)
    (hline : e.line = pint m) (hm : 0 ≤ m) (hdn : e.display_name = pstr t)
    (htne : t.data ≠ []) (htnb : ∀ c ∈ t.data, isLineBreakChar c = false) :
    parseLineStep
      { curThread := th, curLevel := -1, stack := [], notParsed := "", acc := acc }
      (niceLineStr e) =
    .ok { curThread := th, curLevel := -1, stack := [], notParsed := "",
          acc := acc ++ [mkGenericElem th (String.mk (natReprChars m.toNat)) e.op t] } := by
  have hcomb : combinedLine
      { curThread := th, curLevel := -1, stack := [], notParsed := "", acc := acc }
      (niceLineStr e) = String.mk (niceChars m.toNat e.op t) := by
    unfold combinedLine
    rw [if_neg (fun hc => hc rfl)]
    exact stripStr_niceLineStr e m t hline hm hdn
  unfold parseLineStep
  rw [hcomb]
  dsimp only
  rw [matchCallLine_niceChars m.toNat e.op t hops,
    matchAssumeLine_niceChars m.toNat e.op t hops,
    matchGenericLine_niceChars m.toNat e.op t hops htne htnb]

theorem parseLineStep_endMarker (th : Int) (acc : List CetElem) :
    parseLineStep
      { curThread := th, curLevel := -1, stack := [], notParsed := "", acc := acc }
      endMarkerLineStr =
    .ok { curThread := th + 1, curLevel := -1, stack := [], notParsed := "",
          acc := acc } := by
  have hcomb : combinedLine
      { curThread := th, curLevel := -1, stack := [], notParsed := "", acc := acc }
      endMarkerLineStr = "0\t" ++ CODE_LINE_SEPARATOR ++ CET_END := by
    unfold combinedLine
    rw [if_neg (fun hc => hc rfl)]
    decide
  unfold parseLineStep
  rw [hcomb]
  dsimp only
  rw [show matchCallLine ("0\t" ++ CODE_LINE_SEPARATOR ++ CET_END).data =
    some ("0", 0, CET_END) from by decide]
  dsimp only
  rw [if_neg (by decide), if_neg (by decide)]
  rw [show popReturns th "0" [] 0 = .ok ([], []) from rfl]
  dsimp only
  rw [if_pos rfl]
  simp

theorem parseFold_cons (st : ParseState) (l : String) (rest : List String) :
    parseFold st (l :: rest) =
      match parseLineStep st l with
      | Except.error e => Except.error e
      | Except.ok st' => parseFold st' rest := rfl

theorem parseFold_append (l1 l2 : List String) :
    ∀ st, parseFold st (l1 ++ l2) =
      match parseFold st l1 with
      | .error e => .error e
      | .ok st' => parseFold st' l2 := by
  induction l1 with
  | nil => intro st; rfl
  | cons l rest ih =>
    intro st
    rw [show (l :: rest) ++ l2 = l :: (rest ++ l2) from rfl]
    rw [parseFold_cons st l (rest ++ l2), parseFold_cons st l rest]
    cases hs : parseLineStep st l with
    | error e => rfl
    | ok st1 =>
      dsimp only
      exact ih st1

theorem parseFold_nice (s : List CetElem) :
    ∀ (acc : List CetElem) (th : Int), (∀ e ∈ s, niceElemB e = true) →
    parseFold { curThread := th, curLevel := -1, stack := [], notParsed := "", acc := acc }
      (s.map niceLineStr) =
    .ok { curThread := th, curLevel := -1, stack := [], notParsed := "",
          acc := acc ++ s.map (fun e => parsedNice th e) } := by
  induction s with
  | nil =>
    intro acc th _
    simp [parseFold]
  | cons e rest ih =>
    intro acc th hnice
    obtain ⟨hops, hth, ⟨m, hm1, hm2⟩, ⟨t, ht1, ht2, ht3, ht4⟩⟩ :=
      niceElemB_unpack e (hnice e (List.mem_cons_self e rest))
    rw [List.map_cons, parseFold_cons]
    rw [parseLineStep_nice e m t acc th hops hm1 hm2 ht2 ht3 ht4]
    dsimp only
    rw [ih _ th (fun e2 he2 => hnice e2 (List.mem_cons_of_mem e he2))]
    have hpe : mkGenericElem th (String.mk (natReprChars m.toNat)) e.op t =
        parsedNice th e := by
      unfold parsedNice mkGenericElem
      rw [hm1, ht2]
      have : pyStr (pint m) = String.mk (natReprChars m.toNat) := by
        simp [pyStr, intReprStr, not_lt.mpr hm2, if_neg (not_lt.mpr hm2)]
      rw [this]
      rfl
    rw [hpe]
    simp

theorem parseFold_nice_all (s : List CetElem) (h : ∀ e ∈ s, niceElemB e = true) :
    parseFold initialParseState (s.map niceLineStr ++ [endMarkerLineStr]) =
    .ok { curThread := 1, curLevel := -1, stack := [], notParsed := "",
          acc := s.map (fun e => parsedNice 0 e) } := by
  rw [parseFold_append]
  rw [show initialParseState =
    { curThread := 0, curLevel := -1, stack := [], notParsed := "", acc := [] } from rfl]
  rw [parseFold_nice s [] 0 h]
  dsimp only
  rw [parseFold_cons]
  rw [parseLineStep_endMarker 0 ([] ++ s.map (fun e => parsedNice 0 e))]
  simp [parseFold]

theorem string_append_empty (s : String) : s ++ "" = s := by
  apply congrArg String.mk
  show s.data ++ [] = s.data
  simp

theorem printStep_nice (st : PrintState) (e : CetElem)
    (he : niceElemB2 e = true) (hl : st.level = 0) (hs : st.stack = [])
    (hc : st.curThread = none ∨ st.curThread = some "0") :
    printStep st e = some ([niceLine e],
      { level := 0, curThread := some "0", stack := [] }) := by
  obtain ⟨hops, hth, ⟨m, hm1, hm2⟩, ⟨t, ht1, ht2, ht3, ht4⟩⟩ := niceElemB2_unpack e he
  obtain ⟨lvl, ct, stk⟩ := st
  simp only at hl hs
  subst hl
  subst hs
  have hpth : pyStr e.thread = "0" := by rw [hth]; rfl
  have hadj : threadAdjust { level := 0, curThread := ct, stack := [] } "0" =
      ([], { level := 0, curThread := some "0", stack := [] }) := by
    rcases hc with hc | hc <;> simp only at hc <;> subst hc <;>
      simp [threadAdjust]
  have hbody : elemBody 0 "0" [] e =
      some ([niceLine e], 0, []) := by
    unfold elemBody
    dsimp only
    have hsp : (if (0 : Int) > 0 then some (spacesN (0 : Int).toNat)
        else (pyIntOfString "0").map (fun k => spacesN k.toNat)) = some "" := by
      rw [if_neg (by omega)]
      rw [show pyIntOfString "0" = some 0 from by decide]
      rfl
    rcases hops with hop | hop | hop
    · rw [hop, if_neg (by decide), if_neg (by decide), if_pos (by decide), hsp]
      dsimp only
      rw [if_neg (by decide), if_pos rfl]
      unfold niceLine niceLineStr
      rw [ht1, ht2, hop,
        string_append_empty (padLine e.line ++ "	" ++ CODE_LINE_SEPARATOR)]
    · rw [hop, if_neg (by decide), if_neg (by decide), if_pos (by decide), hsp]
      dsimp only
      rw [if_neg (by decide), if_neg (by decide)]
      unfold niceLine niceLineStr
      rw [hop,
        string_append_empty (padLine e.line ++ "	" ++ CODE_LINE_SEPARATOR)]
    · rw [hop, if_neg (by decide), if_neg (by decide), if_pos (by decide), hsp]
      dsimp only
      rw [if_neg (by decide), if_neg (by decide)]
      unfold niceLine niceLineStr
      rw [hop,
        string_append_empty (padLine e.line ++ "	" ++ CODE_LINE_SEPARATOR)]
  unfold printStep
  rw [hpth]
  dsimp only
  rw [hadj]
  dsimp only
  rw [hbody]
  rfl

theorem printFold_nice (s : List CetElem) :
    ∀ st : PrintState, (∀ e ∈ s, niceElemB2 e = true) →
    st.level = 0 → st.stack = [] → (st.curThread = none ∨ st.curThread = some "0") →
    printFold st s = some (s.map niceLine,
      if s.isEmpty then st else { level := 0, curThread := some "0", stack := [] }) := by
  induction s with
  | nil =>
    intro st _ _ _ _
    rfl
  | cons e rest ih =>
    intro st hnice hl hs hc
    show
      (match printStep st e with
       | none => none
       | some (ls, st') =>
         match printFold st' rest with
         | none => none
         | some (ls2, st'') => some (ls ++ ls2, st'')) = _
    rw [printStep_nice st e (hnice e (List.mem_cons_self e rest)) hl hs hc]
    dsimp only
    rw [ih { level := 0, curThread := some "0", stack := [] }
      (fun e2 he2 => hnice e2 (List.mem_cons_of_mem e he2)) rfl rfl (.inr rfl)]
    dsimp only
    cases rest with
    | nil => rfl
    | cons e2 r2 => rfl

theorem printLinesAndState_nice (s : List CetElem)
    (h : ∀ e ∈ s, niceElemB e = true) :
    printLinesAndState s =
      some (s.map niceLine ++ [.marker 0],
        (if s.isEmpty then initialPrintState
         else { level := 0, curThread := some "0", stack := [] }),
        s.map stringifyThread) := by
  have hnice2 : ∀ e2 ∈ s.map stringifyThread, niceElemB2 e2 = true := by
    intro e2 he2
    obtain ⟨e, he, rfl⟩ := List.mem_map.mp he2
    exact niceElemB_stringify e (h e he)
  have hmap : (s.map stringifyThread).map niceLine = s.map niceLine := by
    rw [List.map_map]
    exact List.map_congr_left (fun e _ => rfl)
  unfold printLinesAndState
  dsimp only
  rw [printFold_nice (s.map stringifyThread) initialPrintState hnice2 rfl rfl (.inl rfl)]
  dsimp only
  rw [hmap]
  cases hse : s with
  | nil => rfl
  | cons e r =>
    simp only [List.map_cons, List.isEmpty_cons, Bool.false_eq_true, if_false]
    rfl

theorem splitLinesFuel_congr_nocr :
    ∀ (f1 f2 : Nat) (cs acc : List Char), cs.length < f1 → cs.length < f2 →
    (∀ c ∈ cs, ¬(c = '\r')) →
    splitLinesFuel f1 cs acc = splitLinesFuel f2 cs acc := by
  intro f1
  induction f1 with
  | zero =>
    intro f2 cs acc h1 _ _
    omega
  | succ g ih =>
    intro f2 cs acc h1 h2 hcr
    cases f2 with
    | zero => omega
    | succ g2 =>
      cases cs with
      | nil => rfl
      | cons c rest =>
        have hc : ¬(c = '\r') := hcr c (List.mem_cons_self c rest)
        have hrest : ∀ c2 ∈ rest, ¬(c2 = '\r') :=
          fun c2 hc2 => hcr c2 (List.mem_cons_of_mem c hc2)
        have hlen1 : rest.length < g := by
          simp only [List.length_cons] at h1
          omega
        have hlen2 : rest.length < g2 := by
          simp only [List.length_cons] at h2
          omega
        simp only [splitLinesFuel, if_neg hc]
        by_cases hbr : isLineBreakChar c = true
        · rw [hbr]
          simp only [if_true]
          by_cases he : rest.isEmpty = true
          · simp [he]
          · simp only [he, Bool.false_eq_true, if_false]
            rw [ih g2 rest [] hlen1 hlen2 hrest]
        · simp only [hbr, Bool.false_eq_true, if_false]
          exact ih g2 rest (c :: acc) hlen1 hlen2 hrest

theorem splitLinesFuel_newline :
    ∀ (fuel : Nat) (l rest acc : List Char), l.length + rest.length + 1 < fuel →
    (∀ c ∈ l, isLineBreakChar c = false) →
    (∀ c ∈ rest, ¬(c = '\r')) →
    splitLinesFuel fuel (l ++ '\n' :: rest) acc =
      (acc.reverse ++ l) :: (if rest.isEmpty then [] else splitLinesChars rest) := by
  intro fuel
  induction fuel with
  | zero =>
    intro l rest acc h _ _
    omega
  | succ g ih =>
    intro l rest acc hlen hl hrest
    cases l with
    | nil =>
      simp only [List.nil_append]
      simp only [splitLinesFuel, if_neg (show ¬('\n' = '\r') from by decide),
        show isLineBreakChar '\n' = true from by decide, if_true]
      by_cases he : rest.isEmpty = true
      · rw [he]
        simp
      · simp only [he, Bool.false_eq_true, if_false]
        rw [splitLinesFuel_congr_nocr g (rest.length + 1) rest []
          (by simp at hlen; omega) (Nat.lt_succ_self _) hrest]
        rw [show splitLinesFuel (rest.length + 1) rest [] = splitLinesChars rest from rfl]
        simp
    | cons c l' =>
      have hc : isLineBreakChar c = false := hl c (List.mem_cons_self c l')
      have hccr : ¬(c = '\r') := by
        intro he
        rw [he] at hc
        exact absurd hc (by decide)
      simp only [List.cons_append, splitLinesFuel, if_neg hccr, hc,
        Bool.false_eq_true, if_false]
      rw [show (l'.append ('\n' :: rest)) = l' ++ '\n' :: rest from rfl]
      rw [ih l' rest (c :: acc) (by simp at hlen ⊢; omega)
        (fun c2 hc2 => hl c2 (List.mem_cons_of_mem c hc2)) hrest]
      simp

theorem string_foldl_append_data :
    ∀ (ls : List String) (s : String),
    (ls.foldl (fun r t => r ++ t) s).data = s.data ++ (ls.map String.data).flatten := by
  intro ls
  induction ls with
  | nil =>
    intro s
    simp
  | cons l ls ih =>
    intro s
    rw [List.foldl_cons, ih (s ++ l)]
    simp [String.data_append]

theorem string_join_data (ls : List String) :
    (String.join ls).data = (ls.map String.data).flatten := by
  show (ls.foldl (fun r t => r ++ t) "").data = _
  rw [string_foldl_append_data ls ""]
  rfl

theorem splitLinesChars_joined :
    ∀ (lls : List (List Char)), lls ≠ [] →
    (∀ l ∈ lls, ∀ c ∈ l, isLineBreakChar c = false) →
    splitLinesChars ((lls.map (fun l => l ++ ['\n'])).flatten) = lls := by
  intro lls
  induction lls with
  | nil => intro h _; exact absurd rfl h
  | cons l rest ih =>
    intro _ hnb
    have hl : ∀ c ∈ l, isLineBreakChar c = false :=
      hnb l (List.mem_cons_self l rest)
    have hrest2 : ∀ l2 ∈ rest, ∀ c ∈ l2, isLineBreakChar c = false :=
      fun l2 h2 => hnb l2 (List.mem_cons_of_mem l h2)
    rw [List.map_cons, List.flatten_cons]
    have hshape : (l ++ ['\n']) ++ (rest.map (fun l2 => l2 ++ ['\n'])).flatten =
        l ++ '\n' :: (rest.map (fun l2 => l2 ++ ['\n'])).flatten := by
      simp
    rw [hshape]
    have hnocr : ∀ c ∈ (rest.map (fun l2 => l2 ++ ['\n'])).flatten, ¬(c = '\r') := by
      intro c hc
      obtain ⟨piece, hpiece, hcin⟩ := List.mem_flatten.mp hc
      obtain ⟨l2, hl2, rfl⟩ := List.mem_map.mp hpiece
      rcases List.mem_append.mp hcin with h1 | h1
      · intro he
        have := hrest2 l2 hl2 c h1
        rw [he] at this
        exact absurd this (by decide)
      · rcases List.mem_singleton.mp h1 with rfl
        decide
    unfold splitLinesChars
    rw [splitLinesFuel_newline _ l _ []
      (by simp [List.length_append]) hl hnocr]
    cases rest with
    | nil => simp
    | cons l2 r2 =>
      have hne : ((l2 :: r2).map (fun l3 => l3 ++ ['\n'])).flatten.isEmpty = false := by
        rw [List.map_cons, List.flatten_cons]
        cases hl2 : l2 ++ ['\n'] with
        | nil =>
          exact absurd hl2 (by simp)
        | cons a b => simp [hl2]
      rw [hne]
      simp only [Bool.false_eq_true, if_false, List.nil_append]
      rw [ih (by simp) hrest2]
      simp

theorem pySplitLines_joined (ls : List String) (hne : ls ≠ [])
    (hnb : ∀ l ∈ ls, ∀ c ∈ l.data, isLineBreakChar c = false) :
    pySplitLines (String.join (ls.map (fun l => l ++ "\n"))) = ls := by
  have hdata : (String.join (ls.map (fun l => l ++ "\n"))).data =
      ((ls.map String.data).map (fun l => l ++ ['\n'])).flatten := by
    rw [string_join_data, List.map_map, List.map_map]
    congr 1
  have hie : (String.join (ls.map (fun l => l ++ "\n"))).data.isEmpty = false := by
    rw [hdata]
    cases ls with
    | nil => exact absurd rfl hne
    | cons l r =>
      rw [List.map_cons, List.map_cons, List.flatten_cons]
      cases hl : l.data ++ ['\n'] with
      | nil => exact absurd hl (by simp)
      | cons a b => simp [hl]
  have hnb2 : ∀ l ∈ ls.map String.data, ∀ c ∈ l, isLineBreakChar c = false := by
    intro l hl c hc
    obtain ⟨l0, hl0, rfl⟩ := List.mem_map.mp hl
    exact hnb l0 hl0 c hc
  unfold pySplitLines
  rw [hie]
  simp only [Bool.false_eq_true, if_false]
  rw [hdata, splitLinesChars_joined (ls.map String.data) (by simp [hne]) hnb2,
    List.map_map]
  exact (List.map_congr_left (fun l _ => string_mk_data l)).trans (List.map_id ls)

theorem niceLineStr_no_break (e : CetElem) (m : Int) (t : String)
    (hops : e.op = CET_OP_ASSIGN ∨ e.op = CET_OP_NOTE ∨ e.op = CET_OP_WARN)
    (hline : e.line = pint m) (hm : 0 ≤ m) (hdn : e.display_name = pstr t)
    (htnb : ∀ c ∈ t.data, isLineBreakChar c = false) :
    ∀ c ∈ (niceLineStr e).data, isLineBreakChar c = false := by
  obtain ⟨k, hk⟩ := padLine_decompose m hm
  have hdata : (niceLineStr e).data =
      List.replicate k ' ' ++ niceChars m.toNat e.op t := by
    unfold niceLineStr niceChars
    rw [hline, hdn]
    show (padLine (pint m)).data ++ "\t".data ++ CODE_LINE_SEPARATOR.data ++ e.op.data ++
        ": ".data ++ quoteStr.data ++ (pyStr (pstr t)).data ++ quoteStr.data = _
    rw [hk]
    show _ ++ ['\t'] ++ ['|'] ++ e.op.data ++ [':', ' '] ++ [quoteChar] ++ t.data ++
        [quoteChar] = _
    simp
  rw [hdata]
  intro c hc
  rcases List.mem_append.mp hc with h1 | h1
  · rw [List.eq_of_mem_replicate h1]
    decide
  · unfold niceChars at h1
    rcases List.mem_append.mp h1 with h2 | h2
    · exact digit_not_break (natReprChars_mem_digits m.toNat c h2)
    · rcases List.mem_cons.mp h2 with rfl | h3
      · decide
      rcases List.mem_cons.mp h3 with rfl | h4
      · decide
      rcases List.mem_append.mp h4 with h5 | h5
      · rcases hops with hop | hop | hop <;> rw [hop] at h5 <;> fin_cases h5 <;> decide
      · rcases List.mem_cons.mp h5 with rfl | h6
        · decide
        rcases List.mem_cons.mp h6 with rfl | h7
        · decide
        rcases List.mem_cons.mp h7 with rfl | h8
        · decide
        rcases List.mem_append.mp h8 with h9 | h9
        · exact htnb c h9
        · rcases List.mem_singleton.mp h9 with rfl
          decide

theorem endMarkerLineStr_no_break :
    ∀ c ∈ endMarkerLineStr.data, isLineBreakChar c = false := by decide

theorem renderLines_nice (s : List CetElem) :
    renderLines (s.map niceLine ++ [OutLine.marker 0]) =
    String.join ((s.map niceLineStr ++ [endMarkerLineStr]).map (fun l => l ++ "\n")) := by
  unfold renderLines
  congr 1
  rw [List.map_append, List.map_append, List.map_map, List.map_map]
  congr 1

/-- Counterexample to C1 as stated: a normalized false-assume element
(`op = "assume"`, `source = "x"`, `display_name = False`) round-trips to
`source = "(x)"` (the parser keeps the negated condition's parentheses),
so the parser is not an exact left inverse of the printer on all
printer-produced text. -/
theorem c1_counterexample :
    printParseProj [c1FalseAssume] =
      some [{ op := "assume", thread := pint 0, display_name := pbool false,
              source := pstr "(x)" }] ∧
    printParseProj [c1FalseAssume] ≠ some ([c1FalseAssume].map projElem) := by
  decide


/-! ## C1 (revised): number parsing, character classes -/

theorem foldl_digits_acc (cs : List Char) : ∀ a : Nat,
    cs.foldl (fun x c => x * 10 + (c.toNat - 48)) a =
      a * 10 ^ cs.length + digitsToNat cs := by
  induction cs with
  | nil =>
    intro a
    simp [digitsToNat]
  | cons c cs ih =>
    intro a
    rw [List.foldl_cons, ih (a * 10 + (c.toNat - 48))]
    show _ = a * 10 ^ (cs.length + 1) + digitsToNat (c :: cs)
    have h2 : digitsToNat (c :: cs) = (c.toNat - 48) * 10 ^ cs.length + digitsToNat cs := by
      show List.foldl _ (0 * 10 + (c.toNat - 48)) cs = _
      rw [ih (0 * 10 + (c.toNat - 48))]
      ring_nf
    rw [h2]
    ring

theorem digitsToNat_natReprAux : ∀ (fuel n : Nat), n < fuel →
    digitsToNat (natReprAux fuel n) = n := by
  intro fuel
  induction fuel with
  | zero =>
    intro n h
    omega
  | succ g ih =>
    intro n h
    unfold natReprAux
    by_cases h10 : n < 10
    · rw [if_pos h10]
      have hc : (Char.ofNat (48 + n)).toNat = 48 + n := by
        interval_cases n <;> decide
      show digitsToNat [Char.ofNat (48 + n)] = n
      unfold digitsToNat
      rw [List.foldl_cons, List.foldl_nil, hc]
      omega
    · rw [if_neg h10]
      have hdivlt : n / 10 < g := by
        have h1 : n / 10 < n := Nat.div_lt_self (by omega) (by omega)
        omega
      have hm : n % 10 < 10 := Nat.mod_lt n (by omega)
      have hchar : (Char.ofNat (48 + n % 10)).toNat = 48 + n % 10 := by
        generalize hq : n % 10 = m
        rw [hq] at hm
        interval_cases m <;> decide
      have hsplit : digitsToNat (natReprAux g (n / 10) ++ [Char.ofNat (48 + n % 10)]) =
          digitsToNat (natReprAux g (n / 10)) * 10 +
            ((Char.ofNat (48 + n % 10)).toNat - 48) := by
        unfold digitsToNat
        rw [List.foldl_append]
        rfl
      show digitsToNat (natReprAux g (n / 10) ++ [Char.ofNat (48 + n % 10)]) = n
      rw [hsplit, ih (n / 10) hdivlt, hchar]
      omega

theorem digitsToNat_natReprChars (n : Nat) : digitsToNat (natReprChars n) = n :=
  digitsToNat_natReprAux (n + 1) n (Nat.lt_succ_self n)

theorem dropWhile_not_sat {α : Type} (p : α → Bool) (l : List α)
    (h : ∀ c ∈ l, p c = false) : l.dropWhile p = l := by
  cases l with
  | nil => rfl
  | cons a l2 =>
    rw [List.dropWhile_cons, h a (List.mem_cons_self a l2)]
    simp

theorem pyIntOfString_natRepr (n : Nat) :
    pyIntOfString (String.mk (natReprChars n)) = some (n : Int) := by
  have hdig : ∀ c ∈ natReprChars n, c ∈ digitChars :=
    natReprChars_mem_digits n
  have hnws : ∀ c ∈ natReprChars n, isPyWs c = false :=
    fun c hc => digit_not_ws (hdig c hc)
  unfold pyIntOfString
  dsimp only
  rw [dropWhile_not_sat isPyWs (natReprChars n) hnws,
    dropWhile_not_sat isPyWs (natReprChars n).reverse
      (fun c hc => hnws c (List.mem_reverse.mp hc)),
    List.reverse_reverse]
  obtain ⟨d0, ds', hds⟩ := natReprChars_cons n
  have hd0 : d0 ∈ digitChars := hdig d0 (hds ▸ List.mem_cons_self _ _)
  rw [hds]
  split
  · rename_i ds heq
    have : d0 = '-' := (List.cons.injEq _ _ _ _ ▸ heq).1
    rw [this] at hd0
    exact absurd hd0 (by decide)
  · rename_i ds heq
    have : d0 = '+' := (List.cons.injEq _ _ _ _ ▸ heq).1
    rw [this] at hd0
    exact absurd hd0 (by decide)
  · have hne : (d0 :: ds').isEmpty = false := rfl
    have hall : (d0 :: ds').all Char.isDigit = true := by
      rw [← hds]
      exact List.all_eq_true.mpr (fun c hc => digit_isDigit (hdig c hc))
    rw [hne, hall]
    show some ((digitsToNat (d0 :: ds') : Nat) : Int) = some (n : Int)
    rw [← hds, digitsToNat_natReprChars n]

theorem pyIntOfString_intRepr (t : Int) (ht : 0 ≤ t) :
    pyIntOfString (intReprStr t) = some t := by
  unfold intReprStr
  rw [if_neg (by omega), pyIntOfString_natRepr t.toNat]
  rw [Int.toNat_of_nonneg ht]

theorem intReprStr_injOnNonneg (a b : Int) (ha : 0 ≤ a) (hb : 0 ≤ b)
    (h : intReprStr a = intReprStr b) : a = b := by
  have h1 := pyIntOfString_intRepr a ha
  have h2 := pyIntOfString_intRepr b hb
  rw [h] at h1
  rw [h1] at h2
  exact (Option.some.injEq _ _ ▸ h2)

theorem wordChar_not_ws {c : Char} (h : isWordChar c = true) : isPyWs c = false := by
  cases hws : isPyWs c with
  | false => rfl
  | true =>
    simp only [isPyWs, Bool.or_eq_true, decide_eq_true_eq] at hws
    rcases hws with ((((rfl | rfl) | rfl) | rfl) | rfl) | rfl <;>
      exact absurd h (by decide)

theorem wordChar_not_break {c : Char} (h : isWordChar c = true) :
    isLineBreakChar c = false := by
  cases hbr : isLineBreakChar c with
  | false => rfl
  | true =>
    simp only [isLineBreakChar, Bool.or_eq_true, decide_eq_true_eq] at hbr
    rcases hbr with ((((((((rfl | rfl) | rfl) | rfl) | rfl) | rfl) | rfl) | rfl) | rfl) | rfl <;>
      exact absurd h (by decide)

theorem wordChar_not_space {c : Char} (h : isWordChar c = true) : ¬(c = ' ') := by
  intro he
  rw [he] at h
  exact absurd h (by decide)

/-! ## C1 (revised): line matching with indentation -/

theorem list_cons_of_ne_nil {α : Type} (l : List α) (h : l ≠ []) :
    ∃ c0 cs, l = c0 :: cs := by
  cases hl : l with
  | nil => exact absurd hl h
  | cons a r => exact ⟨a, r, rfl⟩

theorem lineHead_indent (n k : Nat) (c0 : Char) (cs : List Char)
    (hc0 : ¬(c0 = ' ')) :
    lineHead (natReprChars n ++ '\t' :: '|' :: (List.replicate k ' ' ++ c0 :: cs)) =
      some (String.mk (natReprChars n), k, c0 :: cs) := by
  obtain ⟨d0, ds', hds⟩ := natReprChars_cons n
  have hd0 : d0 ∈ digitChars :=
    natReprChars_mem_digits n d0 (hds ▸ List.mem_cons_self _ _)
  have hdall : ∀ c ∈ natReprChars n, Char.isDigit c = true :=
    fun c hc => digit_isDigit (natReprChars_mem_digits n c hc)
  unfold lineHead
  have hdrop1 : (natReprChars n ++ '\t' :: '|' ::
      (List.replicate k ' ' ++ c0 :: cs)).dropWhile isPyWs =
      natReprChars n ++ '\t' :: '|' :: (List.replicate k ' ' ++ c0 :: cs) := by
    rw [hds]
    simp [List.dropWhile_cons, digit_not_ws hd0]
  rw [hdrop1]
  dsimp only
  obtain ⟨htake, hdrop⟩ := takeWhile_append_exact Char.isDigit (natReprChars n) '\t'
    ('|' :: (List.replicate k ' ' ++ c0 :: cs)) hdall (by decide)
  rw [htake, hdrop]
  have hne : (natReprChars n).isEmpty = false := by
    rw [hds]
    rfl
  rw [hne]
  simp only [Bool.false_eq_true, if_false]
  have hdrop2 : ('\t' :: '|' ::
      (List.replicate k ' ' ++ c0 :: cs)).dropWhile isPyWs =
      '|' :: (List.replicate k ' ' ++ c0 :: cs) := by
    simp [List.dropWhile_cons, show isPyWs '\t' = true from by decide,
      show isPyWs '|' = false from by decide]
  rw [hdrop2]
  split
  · rename_i cs4 heq
    injection heq with h1 h2
    subst h2
    rw [show (List.replicate k ' ' ++ c0 :: cs).takeWhile (· = ' ') =
        List.replicate k ' ' from
      (takeWhile_append_exact _ (List.replicate k ' ') c0 cs
        (fun c hc => by rw [List.eq_of_mem_replicate hc]; decide)
        (by simp [hc0])).1]
    rw [show (List.replicate k ' ' ++ c0 :: cs).dropWhile (· = ' ') = c0 :: cs from
      (takeWhile_append_exact _ (List.replicate k ' ') c0 cs
        (fun c hc => by rw [List.eq_of_mem_replicate hc]; decide)
        (by simp [hc0])).2]
    simp
  · rename_i hnm
    exact (hnm (List.replicate k ' ' ++ c0 :: cs) rfl).elim

theorem matchCallLine_word (n k : Nat) (f : String)
    (hfne : f.data ≠ []) (hfw : ∀ c ∈ f.data, isWordChar c = true) :
    matchCallLine (natReprChars n ++ '\t' :: '|' ::
      (List.replicate k ' ' ++ f.data)) =
      some (String.mk (natReprChars n), k, f) := by
  obtain ⟨c0, cs, hcs⟩ := list_cons_of_ne_nil f.data hfne
  unfold matchCallLine
  rw [hcs, lineHead_indent n k c0 cs
    (wordChar_not_space (hfw c0 (hcs ▸ List.mem_cons_self _ _)))]
  dsimp only
  have hne : (c0 :: cs).isEmpty = false := rfl
  have hall : (c0 :: cs).all isWordChar = true := by
    rw [← hcs]
    exact List.all_eq_true.mpr hfw
  rw [hne, hall]
  simp only [Bool.not_false, Bool.and_self, if_true]
  rw [← hcs, string_mk_data]

theorem matchCallLine_notword (n k : Nat) (c0 : Char) (cs : List Char)
    (hc0 : ¬(c0 = ' '))
    (hbad : (c0 :: cs).all isWordChar = false) :
    matchCallLine (natReprChars n ++ '\t' :: '|' ::
      (List.replicate k ' ' ++ c0 :: cs)) = none := by
  unfold matchCallLine
  rw [lineHead_indent n k c0 cs hc0]
  dsimp only
  rw [hbad]
  simp

theorem dotPlusBefore_concat (term : Char) (mid : List Char)
    (hne : mid ≠ []) (hnn : ∀ c ∈ mid, ¬(c = '\n')) :
    dotPlusBefore term (mid ++ [term]) = some mid := by
  unfold dotPlusBefore
  rw [List.getLast?_concat]
  dsimp only
  rw [if_pos rfl, List.dropLast_concat]
  have h1 : mid.isEmpty = false := by
    cases hm : mid with
    | nil => exact absurd hm hne
    | cons a l => rfl
  have h2 : mid.all (fun c2 => c2 != '\n') = true :=
    List.all_eq_true.mpr (fun c hc => by simpa using hnn c hc)
  rw [h1, h2]
  rfl

theorem matchAssumeLine_true (n k : Nat) (s : String)
    (hne : s.data ≠ []) (hnn : ∀ c ∈ s.data, ¬(c = '\n'))
    (hhd : ∀ c cs2, s.data = c :: cs2 → ¬(c = '!')) :
    matchAssumeLine (natReprChars n ++ '\t' :: '|' :: (List.replicate k ' ' ++
      ('a' :: 's' :: 's' :: 'u' :: 'm' :: 'e' :: '(' :: (s.data ++ [')'])))) =
      some (String.mk (natReprChars n), k, false, s) := by
  obtain ⟨c0, cs, hcs⟩ := list_cons_of_ne_nil s.data hne
  unfold matchAssumeLine
  rw [hcs]
  rw [show ((c0 :: cs) ++ [')'] : List Char) = c0 :: (cs ++ [')']) from rfl]
  rw [lineHead_indent n k 'a' _ (by decide)]
  dsimp only
  split
  · rename_i tail heq
    have htail : tail = c0 :: (cs ++ [')']) := by
      injection heq with h1 h2
      injection h2 with h1 h2
      injection h2 with h1 h2
      injection h2 with h1 h2
      injection h2 with h1 h2
      injection h2 with h1 h2
      injection h2 with h1 h2
      exact h2.symm
    subst htail
    split
    · rename_i t2 heq2
      injection heq2 with h1 h2
      exact absurd h1 (hhd c0 cs hcs)
    · rw [show (c0 :: (cs ++ [')']) : List Char) = (c0 :: cs) ++ [')'] from rfl]
      rw [dotPlusBefore_concat ')' (c0 :: cs) (by simp)
        (fun c hc => hnn c (hcs ▸ hc))]
      rw [← hcs, string_mk_data]
  · rename_i hnm
    exact (hnm (c0 :: (cs ++ [')'])) rfl).elim

theorem matchAssumeLine_generic_none (n k : Nat) (op txt : String)
    (hops : op = CET_OP_ASSIGN ∨ op = CET_OP_NOTE ∨ op = CET_OP_WARN) :
    matchAssumeLine (natReprChars n ++ '\t' :: '|' :: (List.replicate k ' ' ++
      (op.data ++ ':' :: ' ' :: quoteChar :: (txt.data ++ [quoteChar])))) = none := by
  rcases hops with rfl | rfl | rfl
  · unfold matchAssumeLine
    rw [show (CET_OP_ASSIGN.data ++ ':' :: ' ' :: quoteChar ::
        (txt.data ++ [quoteChar]) : List Char) =
      'a' :: 's' :: 's' :: 'i' :: 'g' :: 'n' :: ':' :: ' ' :: quoteChar ::
        (txt.data ++ [quoteChar]) from rfl]
    rw [lineHead_indent n k 'a' _ (by decide)]
    dsimp only
    split
    · rename_i tail heq
      injection heq with h1 h2
      injection h2 with h1 h2
      injection h2 with h1 h2
      injection h2 with h1 h2
      exact absurd h1 (by decide)
    · rfl
  · unfold matchAssumeLine
    rw [show (CET_OP_NOTE.data ++ ':' :: ' ' :: quoteChar ::
        (txt.data ++ [quoteChar]) : List Char) =
      'n' :: 'o' :: 't' :: 'e' :: ':' :: ' ' :: quoteChar ::
        (txt.data ++ [quoteChar]) from rfl]
    rw [lineHead_indent n k 'n' _ (by decide)]
    dsimp only
    split
    · rename_i tail heq
      injection heq with h1 h2
      exact absurd h1 (by decide)
    · rfl
  · unfold matchAssumeLine
    rw [show (CET_OP_WARN.data ++ ':' :: ' ' :: quoteChar ::
        (txt.data ++ [quoteChar]) : List Char) =
      'w' :: 'a' :: 'r' :: 'n' :: ':' :: ' ' :: quoteChar ::
        (txt.data ++ [quoteChar]) from rfl]
    rw [lineHead_indent n k 'w' _ (by decide)]
    dsimp only
    split
    · rename_i tail heq
      injection heq with h1 h2
      exact absurd h1 (by decide)
    · rfl

theorem matchGenericLine_word (n k : Nat) (op txt : String)
    (hopne : op.data ≠ []) (hopw : ∀ c ∈ op.data, isWordChar c = true)
    (htne : txt.data ≠ []) (htnn : ∀ c ∈ txt.data, ¬(c = '\n')) :
    matchGenericLine (natReprChars n ++ '\t' :: '|' :: (List.replicate k ' ' ++
      (op.data ++ ':' :: ' ' :: quoteChar :: (txt.data ++ [quoteChar])))) =
      some (String.mk (natReprChars n), k, op, txt) := by
  obtain ⟨c0, cs, hcs⟩ := list_cons_of_ne_nil op.data hopne
  unfold matchGenericLine
  rw [hcs]
  rw [show ((c0 :: cs) ++ ':' :: ' ' :: quoteChar :: (txt.data ++ [quoteChar]) :
      List Char) =
    c0 :: (cs ++ ':' :: ' ' :: quoteChar :: (txt.data ++ [quoteChar])) from rfl]
  rw [lineHead_indent n k c0 _
    (wordChar_not_space (hopw c0 (hcs ▸ List.mem_cons_self _ _)))]
  dsimp only
  rw [show (c0 :: (cs ++ ':' :: ' ' :: quoteChar :: (txt.data ++ [quoteChar])) :
      List Char) =
    (c0 :: cs) ++ ':' :: ' ' :: quoteChar :: (txt.data ++ [quoteChar]) from rfl]
  have hallw : ∀ c ∈ c0 :: cs, isWordChar c = true := by
    rw [← hcs]
    exact hopw
  rw [(takeWhile_append_exact isWordChar (c0 :: cs) ':'
    (' ' :: quoteChar :: (txt.data ++ [quoteChar])) hallw (by decide)).1]
  rw [(takeWhile_append_exact isWordChar (c0 :: cs) ':'
    (' ' :: quoteChar :: (txt.data ++ [quoteChar])) hallw (by decide)).2]
  have hne : (c0 :: cs).isEmpty = false := rfl
  rw [hne]
  simp only [Bool.false_eq_true, if_false]
  split
  · rw [dotPlusBefore_concat quoteChar txt.data htne htnn]
    dsimp only
    rw [← hcs, string_mk_data, string_mk_data]
  · rename_i hq
    exact absurd trivial hq

/-! ## C1 (revised): stripped printed lines -/

theorem string_eq_of_data (s1 s2 : String) (h : s1.data = s2.data) : s1 = s2 := by
  cases s1
  cases s2
  exact congrArg String.mk h

theorem stripStr_numLine (m : Int) (hm : 0 ≤ m) (rest : List Char) (c1 : Char)
    (hc1 : isPyWs c1 = false) :
    stripStr (String.mk ((padLine (pint m)).data ++ '\t' :: '|' :: (rest ++ [c1]))) =
      String.mk (natReprChars m.toNat ++ '\t' :: '|' :: (rest ++ [c1])) := by
  obtain ⟨k, hk⟩ := padLine_decompose m hm
  obtain ⟨d0, ds', hds⟩ := natReprChars_cons m.toNat
  have hd0 : d0 ∈ digitChars :=
    natReprChars_mem_digits _ d0 (hds ▸ List.mem_cons_self _ _)
  have hshape : (padLine (pint m)).data ++ '\t' :: '|' :: (rest ++ [c1]) =
      List.replicate k ' ' ++ d0 :: ((ds' ++ '\t' :: '|' :: rest) ++ [c1]) := by
    rw [hk, hds]
    simp
  rw [hshape, stripStr_replicate k d0 (ds' ++ '\t' :: '|' :: rest) c1
    (digit_not_ws hd0) hc1]
  apply congrArg String.mk
  rw [hds]
  simp

theorem callLineStr_data (lv : PyVal) (lvl : Nat) (f : String) :
    (callLineStr lv lvl f).data =
      (padLine lv).data ++ '\t' :: '|' :: (List.replicate lvl ' ' ++ f.data) := by
  show (padLine lv).data ++ "\t".data ++ CODE_LINE_SEPARATOR.data ++
      (spacesN lvl).data ++ f.data = _
  show (padLine lv).data ++ ['\t'] ++ ['|'] ++ List.replicate lvl ' ' ++ f.data = _
  simp

theorem assumeLineStr_data (lv : PyVal) (k : Nat) (s : String) :
    (assumeLineStr lv k s).data =
      (padLine lv).data ++ '\t' :: '|' :: (List.replicate k ' ' ++
        ('a' :: 's' :: 's' :: 'u' :: 'm' :: 'e' :: '(' :: (s.data ++ [')']))) := by
  show (padLine lv).data ++ "\t".data ++ CODE_LINE_SEPARATOR.data ++
      (spacesN k).data ++ CET_OP_ASSUME.data ++ "(".data ++ s.data ++ ")".data = _
  show (padLine lv).data ++ ['\t'] ++ ['|'] ++ List.replicate k ' ' ++
      ['a', 's', 's', 'u', 'm', 'e'] ++ ['('] ++ s.data ++ [')'] = _
  simp

theorem genericLineStr_data (lv : PyVal) (k : Nat) (op txt : String) :
    (genericLineStr lv k op txt).data =
      (padLine lv).data ++ '\t' :: '|' :: (List.replicate k ' ' ++
        (op.data ++ ':' :: ' ' :: quoteChar :: (txt.data ++ [quoteChar]))) := by
  show (padLine lv).data ++ "\t".data ++ CODE_LINE_SEPARATOR.data ++
      (spacesN k).data ++ op.data ++ ": ".data ++ quoteStr.data ++ txt.data ++
      quoteStr.data = _
  show (padLine lv).data ++ ['\t'] ++ ['|'] ++ List.replicate k ' ' ++
      op.data ++ [':', ' '] ++ [quoteChar] ++ txt.data ++ [quoteChar] = _
  simp

theorem strip_callLine (m : Int) (hm : 0 ≤ m) (lvl : Nat) (f : String)
    (hfne : f.data ≠ []) (hfw : ∀ c ∈ f.data, isWordChar c = true) :
    (stripStr (callLineStr (pint m) lvl f)).data =
      natReprChars m.toNat ++ '\t' :: '|' :: (List.replicate lvl ' ' ++ f.data) := by
  rcases List.eq_nil_or_concat f.data with hnil | ⟨mid, clast, hconcat⟩
  · exact absurd hnil hfne
  · have hlast : isPyWs clast = false :=
      wordChar_not_ws (hfw clast (by
        rw [hconcat, List.concat_eq_append]
        exact List.mem_concat_self mid clast))
    have h1 : callLineStr (pint m) lvl f =
        String.mk ((padLine (pint m)).data ++ '\t' :: '|' ::
          ((List.replicate lvl ' ' ++ mid) ++ [clast])) := by
      apply string_eq_of_data
      rw [callLineStr_data, hconcat]
      simp [List.concat_eq_append]
    rw [h1, stripStr_numLine m hm (List.replicate lvl ' ' ++ mid) clast hlast]
    show natReprChars m.toNat ++ '\t' :: '|' ::
      ((List.replicate lvl ' ' ++ mid) ++ [clast]) = _
    rw [hconcat]
    simp [List.concat_eq_append]

theorem strip_assumeLine (m : Int) (hm : 0 ≤ m) (k : Nat) (s : String) :
    (stripStr (assumeLineStr (pint m) k s)).data =
      natReprChars m.toNat ++ '\t' :: '|' :: (List.replicate k ' ' ++
        ('a' :: 's' :: 's' :: 'u' :: 'm' :: 'e' :: '(' :: (s.data ++ [')']))) := by
  have h1 : assumeLineStr (pint m) k s =
      String.mk ((padLine (pint m)).data ++ '\t' :: '|' ::
        ((List.replicate k ' ' ++
          ('a' :: 's' :: 's' :: 'u' :: 'm' :: 'e' :: '(' :: s.data)) ++ [')'])) := by
    apply string_eq_of_data
    rw [assumeLineStr_data]
    simp
  rw [h1, stripStr_numLine m hm _ ')' (by decide)]
  show natReprChars m.toNat ++ '\t' :: '|' ::
    ((List.replicate k ' ' ++
      ('a' :: 's' :: 's' :: 'u' :: 'm' :: 'e' :: '(' :: s.data)) ++ [')']) = _
  simp

theorem strip_genericLine (m : Int) (hm : 0 ≤ m) (k : Nat) (op txt : String) :
    (stripStr (genericLineStr (pint m) k op txt)).data =
      natReprChars m.toNat ++ '\t' :: '|' :: (List.replicate k ' ' ++
        (op.data ++ ':' :: ' ' :: quoteChar :: (txt.data ++ [quoteChar]))) := by
  have h1 : genericLineStr (pint m) k op txt =
      String.mk ((padLine (pint m)).data ++ '\t' :: '|' ::
        ((List.replicate k ' ' ++
          (op.data ++ ':' :: ' ' :: quoteChar :: txt.data)) ++ [quoteChar])) := by
    apply string_eq_of_data
    rw [genericLineStr_data]
    simp
  rw [h1, stripStr_numLine m hm _ quoteChar quoteChar_not_ws]
  show natReprChars m.toNat ++ '\t' :: '|' ::
    ((List.replicate k ' ' ++
      (op.data ++ ':' :: ' ' :: quoteChar :: txt.data)) ++ [quoteChar]) = _
  simp

theorem combinedLine_mid (t : Int) (qstk : List String) (A : List CetElem)
    (raw : String) :
    combinedLine (midParseState t qstk A) raw = stripStr raw := by
  unfold combinedLine midParseState
  dsimp only
  rw [if_neg (by simp)]

/-! ## C1 (revised): parser steps on printed lines -/

theorem parseLineStep_assume_mid (t : Int) (qstk : List String) (A : List CetElem)
    (m : Int) (hm : 0 ≤ m) (k : Nat) (s : String)
    (hne : s.data ≠ []) (hnb : ∀ c ∈ s.data, isLineBreakChar c = false)
    (hhd : ∀ c cs2, s.data = c :: cs2 → ¬(c = '!')) :
    parseLineStep (midParseState t qstk A) (assumeLineStr (pint m) k s) =
      .ok (midParseState t qstk
        (A ++ [mkAssumeElem t (String.mk (natReprChars m.toNat)) false s])) := by
  have hnn : ∀ c ∈ s.data, ¬(c = '\n') := by
    intro c hc he
    have := hnb c hc
    rw [he] at this
    exact absurd this (by decide)
  unfold parseLineStep
  rw [combinedLine_mid]
  dsimp only
  rw [strip_assumeLine m hm k s]
  rw [show ('a' :: 's' :: 's' :: 'u' :: 'm' :: 'e' :: '(' :: (s.data ++ [')']) :
      List Char) = 'a' :: (('s' :: 's' :: 'u' :: 'm' :: 'e' :: '(' :: s.data) ++ [')'])
    from by simp]
  rw [matchCallLine_notword m.toNat k 'a'
    ((('s' :: 's' :: 'u' :: 'm' :: 'e' :: '(' :: s.data) ++ [')'])) (by decide)
    (by
      cases hall : (('a' :: (('s' :: 's' :: 'u' :: 'm' :: 'e' :: '(' :: s.data) ++
          [')'])) : List Char).all isWordChar with
      | false => rfl
      | true =>
        have : isWordChar '(' = true := by
          have hmem : '(' ∈ ('a' :: (('s' :: 's' :: 'u' :: 'm' :: 'e' :: '(' ::
              s.data) ++ [')']) : List Char) := by simp
          exact List.all_eq_true.mp hall '(' hmem
        exact absurd this (by decide))]
  dsimp only
  rw [show ('a' :: (('s' :: 's' :: 'u' :: 'm' :: 'e' :: '(' :: s.data) ++ [')']) :
      List Char) = 'a' :: 's' :: 's' :: 'u' :: 'm' :: 'e' :: '(' :: (s.data ++ [')'])
    from by simp]
  rw [matchAssumeLine_true m.toNat k s hne hnn hhd]
  dsimp only
  rfl

theorem parseLineStep_generic_mid (t : Int) (qstk : List String) (A : List CetElem)
    (m : Int) (hm : 0 ≤ m) (k : Nat) (op txt : String)
    (hops : op = CET_OP_ASSIGN ∨ op = CET_OP_NOTE ∨ op = CET_OP_WARN)
    (htne : txt.data ≠ []) (htnb : ∀ c ∈ txt.data, isLineBreakChar c = false) :
    parseLineStep (midParseState t qstk A) (genericLineStr (pint m) k op txt) =
      .ok (midParseState t qstk
        (A ++ [mkGenericElem t (String.mk (natReprChars m.toNat)) op txt])) := by
  have htnn : ∀ c ∈ txt.data, ¬(c = '\n') := by
    intro c hc he
    have := htnb c hc
    rw [he] at this
    exact absurd this (by decide)
  have hopne : op.data ≠ [] := by
    rcases hops with rfl | rfl | rfl <;> simp [CET_OP_ASSIGN, CET_OP_NOTE, CET_OP_WARN]
  have hopw : ∀ c ∈ op.data, isWordChar c = true := by
    rcases hops with rfl | rfl | rfl <;> decide
  obtain ⟨c0, cs, hcs⟩ := list_cons_of_ne_nil op.data hopne
  unfold parseLineStep
  rw [combinedLine_mid]
  dsimp only
  rw [strip_genericLine m hm k op txt]
  rw [show (op.data ++ ':' :: ' ' :: quoteChar :: (txt.data ++ [quoteChar]) :
      List Char) = c0 :: (cs ++ ':' :: ' ' :: quoteChar :: (txt.data ++ [quoteChar]))
    from by rw [hcs]; simp]
  rw [matchCallLine_notword m.toNat k c0
    (cs ++ ':' :: ' ' :: quoteChar :: (txt.data ++ [quoteChar]))
    (wordChar_not_space (hopw c0 (hcs ▸ List.mem_cons_self _ _)))
    (by
      cases hall : ((c0 :: (cs ++ ':' :: ' ' :: quoteChar ::
          (txt.data ++ [quoteChar]))) : List Char).all isWordChar with
      | false => rfl
      | true =>
        have : isWordChar ':' = true := by
          have hmem : ':' ∈ (c0 :: (cs ++ ':' :: ' ' :: quoteChar ::
              (txt.data ++ [quoteChar])) : List Char) := by simp
          exact List.all_eq_true.mp hall ':' hmem
        exact absurd this (by decide))]
  dsimp only
  rw [show (c0 :: (cs ++ ':' :: ' ' :: quoteChar :: (txt.data ++ [quoteChar])) :
      List Char) = op.data ++ ':' :: ' ' :: quoteChar :: (txt.data ++ [quoteChar])
    from by rw [hcs]; simp]
  rw [matchAssumeLine_generic_none m.toNat k op txt hops]
  dsimp only
  rw [matchGenericLine_word m.toNat k op txt hopne hopw htne htnn]
  dsimp only
  rfl

theorem parseLineStep_marker_mid (t : Int) (qstk : List String) (A : List CetElem) :
    parseLineStep (midParseState t qstk A) endMarkerLineStr =
      .ok { curThread := t + 1, curLevel := -1, stack := [], notParsed := "",
            acc := A ++ qstk.map (mkReturnElem t "0") } := by
  have hcomb : combinedLine (midParseState t qstk A) endMarkerLineStr =
      "0\t" ++ CODE_LINE_SEPARATOR ++ CET_END := by
    rw [combinedLine_mid]
    decide
  unfold parseLineStep
  rw [hcomb]
  dsimp only
  rw [show matchCallLine ("0\t" ++ CODE_LINE_SEPARATOR ++ CET_END).data =
    some ("0", 0, CET_END) from by decide]
  dsimp only
  cases qstk with
  | nil =>
    rw [show (midParseState t [] A).curLevel = -1 from rfl]
    rw [if_neg (by decide), if_neg (by decide)]
    rw [show (midParseState t [] A).stack = [] from rfl]
    rw [show popReturns (midParseState t [] A).curThread "0" [] 0 =
      .ok ([], []) from rfl]
    dsimp only
    rw [if_pos rfl]
    rw [show (midParseState t [] A).curThread = t from rfl,
      show (midParseState t [] A).acc = A from rfl]
    simp
  | cons q qs =>
    rw [show (midParseState t (q :: qs) A).curLevel =
      ((qs.length + 1 : Nat) : Int) - 1 from rfl]
    rw [show (midParseState t (q :: qs) A).stack = q :: qs from rfl]
    rw [show (midParseState t (q :: qs) A).curThread = t from rfl]
    rw [show (midParseState t (q :: qs) A).acc = A from rfl]
    have hcnt : (if ((0 : Nat) : Int) = ((qs.length + 1 : Nat) : Int) - 1 then (1 : Nat)
        else if ((0 : Nat) : Int) < ((qs.length + 1 : Nat) : Int) - 1 then
          (((qs.length + 1 : Nat) : Int) - 1 - ((0 : Nat) : Int) + 1).toNat
        else 0) = qs.length + 1 := by
      split_ifs with h1 h2 <;> omega
    rw [hcnt]
    rw [popReturns_ok t "0" (qs.length + 1) (q :: qs) (by simp)]
    dsimp only
    rw [if_pos rfl]
    rw [show (q :: qs).take (qs.length + 1) = q :: qs from by
      rw [show qs.length + 1 = (q :: qs).length from rfl, List.take_length]]
    rw [show (q :: qs).drop (qs.length + 1) = [] from by
      rw [show qs.length + 1 = (q :: qs).length from rfl, List.drop_length]]

theorem parseLineStep_call_mid (t : Int) (qstk : List String) (A : List CetElem)
    (r : Nat) (hr : r ≤ qstk.length) (m : Int) (hm : 0 ≤ m) (f : String)
    (hfne : f.data ≠ []) (hfw : ∀ c ∈ f.data, isWordChar c = true)
    (hfE : ¬(f = CET_END)) :
    parseLineStep (midParseState t qstk A) (callLineStr (pint m) (qstk.length - r) f) =
      .ok (midParseState t (f :: qstk.drop r)
        (A ++ (qstk.take r).map (mkReturnElem t (String.mk (natReprChars m.toNat))) ++
          [mkCallElem t (String.mk (natReprChars m.toNat)) f])) := by
  unfold parseLineStep
  rw [combinedLine_mid]
  dsimp only
  rw [strip_callLine m hm (qstk.length - r) f hfne hfw]
  rw [matchCallLine_word m.toNat (qstk.length - r) f hfne hfw]
  dsimp only
  rw [show (midParseState t qstk A).curLevel =
    (if qstk.isEmpty then (-1 : Int) else ((qstk.length : Nat) : Int) - 1) from rfl]
  rw [show (midParseState t qstk A).stack = qstk from rfl]
  rw [show (midParseState t qstk A).curThread = t from rfl]
  rw [show (midParseState t qstk A).acc = A from rfl]
  have hcnt : (if ((qstk.length - r : Nat) : Int) =
      (if qstk.isEmpty then (-1 : Int) else ((qstk.length : Nat) : Int) - 1) then (1 : Nat)
    else if ((qstk.length - r : Nat) : Int) <
      (if qstk.isEmpty then (-1 : Int) else ((qstk.length : Nat) : Int) - 1) then
      ((if qstk.isEmpty then (-1 : Int) else ((qstk.length : Nat) : Int) - 1) -
        ((qstk.length - r : Nat) : Int) + 1).toNat
    else 0) = r := by
    cases qstk with
    | nil =>
      simp only [List.length_nil] at hr
      have hr0 : r = 0 := Nat.le_zero.mp hr
      subst hr0
      decide
    | cons q qs =>
      simp only [List.isEmpty_cons, Bool.false_eq_true, if_false,
        List.length_cons] at hr ⊢
      split_ifs with h1 h2 <;> omega
  rw [hcnt]
  rw [popReturns_ok t (String.mk (natReprChars m.toNat)) r qstk hr]
  dsimp only
  rw [if_neg hfE]
  unfold midParseState
  have hlvl : ((qstk.length - r : Nat) : Int) =
      if (f :: qstk.drop r).isEmpty then (-1 : Int)
      else (((f :: qstk.drop r).length : Nat) : Int) - 1 := by
    simp only [List.isEmpty_cons, Bool.false_eq_true, if_false,
      List.length_cons, List.length_drop]
    omega
  rw [hlvl]

/-! ## C1 (revised): printer steps inside a block -/

theorem stringifyThread_pyStr (t : Int) (e : CetElem) (hth : e.thread = pint t) :
    pyStr (stringifyThread e).thread = intReprStr t := by
  show pyStr (pstr (pyStr e.thread)) = _
  rw [hth]
  rfl

theorem threadAdjust_same (t : Int) (stk : List String) :
    threadAdjust (midPrintState t stk) (intReprStr t) = ([], midPrintState t stk) := by
  unfold threadAdjust midPrintState
  dsimp only
  rw [if_pos rfl]

theorem printStep_call_mid (t : Int) (stk : List String) (e : CetElem)
    (hop : e.op = CET_OP_CALL) (hth : e.thread = pint t)
    (f : String) (hdn : e.display_name = pstr f) :
    printStep (midPrintState t stk) (stringifyThread e) =
      some ([.textLine (callLineStr e.line stk.length f)],
        midPrintState t (f :: stk)) := by
  unfold printStep
  rw [stringifyThread_pyStr t e hth]
  dsimp only
  rw [threadAdjust_same]
  dsimp only
  have hbody : elemBody (midPrintState t stk).level (intReprStr t)
      (midPrintState t stk).stack (stringifyThread e) =
      some ([.textLine (callLineStr e.line stk.length f)],
        ((stk.length : Nat) : Int) + 1, pstr f :: stk.map pstr) := by
    unfold elemBody stringifyThread midPrintState
    dsimp only
    rw [hop, hdn]
    rw [if_neg (by decide), if_pos rfl]
    rw [show (((stk.length : Nat) : Int)).toNat = stk.length from by simp]
    rfl
  rw [hbody]
  dsimp only
  unfold midPrintState
  rw [show (((f :: stk).length : Nat) : Int) = ((stk.length : Nat) : Int) + 1 from by
    simp]
  rfl

theorem printStep_return_mid (t : Int) (stk2 : List String) (f : String) (e : CetElem)
    (hop : e.op = CET_OP_RETURN) (hth : e.thread = pint t)
    (hdn : e.display_name = pstr f) :
    printStep (midPrintState t (f :: stk2)) (stringifyThread e) =
      some ([], midPrintState t stk2) := by
  unfold printStep
  rw [stringifyThread_pyStr t e hth]
  dsimp only
  rw [threadAdjust_same]
  dsimp only
  have hbody : elemBody (midPrintState t (f :: stk2)).level (intReprStr t)
      (midPrintState t (f :: stk2)).stack (stringifyThread e) =
      some ([], (((f :: stk2).length : Nat) : Int) - 1, stk2.map pstr) := by
    unfold elemBody stringifyThread midPrintState
    dsimp only
    rw [hop, hdn]
    rw [if_pos rfl]
    dsimp only [List.map_cons]
    rw [show pyEq (pstr f) (pstr f) = true from by simp [pyEq]]
    rfl
  rw [hbody]
  dsimp only
  unfold midPrintState
  rw [show (((f :: stk2).length : Nat) : Int) - 1 = ((stk2.length : Nat) : Int) from by
    simp]
  rfl

theorem printStep_assume_mid (t : Int) (ht : 0 ≤ t) (stk : List String) (e : CetElem)
    (hop : e.op = CET_OP_ASSUME) (hth : e.thread = pint t)
    (hdn : e.display_name = pbool true) (s : String) (hsrc : e.source = pstr s) :
    printStep (midPrintState t stk) (stringifyThread e) =
      some ([.textLine (assumeLineStr e.line (leafIndent t stk.length) s)],
        midPrintState t stk) := by
  unfold printStep
  rw [stringifyThread_pyStr t e hth]
  dsimp only
  rw [threadAdjust_same]
  dsimp only
  have hsp : (if ((stk.length : Nat) : Int) > 0 then
      some (spacesN (((stk.length : Nat) : Int)).toNat)
    else (pyIntOfString (intReprStr t)).map (fun k => spacesN k.toNat)) =
      some (spacesN (leafIndent t stk.length)) := by
    unfold leafIndent
    by_cases h0 : 0 < stk.length
    · rw [if_pos (by exact_mod_cast h0), if_pos h0]
      rw [show (((stk.length : Nat) : Int)).toNat = stk.length from by simp]
    · rw [if_neg (by omega), if_neg h0, pyIntOfString_intRepr t ht]
      rfl
  have hbody : elemBody (midPrintState t stk).level (intReprStr t)
      (midPrintState t stk).stack (stringifyThread e) =
      some ([.textLine (assumeLineStr e.line (leafIndent t stk.length) s)],
        ((stk.length : Nat) : Int), stk.map pstr) := by
    unfold elemBody stringifyThread midPrintState
    dsimp only
    rw [hop, hdn, hsrc]
    rw [if_neg (by decide), if_neg (by decide), if_pos (by decide)]
    rw [hsp]
    dsimp only
    rw [if_pos rfl]
    rw [show pyTruthy (pbool true) = true from rfl]
    rw [if_pos rfl]
    rfl
  rw [hbody]
  dsimp only
  rfl

theorem printStep_generic_mid (t : Int) (ht : 0 ≤ t) (stk : List String) (e : CetElem)
    (hops : e.op = CET_OP_ASSIGN ∨ e.op = CET_OP_NOTE ∨ e.op = CET_OP_WARN)
    (hth : e.thread = pint t) (s : String)
    (hsrc : e.source = pstr s) (hdn : e.display_name = pstr s) :
    printStep (midPrintState t stk) (stringifyThread e) =
      some ([.textLine (genericLineStr e.line (leafIndent t stk.length) e.op s)],
        midPrintState t stk) := by
  unfold printStep
  rw [stringifyThread_pyStr t e hth]
  dsimp only
  rw [threadAdjust_same]
  dsimp only
  have hsp : (if ((stk.length : Nat) : Int) > 0 then
      some (spacesN (((stk.length : Nat) : Int)).toNat)
    else (pyIntOfString (intReprStr t)).map (fun k => spacesN k.toNat)) =
      some (spacesN (leafIndent t stk.length)) := by
    unfold leafIndent
    by_cases h0 : 0 < stk.length
    · rw [if_pos (by exact_mod_cast h0), if_pos h0]
      rw [show (((stk.length : Nat) : Int)).toNat = stk.length from by simp]
    · rw [if_neg (by omega), if_neg h0, pyIntOfString_intRepr t ht]
      rfl
  have hbody : elemBody (midPrintState t stk).level (intReprStr t)
      (midPrintState t stk).stack (stringifyThread e) =
      some ([.textLine (genericLineStr e.line (leafIndent t stk.length) e.op s)],
        ((stk.length : Nat) : Int), stk.map pstr) := by
    unfold elemBody stringifyThread midPrintState
    dsimp only
    rw [hdn, hsrc]
    rcases hops with hop | hop | hop
    · rw [hop]
      rw [if_neg (by decide), if_neg (by decide), if_pos (by decide)]
      rw [hsp]
      dsimp only
      rw [if_neg (by decide), if_pos rfl]
      rfl
    · rw [hop]
      rw [if_neg (by decide), if_neg (by decide), if_pos (by decide)]
      rw [hsp]
      dsimp only
      rw [if_neg (by decide), if_neg (by decide)]
      rfl
    · rw [hop]
      rw [if_neg (by decide), if_neg (by decide), if_pos (by decide)]
      rw [hsp]
      dsimp only
      rw [if_neg (by decide), if_neg (by decide)]
      rfl
  rw [hbody]
  dsimp only
  rfl

/-! ## C1 (revised): unpacking the class predicates -/

theorem callElemB_unpack (t : Int) (e : CetElem) (h : callElemB t e = true) :
    e.op = CET_OP_CALL ∧ e.thread = pint t ∧
    (∃ m : Int, e.line = pint m ∧ 0 ≤ m) ∧ e.source = pnone ∧
    ∃ f : String, e.display_name = pstr f ∧ f.data ≠ [] ∧
      (∀ c ∈ f.data, isWordChar c = true) ∧ ¬(f = CET_END) := by
  unfold callElemB at h
  simp only [Bool.and_eq_true, beq_iff_eq] at h
  obtain ⟨⟨⟨⟨h1, h2⟩, h3⟩, h4⟩, h5⟩ := h
  refine ⟨h1, h2, ?_, h4, ?_⟩
  · cases hl : e.line with
    | pint mm =>
      rw [hl] at h3
      exact ⟨mm, rfl, of_decide_eq_true h3⟩
    | pnone => rw [hl] at h3; cases h3
    | pbool b => rw [hl] at h3; cases h3
    | pstr s2 => rw [hl] at h3; cases h3
  · cases hd : e.display_name with
    | pstr f =>
      rw [hd] at h5
      unfold funcNameB at h5
      simp only [Bool.and_eq_true, bne_iff_ne, ne_eq, List.all_eq_true] at h5
      obtain ⟨⟨hne, hall⟩, hend⟩ := h5
      refine ⟨f, rfl, ?_, hall, hend⟩
      intro hnil
      exact hne (congrArg String.mk hnil)
    | pnone => rw [hd] at h5; cases h5
    | pbool b => rw [hd] at h5; cases h5
    | pint mm => rw [hd] at h5; cases h5

theorem retElemB_unpack (t : Int) (e : CetElem) (h : retElemB t e = true) :
    e.op = CET_OP_RETURN ∧ e.thread = pint t ∧ e.source = pnone := by
  unfold retElemB at h
  simp only [Bool.and_eq_true, beq_iff_eq] at h
  exact ⟨h.1.1, h.1.2, h.2⟩

theorem leafElemB_unpack (t : Int) (e : CetElem) (h : leafElemB t e = true) :
    e.thread = pint t ∧ (∃ m : Int, e.line = pint m ∧ 0 ≤ m) ∧
    ((e.op = CET_OP_ASSUME ∧ e.display_name = pbool true ∧
      ∃ s : String, e.source = pstr s ∧ s.data ≠ [] ∧
        (∀ c ∈ s.data, isLineBreakChar c = false) ∧
        (∀ c cs2, s.data = c :: cs2 → ¬(c = '!'))) ∨
     ((e.op = CET_OP_ASSIGN ∨ e.op = CET_OP_NOTE ∨ e.op = CET_OP_WARN) ∧
      ∃ s : String, e.source = pstr s ∧ e.display_name = pstr s ∧ s.data ≠ [] ∧
        (∀ c ∈ s.data, isLineBreakChar c = false))) := by
  unfold leafElemB at h
  simp only [Bool.and_eq_true, Bool.or_eq_true, beq_iff_eq] at h
  obtain ⟨⟨h1, h2⟩, h3⟩ := h
  refine ⟨h1, ?_, ?_⟩
  · cases hl : e.line with
    | pint mm =>
      rw [hl] at h2
      exact ⟨mm, rfl, of_decide_eq_true h2⟩
    | pnone => rw [hl] at h2; cases h2
    | pbool b => rw [hl] at h2; cases h2
    | pstr s2 => rw [hl] at h2; cases h2
  · rcases h3 with ⟨⟨hop, hdn⟩, hsrc⟩ | ⟨hops, hsd⟩
    · left
      cases hs : e.source with
      | pstr s =>
        rw [hs] at hsrc
        simp only [Bool.and_eq_true] at hsrc
        obtain ⟨hnice, hhd⟩ := hsrc
        unfold niceTextB at hnice
        simp only [Bool.and_eq_true, bne_iff_ne, ne_eq, List.all_eq_true,
          Bool.not_eq_true'] at hnice
        refine ⟨hop, hdn, s, rfl, ?_, hnice.2, ?_⟩
        · intro hnil
          exact hnice.1 (congrArg String.mk hnil)
        · intro c cs2 heq
          rw [heq] at hhd
          exact of_decide_eq_true hhd
      | pnone => rw [hs] at hsrc; cases hsrc
      | pbool b => rw [hs] at hsrc; cases hsrc
      | pint mm => rw [hs] at hsrc; cases hsrc
    · right
      cases hs : e.source with
      | pstr s =>
        cases hd : e.display_name with
        | pstr u =>
          rw [hs, hd] at hsd
          simp only [Bool.and_eq_true, beq_iff_eq] at hsd
          obtain ⟨hsu, hnice⟩ := hsd
          subst hsu
          unfold niceTextB at hnice
          simp only [Bool.and_eq_true, bne_iff_ne, ne_eq, List.all_eq_true,
            Bool.not_eq_true'] at hnice
          refine ⟨by tauto, s, rfl, rfl, ?_, hnice.2⟩
          intro hnil
          exact hnice.1 (congrArg String.mk hnil)
        | pnone => rw [hs, hd] at hsd; cases hsd
        | pbool b => rw [hs, hd] at hsd; cases hsd
        | pint mm => rw [hs, hd] at hsd; cases hsd
      | pnone => rw [hs] at hsd; cases hsd
      | pbool b => rw [hs] at hsd; cases hsd
      | pint mm => rw [hs] at hsd; cases hsd

theorem padLine_no_break (m : Int) (hm : 0 ≤ m) :
    ∀ c ∈ (padLine (pint m)).data, isLineBreakChar c = false := by
  obtain ⟨k, hk⟩ := padLine_decompose m hm
  rw [hk]
  intro c hc
  rcases List.mem_append.mp hc with h | h
  · rw [List.eq_of_mem_replicate h]
    decide
  · exact digit_not_break (natReprChars_mem_digits _ c h)

theorem callLineStr_no_break (m : Int) (hm : 0 ≤ m) (lvl : Nat) (f : String)
    (hfw : ∀ c ∈ f.data, isWordChar c = true) :
    ∀ c ∈ (callLineStr (pint m) lvl f).data, isLineBreakChar c = false := by
  intro c hc
  rw [callLineStr_data] at hc
  rcases List.mem_append.mp hc with h | h
  · exact padLine_no_break m hm c h
  · rcases List.mem_cons.mp h with rfl | h2
    · decide
    rcases List.mem_cons.mp h2 with rfl | h3
    · decide
    rcases List.mem_append.mp h3 with h4 | h4
    · rw [List.eq_of_mem_replicate h4]
      decide
    · exact wordChar_not_break (hfw c h4)

theorem assumeLineStr_no_break (m : Int) (hm : 0 ≤ m) (k : Nat) (s : String)
    (hsb : ∀ c ∈ s.data, isLineBreakChar c = false) :
    ∀ c ∈ (assumeLineStr (pint m) k s).data, isLineBreakChar c = false := by
  intro c hc
  rw [assumeLineStr_data] at hc
  rcases List.mem_append.mp hc with h | h
  · exact padLine_no_break m hm c h
  · rcases List.mem_cons.mp h with rfl | h2
    · decide
    rcases List.mem_cons.mp h2 with rfl | h3
    · decide
    rcases List.mem_append.mp h3 with h4 | h4
    · rw [List.eq_of_mem_replicate h4]
      decide
    rcases List.mem_cons.mp h4 with rfl | h5
    · decide
    rcases List.mem_cons.mp h5 with rfl | h6
    · decide
    rcases List.mem_cons.mp h6 with rfl | h7
    · decide
    rcases List.mem_cons.mp h7 with rfl | h8
    · decide
    rcases List.mem_cons.mp h8 with rfl | h9
    · decide
    rcases List.mem_cons.mp h9 with rfl | h10
    · decide
    rcases List.mem_cons.mp h10 with rfl | h11
    · decide
    rcases List.mem_append.mp h11 with h12 | h12
    · exact hsb c h12
    · rcases List.mem_singleton.mp h12 with rfl
      decide

theorem genericLineStr_no_break (m : Int) (hm : 0 ≤ m) (k : Nat) (op txt : String)
    (hopw : ∀ c ∈ op.data, isWordChar c = true)
    (htb : ∀ c ∈ txt.data, isLineBreakChar c = false) :
    ∀ c ∈ (genericLineStr (pint m) k op txt).data, isLineBreakChar c = false := by
  intro c hc
  rw [genericLineStr_data] at hc
  rcases List.mem_append.mp hc with h | h
  · exact padLine_no_break m hm c h
  · rcases List.mem_cons.mp h with rfl | h2
    · decide
    rcases List.mem_cons.mp h2 with rfl | h3
    · decide
    rcases List.mem_append.mp h3 with h4 | h4
    · rw [List.eq_of_mem_replicate h4]
      decide
    rcases List.mem_append.mp h4 with h5 | h5
    · exact wordChar_not_break (hopw c h5)
    rcases List.mem_cons.mp h5 with rfl | h6
    · decide
    rcases List.mem_cons.mp h6 with rfl | h7
    · decide
    rcases List.mem_cons.mp h7 with rfl | h8
    · decide
    rcases List.mem_append.mp h8 with h9 | h9
    · exact htb c h9
    · rcases List.mem_singleton.mp h9 with rfl
      decide

/-! ## C1 (revised): printer fold helpers -/

theorem printFold_cons_eq (st : PrintState) (e : CetElem) (rest : List CetElem) :
    printFold st (e :: rest) =
      match printStep st e with
      | none => none
      | some (ls, st2) =>
        match printFold st2 rest with
        | none => none
        | some (ls2, st3) => some (ls ++ ls2, st3) := rfl

theorem printFold_append (l1 l2 : List CetElem) :
    ∀ st, printFold st (l1 ++ l2) =
      match printFold st l1 with
      | none => none
      | some (ls1, st1) =>
        match printFold st1 l2 with
        | none => none
        | some (ls2, st2) => some (ls1 ++ ls2, st2) := by
  induction l1 with
  | nil =>
    intro st
    show printFold st l2 = _
    rw [show printFold st ([] : List CetElem) = some ([], st) from rfl]
    dsimp only
    cases h : printFold st l2 with
    | none => rfl
    | some p =>
      obtain ⟨ls2, st2⟩ := p
      dsimp only
      rw [List.nil_append]
  | cons e l1 ih =>
    intro st
    rw [show ((e :: l1) ++ l2 : List CetElem) = e :: (l1 ++ l2) from rfl]
    rw [printFold_cons_eq, printFold_cons_eq]
    cases hs : printStep st e with
    | none => rfl
    | some p =>
      obtain ⟨ls, st2⟩ := p
      dsimp only
      rw [ih st2]
      cases h1 : printFold st2 l1 with
      | none => rfl
      | some q =>
        obtain ⟨ls1, st3⟩ := q
        dsimp only
        cases h2 : printFold st3 l2 with
        | none => rfl
        | some q2 =>
          obtain ⟨ls2, st4⟩ := q2
          dsimp only
          rw [List.append_assoc]

theorem printFold_shift (st st2 : PrintState) (e : CetElem) (rest : List CetElem)
    (mls : List OutLine)
    (h1 : threadAdjust st (pyStr e.thread) = (mls, st2))
    (h2 : st2.curThread = some (pyStr e.thread)) :
    printFold st (e :: rest) =
      match printFold st2 (e :: rest) with
      | none => none
      | some (ls, st3) => some (mls ++ ls, st3) := by
  have hadj2 : threadAdjust st2 (pyStr e.thread) = ([], st2) := by
    unfold threadAdjust
    rw [h2]
    dsimp only
    rw [if_pos rfl]
  have hstep2 : printStep st2 e =
      match elemBody st2.level (pyStr e.thread) st2.stack e with
      | none => none
      | some (ls2, lvl, stk) =>
        some (ls2, { level := lvl, curThread := st2.curThread, stack := stk }) := by
    unfold printStep
    dsimp only
    rw [hadj2]
    dsimp only
    cases hb : elemBody st2.level (pyStr e.thread) st2.stack e with
    | none => rfl
    | some p =>
      obtain ⟨ls2, lvl, stk⟩ := p
      dsimp only
      rw [List.nil_append]
  have hstep1 : printStep st e =
      match printStep st2 e with
      | none => none
      | some (ls, st3) => some (mls ++ ls, st3) := by
    rw [hstep2]
    unfold printStep
    dsimp only
    rw [h1]
    dsimp only
    cases hb : elemBody st2.level (pyStr e.thread) st2.stack e with
    | none => rfl
    | some p =>
      obtain ⟨ls2, lvl, stk⟩ := p
      dsimp only
  rw [printFold_cons_eq, printFold_cons_eq, hstep1]
  cases hs2 : printStep st2 e with
  | none => rfl
  | some p =>
    obtain ⟨ls, st3⟩ := p
    dsimp only
    cases hf : printFold st3 rest with
    | none => rfl
    | some q =>
      obtain ⟨ls2, st4⟩ := q
      dsimp only
      rw [List.append_assoc]

/-! ## C1 (revised): one thread block round-trips -/

theorem blockElemsB_cons (t : Int) (stk : List String) (inRet : Bool)
    (e : CetElem) (rest : List CetElem) :
    blockElemsB t stk inRet (e :: rest) =
      if e.op == CET_OP_CALL then
        callElemB t e &&
        (match e.display_name with
         | pstr f => blockElemsB t (f :: stk) false rest
         | _ => false)
      else if e.op == CET_OP_RETURN then
        (match stk with
         | [] => false
         | f :: stk2 =>
           retElemB t e && e.display_name == pstr f && blockElemsB t stk2 true rest)
      else !inRet && leafElemB t e && blockElemsB t stk false rest := rfl

theorem block_sim (t : Int) (ht : 0 ≤ t) :
    ∀ (b : List CetElem) (qstk : List String) (r : Nat) (inRet : Bool),
    blockElemsB t (qstk.drop r) inRet b = true →
    r ≤ qstk.length →
    (inRet = false → r = 0) →
    ∃ (ss : List String) (P : List CetElem),
      printFold (midPrintState t (qstk.drop r)) (b.map stringifyThread) =
        some (ss.map OutLine.textLine, midPrintState t []) ∧
      (∀ l ∈ ss, ∀ c ∈ l.data, isLineBreakChar c = false) ∧
      (∀ A : List CetElem,
        parseFold (midParseState t qstk A) (ss ++ [endMarkerLineStr]) =
          .ok { curThread := t + 1, curLevel := -1, stack := [], notParsed := "",
                acc := A ++ P }) ∧
      P.map projElem = (qstk.take r).map (retProj t) ++ b.map projElem := by
  intro b
  induction b with
  | nil =>
    intro qstk r inRet hb hr hr0
    have hstk : qstk.drop r = [] := List.isEmpty_iff.mp hb
    have hrlen : r = qstk.length := by
      have hle : qstk.length ≤ r := by
        by_contra hlt
        have : qstk.drop r ≠ [] := by
          intro hd
          have := List.length_drop r qstk ▸ congrArg List.length hd
          simp at this
          omega
        exact this hstk
      omega
    refine ⟨[], qstk.map (mkReturnElem t "0"), ?_, ?_, ?_, ?_⟩
    · rw [hstk]
      rfl
    · intro l hl
      cases hl
    · intro A
      rw [show ([] ++ [endMarkerLineStr] : List String) = [endMarkerLineStr] from rfl]
      rw [parseFold_cons, parseLineStep_marker_mid]
      rfl
    · rw [hrlen, List.take_length, List.map_map, List.map_nil, List.append_nil]
      exact List.map_congr_left (fun f _ => rfl)
  | cons e rest ih =>
    intro qstk r inRet hb hr hr0
    rw [blockElemsB_cons] at hb
    by_cases hcall : (e.op == CET_OP_CALL) = true
    · rw [if_pos hcall] at hb
      simp only [Bool.and_eq_true] at hb
      obtain ⟨hce, hmatch⟩ := hb
      obtain ⟨hop, hth, ⟨m, hm1, hm2⟩, hsrc, f, hdn, hfne, hfw, hfE⟩ :=
        callElemB_unpack t e hce
      rw [hdn] at hmatch
      obtain ⟨ss', P', hpf', hnb', hparse', hproj'⟩ :=
        ih (f :: qstk.drop r) 0 false hmatch (Nat.zero_le _) (fun _ => rfl)
      simp only [List.drop_zero] at hpf'
      refine ⟨callLineStr (pint m) (qstk.length - r) f :: ss',
        (qstk.take r).map (mkReturnElem t (String.mk (natReprChars m.toNat))) ++
          mkCallElem t (String.mk (natReprChars m.toNat)) f :: P', ?_, ?_, ?_, ?_⟩
      · rw [show ((e :: rest).map stringifyThread) =
          stringifyThread e :: rest.map stringifyThread from rfl]
        rw [printFold_cons_eq,
          printStep_call_mid t (qstk.drop r) e hop hth f hdn]
        dsimp only
        rw [hpf']
        dsimp only
        rw [hm1, List.length_drop]
        rfl
      · intro l hl
        rcases List.mem_cons.mp hl with rfl | h2
        · exact callLineStr_no_break m hm2 (qstk.length - r) f hfw
        · exact hnb' l h2
      · intro A
        rw [show (callLineStr (pint m) (qstk.length - r) f :: ss') ++
            [endMarkerLineStr] =
          callLineStr (pint m) (qstk.length - r) f :: (ss' ++ [endMarkerLineStr])
          from rfl]
        rw [parseFold_cons,
          parseLineStep_call_mid t qstk A r hr m hm2 f hfne hfw hfE]
        dsimp only
        rw [hparse'
          (A ++ (qstk.take r).map (mkReturnElem t (String.mk (natReprChars m.toNat))) ++
            [mkCallElem t (String.mk (natReprChars m.toNat)) f])]
        simp [List.append_assoc]
      · rw [show ((qstk.take r).map
            (mkReturnElem t (String.mk (natReprChars m.toNat))) ++
          mkCallElem t (String.mk (natReprChars m.toNat)) f :: P').map projElem =
          ((qstk.take r).map
            (mkReturnElem t (String.mk (natReprChars m.toNat)))).map projElem ++
          projElem (mkCallElem t (String.mk (natReprChars m.toNat)) f) ::
            P'.map projElem from by simp]
        rw [hproj']
        rw [List.map_map]
        rw [show (qstk.take r).map
            (projElem ∘ mkReturnElem t (String.mk (natReprChars m.toNat))) =
          (qstk.take r).map (retProj t) from
            List.map_congr_left (fun g _ => rfl)]
        rw [show ((f :: qstk.drop r).take 0).map (retProj t) = [] from rfl]
        rw [show projElem (mkCallElem t (String.mk (natReprChars m.toNat)) f) =
          projElem e from by
            unfold projElem mkCallElem
            rw [hop, hth, hdn, hsrc]]
        simp
    · by_cases hret : (e.op == CET_OP_RETURN) = true
      · rw [if_neg hcall, if_pos hret] at hb
        cases hdrop : qstk.drop r with
        | nil =>
          rw [hdrop] at hb
          cases hb
        | cons f stk2 =>
          rw [hdrop] at hb
          simp only [Bool.and_eq_true, beq_iff_eq] at hb
          obtain ⟨⟨hre, hdnf⟩, hb2⟩ := hb
          obtain ⟨hop, hth, hsrc⟩ := retElemB_unpack t e hre
          have hrlt : r < qstk.length := by
            by_contra hge
            rw [List.drop_eq_nil_of_le (by omega)] at hdrop
            cases hdrop
          have hdrop2 : qstk.drop (r + 1) = stk2 := by
            rw [← List.tail_drop, hdrop]
            rfl
          obtain ⟨ss', P', hpf', hnb', hparse', hproj'⟩ :=
            ih qstk (r + 1) true (by rw [hdrop2]; exact hb2) (by omega)
              (fun h => absurd h (by decide))
          refine ⟨ss', P', ?_, hnb', hparse', ?_⟩
          · rw [show ((e :: rest).map stringifyThread) =
              stringifyThread e :: rest.map stringifyThread from rfl]
            rw [printFold_cons_eq,
              printStep_return_mid t stk2 f e hop hth hdnf]
            dsimp only
            rw [← hdrop2, hpf']
            dsimp only
            rw [List.nil_append]
          · rw [hproj']
            have hget : qstk[r]? = some f := by
              rw [← List.head?_drop, hdrop]
              rfl
            rw [List.take_succ, hget]
            rw [show (qstk.take r ++ (some f).toList).map (retProj t) =
              (qstk.take r).map (retProj t) ++ [retProj t f] from by simp]
            rw [List.map_cons]
            rw [show projElem e = retProj t f from by
              unfold projElem retProj
              rw [hop, hth, hdnf, hsrc]]
            simp
      · rw [if_neg hcall, if_neg hret] at hb
        simp only [Bool.and_eq_true] at hb
        obtain ⟨⟨hir, hle⟩, hb2⟩ := hb
        have hinr : inRet = false := by
          cases inRet with
          | false => rfl
          | true => cases hir
        have hr00 : r = 0 := hr0 hinr
        subst hr00
        rw [show qstk.drop 0 = qstk from by simp] at hb2 ⊢
        obtain ⟨hth, ⟨m, hm1, hm2⟩, hcases⟩ := leafElemB_unpack t e hle
        obtain ⟨ss', P', hpf', hnb', hparse', hproj'⟩ :=
          ih qstk 0 false hb2 (Nat.zero_le _) (fun _ => rfl)
        simp only [List.drop_zero] at hpf'
        rcases hcases with ⟨hop, hdn, s, hsrc, hsne, hsnb, hshd⟩ |
          ⟨hops, s, hsrc, hdn, hsne, hsnb⟩
        · refine ⟨assumeLineStr (pint m) (leafIndent t qstk.length) s ::
            ss', mkAssumeElem t (String.mk (natReprChars m.toNat)) false s ::
              P', ?_, ?_, ?_, ?_⟩
          · rw [show ((e :: rest).map stringifyThread) =
              stringifyThread e :: rest.map stringifyThread from rfl]
            rw [printFold_cons_eq,
              printStep_assume_mid t ht qstk e hop hth hdn s hsrc]
            dsimp only
            rw [hpf']
            dsimp only
            rw [hm1]
            rfl
          · intro l hl
            rcases List.mem_cons.mp hl with rfl | h2
            · exact assumeLineStr_no_break m hm2 _ s hsnb
            · exact hnb' l h2
          · intro A
            rw [show (assumeLineStr (pint m) (leafIndent t qstk.length) s :: ss') ++
                [endMarkerLineStr] =
              assumeLineStr (pint m) (leafIndent t qstk.length) s ::
                (ss' ++ [endMarkerLineStr]) from rfl]
            rw [parseFold_cons,
              parseLineStep_assume_mid t qstk A m hm2 (leafIndent t qstk.length) s
                hsne hsnb hshd]
            dsimp only
            rw [hparse'
              (A ++ [mkAssumeElem t (String.mk (natReprChars m.toNat)) false s])]
            simp [List.append_assoc]
          · rw [show (mkAssumeElem t (String.mk (natReprChars m.toNat)) false s ::
              P').map projElem =
              projElem (mkAssumeElem t (String.mk (natReprChars m.toNat)) false s) ::
                P'.map projElem from rfl]
            rw [hproj']
            rw [show projElem (mkAssumeElem t (String.mk (natReprChars m.toNat))
                false s) = projElem e from by
              unfold projElem mkAssumeElem
              rw [hop, hth, hdn, hsrc]
              rfl]
            simp
        · refine ⟨genericLineStr (pint m) (leafIndent t qstk.length) e.op s ::
            ss', mkGenericElem t (String.mk (natReprChars m.toNat)) e.op s ::
              P', ?_, ?_, ?_, ?_⟩
          · rw [show ((e :: rest).map stringifyThread) =
              stringifyThread e :: rest.map stringifyThread from rfl]
            rw [printFold_cons_eq,
              printStep_generic_mid t ht qstk e hops hth s hsrc hdn]
            dsimp only
            rw [hpf']
            dsimp only
            rw [hm1]
            rfl
          · intro l hl
            rcases List.mem_cons.mp hl with rfl | h2
            · exact genericLineStr_no_break m hm2 _ e.op s
                (by rcases hops with hop | hop | hop <;> rw [hop] <;> decide) hsnb
            · exact hnb' l h2
          · intro A
            rw [show (genericLineStr (pint m) (leafIndent t qstk.length) e.op s ::
                ss') ++ [endMarkerLineStr] =
              genericLineStr (pint m) (leafIndent t qstk.length) e.op s ::
                (ss' ++ [endMarkerLineStr]) from rfl]
            rw [parseFold_cons,
              parseLineStep_generic_mid t qstk A m hm2 (leafIndent t qstk.length)
                e.op s hops hsne hsnb]
            dsimp only
            rw [hparse'
              (A ++ [mkGenericElem t (String.mk (natReprChars m.toNat)) e.op s])]
            simp [List.append_assoc]
          · rw [show (mkGenericElem t (String.mk (natReprChars m.toNat)) e.op s ::
              P').map projElem =
              projElem (mkGenericElem t (String.mk (natReprChars m.toNat)) e.op s) ::
                P'.map projElem from rfl]
            rw [hproj']
            rw [show projElem (mkGenericElem t (String.mk (natReprChars m.toNat))
                e.op s) = projElem e from by
              unfold projElem mkGenericElem
              rw [hth, hdn, hsrc]]
            simp

/-! ## C1 (revised): gluing the blocks -/

theorem blockElemsB_head_thread (t : Int) (stk : List String) (inRet : Bool)
    (e : CetElem) (rest : List CetElem)
    (h : blockElemsB t stk inRet (e :: rest) = true) : e.thread = pint t := by
  rw [blockElemsB_cons] at h
  by_cases hcall : (e.op == CET_OP_CALL) = true
  · rw [if_pos hcall] at h
    simp only [Bool.and_eq_true] at h
    exact (callElemB_unpack t e h.1).2.1
  · by_cases hret : (e.op == CET_OP_RETURN) = true
    · rw [if_neg hcall, if_pos hret] at h
      cases stk with
      | nil => cases h
      | cons f stk2 =>
        simp only [Bool.and_eq_true] at h
        exact (retElemB_unpack t e h.1.1).2.1
    · rw [if_neg hcall, if_neg hret] at h
      simp only [Bool.and_eq_true] at h
      exact (leafElemB_unpack t e h.1.2).1

theorem threadAdjust_boundary (t : Int) (ht : 0 ≤ t) :
    threadAdjust (midPrintState t []) (intReprStr (t + 1)) =
      ([OutLine.marker 0], midPrintState (t + 1) []) := by
  unfold threadAdjust midPrintState
  dsimp only
  rw [if_neg (fun h => by
    have := intReprStr_injOnNonneg t (t + 1) ht (by omega) h
    omega)]
  rfl

theorem goodBlocksB_cons (t : Int) (b : List CetElem) (bs : List (List CetElem)) :
    goodBlocksB t (b :: bs) =
      (!b.isEmpty && blockElemsB t [] false b && goodBlocksB (t + 1) bs) := rfl

theorem blocks_sim : ∀ (bs : List (List CetElem)) (t : Int), 0 ≤ t →
    goodBlocksB t bs = true →
    ∃ (ls : List OutLine) (c2 : String) (t2 : Int) (P : List CetElem),
      printFold (midPrintState t []) (bs.flatten.map stringifyThread) =
        some (ls, { level := 0, curThread := some c2, stack := [] }) ∧
      (∀ l ∈ ls, ∀ ch ∈ (outText l).data, isLineBreakChar ch = false) ∧
      (∀ A : List CetElem,
        parseFold (midParseState t [] A) (ls.map outText ++ [endMarkerLineStr]) =
          .ok { curThread := t2, curLevel := -1, stack := [], notParsed := "",
                acc := A ++ P }) ∧
      P.map projElem = bs.flatten.map projElem := by
  intro bs
  induction bs with
  | nil =>
    intro t ht hg
    refine ⟨[], intReprStr t, t + 1, [], ?_, ?_, ?_, rfl⟩
    · rfl
    · intro l hl
      cases hl
    · intro A
      rw [show (([] : List OutLine).map outText ++ [endMarkerLineStr]) =
        [endMarkerLineStr] from rfl]
      rw [parseFold_cons, parseLineStep_marker_mid t [] A]
      rfl
  | cons b bs2 ih =>
    intro t ht hg
    rw [goodBlocksB_cons] at hg
    simp only [Bool.and_eq_true] at hg
    obtain ⟨⟨hbne, hblock⟩, hrest⟩ := hg
    obtain ⟨ss, Pb, hpf, hnb, hparse, hproj⟩ :=
      block_sim t ht b [] 0 false hblock (Nat.zero_le _) (fun _ => rfl)
    simp only [List.drop_zero] at hpf
    simp only [List.take_nil, List.map_nil, List.nil_append] at hproj
    cases bs2 with
    | nil =>
      refine ⟨ss.map OutLine.textLine, intReprStr t, t + 1, Pb, ?_, ?_, ?_, ?_⟩
      · rw [show (List.flatten [b]) = b ++ [] from rfl, List.append_nil]
        exact hpf
      · intro l hl
        obtain ⟨s0, hs0, rfl⟩ := List.mem_map.mp hl
        exact hnb s0 hs0
      · intro A
        rw [List.map_map]
        rw [show ss.map (outText ∘ OutLine.textLine) = ss from
          (List.map_congr_left (fun s0 _ => rfl)).trans (List.map_id ss)]
        exact hparse A
      · rw [show (List.flatten [b]) = b ++ [] from rfl, List.append_nil]
        exact hproj
    | cons b2 bs3 =>
      have hrest2 := hrest
      rw [goodBlocksB_cons] at hrest2
      simp only [Bool.and_eq_true] at hrest2
      obtain ⟨⟨hb2ne, hb2block⟩, _⟩ := hrest2
      obtain ⟨e2, b2t, hb2⟩ : ∃ e2 b2t, b2 = e2 :: b2t := by
        cases hb2c : b2 with
        | nil => rw [hb2c] at hb2ne; cases hb2ne
        | cons x y => exact ⟨x, y, rfl⟩
      have he2th : e2.thread = pint (t + 1) := by
        apply blockElemsB_head_thread (t + 1) [] false e2 b2t
        rw [← hb2]
        exact hb2block
      obtain ⟨ls', c2', t2', P', hpf2, hnb2, hparse2, hproj2⟩ :=
        ih (t + 1) (by omega) hrest
      have hflat : (b :: b2 :: bs3).flatten = b ++ (b2 :: bs3).flatten := rfl
      have hflat2 : (b2 :: bs3).flatten = e2 :: (b2t ++ bs3.flatten) := by
        rw [show (b2 :: bs3).flatten = b2 ++ bs3.flatten from rfl, hb2]
        rfl
      have hshift : printFold (midPrintState t [])
          (((b2 :: bs3).flatten).map stringifyThread) =
          match printFold (midPrintState (t + 1) [])
            (((b2 :: bs3).flatten).map stringifyThread) with
          | none => none
          | some (ls, st3) => some (OutLine.marker 0 :: ls, st3) := by
        rw [hflat2]
        rw [show ((e2 :: (b2t ++ bs3.flatten)).map stringifyThread) =
          stringifyThread e2 :: ((b2t ++ bs3.flatten).map stringifyThread) from rfl]
        have hth2 : pyStr (stringifyThread e2).thread = intReprStr (t + 1) :=
          stringifyThread_pyStr (t + 1) e2 he2th
        rw [printFold_shift (midPrintState t []) (midPrintState (t + 1) [])
          (stringifyThread e2) ((b2t ++ bs3.flatten).map stringifyThread)
          [OutLine.marker 0]
          (by rw [hth2]; exact threadAdjust_boundary t ht)
          (by rw [hth2]; rfl)]
        cases hq : printFold (midPrintState (t + 1) [])
            (stringifyThread e2 :: (b2t ++ bs3.flatten).map stringifyThread) with
        | none => rfl
        | some p =>
          obtain ⟨lsq, stq⟩ := p
          rfl
      refine ⟨ss.map OutLine.textLine ++ OutLine.marker 0 :: ls', c2', t2',
        Pb ++ P', ?_, ?_, ?_, ?_⟩
      · rw [hflat, List.map_append, printFold_append, hpf]
        dsimp only
        rw [hshift, hpf2]
      · intro l hl
        rcases List.mem_append.mp hl with h1 | h1
        · obtain ⟨s0, hs0, rfl⟩ := List.mem_map.mp h1
          exact hnb s0 hs0
        · rcases List.mem_cons.mp h1 with rfl | h2
          · exact fun ch hch => endMarkerLineStr_no_break ch hch
          · exact hnb2 l h2
      · intro A
        have hsplit2 : (ss.map OutLine.textLine ++ OutLine.marker 0 :: ls').map
            outText ++ [endMarkerLineStr] =
            (ss ++ [endMarkerLineStr]) ++ (ls'.map outText ++ [endMarkerLineStr]) := by
          rw [List.map_append, List.map_map]
          rw [show ss.map (outText ∘ OutLine.textLine) = ss from
            (List.map_congr_left (fun s0 _ => rfl)).trans (List.map_id ss)]
          rw [show (OutLine.marker 0 :: ls').map outText =
            endMarkerLineStr :: ls'.map outText from rfl]
          simp
        rw [hsplit2, parseFold_append, hparse A]
        dsimp only
        rw [show (ParseState.mk (t + 1) (-1) [] "" (A ++ Pb)) =
          midParseState (t + 1) [] (A ++ Pb) from rfl]
        rw [hparse2 (A ++ Pb)]
        rw [List.append_assoc]
      · rw [hflat]
        simp only [List.map_append]
        rw [hproj, hproj2]

/-- Claim C1 (corrected): the parser is an exact left inverse of the
printer on the comparable fields `op`, `thread`, `display_name` and
`source` for every sequence of nonempty thread blocks numbered `0, 1, ...`
in which calls (word-named, `source = None`) are well nested with
name-matched returns closed inside their block, no leaf directly follows a
return, and every leaf is either a true assume whose break-free source
does not start with `!` or an assign/note/warn whose `source` and
`display_name` are one and the same nonempty break-free string.  The law
fails for general normalized sequences: `c1_counterexample` shows a false
assume whose `source` comes back wrapped in the negation parentheses. -/
theorem c1_round_trip_blocks (bs : List (List CetElem))
    (h : goodBlocksB 0 bs = true) :
    printParseProj bs.flatten = some (bs.flatten.map projElem) := by
  cases bs with
  | nil =>
    show printParseProj [] = some (([] : List CetElem).map projElem)
    decide
  | cons b bs2 =>
    obtain ⟨ls, c2, t2, P, hpf, hnb, hparse, hproj⟩ :=
      blocks_sim (b :: bs2) 0 (le_refl 0) h
    rw [goodBlocksB_cons] at h
    simp only [Bool.and_eq_true] at h
    obtain ⟨⟨hbne, hblock⟩, hrest⟩ := h
    obtain ⟨e0, b0, hb0⟩ : ∃ e0 b0, b = e0 :: b0 := by
      cases hbc : b with
      | nil => rw [hbc] at hbne; cases hbne
      | cons x y => exact ⟨x, y, rfl⟩
    have he0 : e0.thread = pint 0 := by
      apply blockElemsB_head_thread 0 [] false e0 b0
      rw [← hb0]
      exact hblock
    have hth0 : pyStr (stringifyThread e0).thread = intReprStr 0 :=
      stringifyThread_pyStr 0 e0 he0
    have hflat : ((b :: bs2).flatten) = e0 :: (b0 ++ bs2.flatten) := by
      rw [show (b :: bs2).flatten = b ++ bs2.flatten from rfl, hb0]
      rfl
    have hpf2 := hpf
    rw [hflat, show ((e0 :: (b0 ++ bs2.flatten)).map stringifyThread) =
      stringifyThread e0 :: ((b0 ++ bs2.flatten).map stringifyThread) from rfl]
      at hpf2
    have hinit : printFold initialPrintState
        (((b :: bs2).flatten).map stringifyThread) =
        some (ls, { level := 0, curThread := some c2, stack := [] }) := by
      rw [hflat, show ((e0 :: (b0 ++ bs2.flatten)).map stringifyThread) =
        stringifyThread e0 :: ((b0 ++ bs2.flatten).map stringifyThread) from rfl]
      rw [printFold_shift initialPrintState (midPrintState 0 [])
        (stringifyThread e0) ((b0 ++ bs2.flatten).map stringifyThread) []
        (by
          rw [hth0]
          rfl)
        (by
          rw [hth0]
          rfl)]
      rw [hpf2]
      dsimp only
      rw [List.nil_append]
    have hprint : error_trace_pretty_print ((b :: bs2).flatten) =
        some (renderLines (ls ++ [OutLine.marker 0])) := by
      unfold error_trace_pretty_print printLinesAndState
      dsimp only
      rw [hinit]
      dsimp only
      rfl
    have hrender : renderLines (ls ++ [OutLine.marker 0]) =
        String.join ((ls.map outText ++ [endMarkerLineStr]).map
          (fun l => l ++ "\n")) := by
      unfold renderLines
      congr 1
      rw [List.map_append, List.map_append, List.map_map]
      congr 1
      apply List.map_congr_left
      intro l _
      cases l <;> rfl
    have hsplit : pySplitLines (renderLines (ls ++ [OutLine.marker 0])) =
        ls.map outText ++ [endMarkerLineStr] := by
      rw [hrender]
      apply pySplitLines_joined
      · simp
      · intro l hl
        rcases List.mem_append.mp hl with h1 | h1
        · obtain ⟨l0, hl0, rfl⟩ := List.mem_map.mp h1
          exact hnb l0 hl0
        · rcases List.mem_singleton.mp h1 with rfl
          exact endMarkerLineStr_no_break
    have hparsed : error_trace_pretty_parse
        (renderLines (ls ++ [OutLine.marker 0])) = .ok P := by
      unfold error_trace_pretty_parse
      rw [hsplit]
      rw [show initialParseState = midParseState 0 [] [] from rfl]
      rw [hparse []]
      dsimp only
      rw [if_neg (by simp)]
      simp
    unfold printParseProj
    rw [hprint]
    dsimp only
    rw [hparsed]
    dsimp only
    rw [hproj]

/-- Witness for `c1_round_trip_blocks`: a concrete two-thread input with a
nested call, a true assume, a note, two returns and a second-thread assign
round-trips exactly on the comparable fields. -/
theorem c1_witness :
    goodBlocksB 0 c1Blocks = true ∧
    printParseProj c1Blocks.flatten = some (c1Blocks.flatten.map projElem) :=
  ⟨by decide, c1_round_trip_blocks c1Blocks (by decide)⟩
